import Mathlib

/-!
# Verification development for the editing core of `zed`

A shallow embedding of `cellview.go` (logical-to-visual layout), `search.go` (search and
replace), the cursor, selecting, searching, saving and jumping actions of `actions.go`, the
scrolling and closing of `view.go`, the prompts of `messenger.go` and the parts of
`buffer.go` they use.

Conventions of the embedding:

* a Go `string` holding valid UTF-8 is its sequence of runes, a `List Char`; byte
  offsets (the regexp package reports them) are recovered through `Char.utf8Size`;
* a Go `int` is an `Int`; `%` is Go's truncated remainder, `Int.tmod`, and `/` its
  truncated quotient, `Int.tdiv`;
* a run-time panic (index out of range, division by zero, negative `make`) is `none`;
* the packages `runewidth` and `regexp` and the helpers of `util.go` are not part of
  the sources at hand: `RuneWidth`, `StringWidth` and `Compile` are parameters.
-/

namespace Zed

/-! ## Data model -/

/-- Loc of `loc.go`: `X` is the rune column inside the line, `Y` the line number. -/
structure Loc where
  X : Int
  Y : Int
deriving DecidableEq

/-- The type `tcell.Style`; only passed around. -/
abbrev Style := Int

/-- The struct `Char` of `cellview.go` (one display cell). -/
structure Cell where
  visualLoc : Loc
  realLoc : Loc
  char : Char
  drawChar : Char
  style : Style
  width : Int
deriving DecidableEq

/-- One row of `CellView.lines`: a slice of `*Char`, `none` being the nil pointer. -/
abbrev Row := List (Option Cell)

/-- Modelled from the spec: `cursor.go` is not among the sources. The spec's cursor is a
location plus an anchor/active pair; the field names are the ones `actions.go` and
`search.go` use. -/
structure Cursor where
  Loc : Zed.Loc
  CurSelection : Zed.Loc × Zed.Loc
  OrigSelection : Zed.Loc × Zed.Loc
  LastVisualX : Int
deriving DecidableEq

/-- The struct `Buffer` of `buffer.go`, with the line array as a list of lines. -/
structure Buffer where
  lines : List (List Char)
  Cursor : Cursor
  IsModified : Bool
  NumLines : Int
deriving DecidableEq

/-- The method `Buffer.Line` (buffer.go:225): the empty string at or beyond the line count,
an index panic for a negative index. -/
def Buffer.Line (b : Buffer) (n : Int) : Option (List Char) :=
  if n ≥ (b.lines.length : Int) then some []
  else if n < 0 then none
  else b.lines[n.toNat]?

/-! ## cellview.go -/

/-- The loop of `visualToCharPos` (cellview.go:22-40). `first` is the test `i == 0`; the
other arguments are `charPos`, `lineIdx`, `lastWidth`, `width` and `rw`. -/
def visualToCharPosLoop (RuneWidth : Char → Int) (visualIndex tabsize : Int) :
    List Char → Bool → Int → Int → Int → Int → Int → Option (Int × Int × Option Style)
  | [], _, _, _, _, _, _ => some (-1, -1, none)
  | c :: cs, first, charPos, lineIdx, lastWidth, width, rw =>
    if width ≥ visualIndex then some (charPos, visualIndex - lastWidth, none)
    else
      let charPos1 := if first then charPos else charPos + 1
      let lineIdx1 := if first then lineIdx else lineIdx + rw
      if c = '\t' then
        if tabsize = 0 then none
        else
          let rw1 := tabsize - Int.tmod lineIdx1 tabsize
          visualToCharPosLoop RuneWidth visualIndex tabsize cs false charPos1 lineIdx1
            width (width + rw1) rw1
      else
        let rw1 := RuneWidth c
        visualToCharPosLoop RuneWidth visualIndex tabsize cs false charPos1 lineIdx1
          width (width + rw1) rw1

/-- The function `visualToCharPos` (cellview.go:15-43). The arguments `lineN` and `buf` are
unused by the source; the returned style is the nil pointer throughout. -/
def visualToCharPos (RuneWidth : Char → Int) (visualIndex : Int) (_lineN : Int)
    (str : List Char) (tabsize : Int) : Option (Int × Int × Option Style) :=
  visualToCharPosLoop RuneWidth visualIndex tabsize str true 0 0 0 0 0

/-- The filler loops of `Draw` (cellview.go:118-123 and 130-135): `n` iterations of
`viewCol++` followed by the guarded store of a filler cell. Returns the final `viewCol`. -/
def fillCells (char : Char) (curStyle : Style) (colN lineN viewLine lineLength : Int) :
    Nat → Int → Row → Int × Row
  | 0, viewCol, row => (viewCol, row)
  | n + 1, viewCol, row =>
    let viewCol1 := viewCol + 1
    let row1 :=
      if viewCol1 ≥ 0 ∧ viewCol1 < lineLength then
        row.set viewCol1.toNat
          (some ⟨⟨viewCol1, viewLine⟩, ⟨colN, lineN⟩, char, ' ', curStyle, 1⟩)
      else row
    fillCells char curStyle colN lineN viewLine lineLength n viewCol1 row1

/-- The loop `for viewCol < lineLength` of `Draw` (cellview.go:97-142), run on the runes
`line[colN:]`. The store at line 105 and the field updates at lines 110-115 and 128 act on
the same slot; they are written here as successive stores of the resulting cell. -/
def drawCells (RuneWidth : Char → Int) (curStyle : Style)
    (tabsize left lineLength viewLine lineN : Int) :
    List Char → Int → Int → Row → Option Row
  | [], _, _, row => some row
  | char :: rest, colN, viewCol, row =>
    if ¬ viewCol < lineLength then some row
    else
      let row1 :=
        if viewCol ≥ 0 then
          row.set viewCol.toNat
            (some ⟨⟨viewCol, viewLine⟩, ⟨colN, lineN⟩, char, char, curStyle, 1⟩)
        else row
      if char = '\t' then
        if tabsize = 0 then none
        else
          let charWidth := tabsize - Int.tmod (viewCol + left) tabsize
          let row2 :=
            if viewCol ≥ 0 then
              row1.set viewCol.toNat
                (some ⟨⟨viewCol, viewLine⟩, ⟨colN, lineN⟩, char, ' ', curStyle, charWidth⟩)
            else row1
          let r := fillCells char curStyle colN lineN viewLine lineLength
            (charWidth - 1).toNat viewCol row2
          drawCells RuneWidth curStyle tabsize left lineLength viewLine lineN
            rest (colN + 1) (r.1 + 1) r.2
      else if RuneWidth char > 1 then
        let charWidth := RuneWidth char
        let row2 :=
          if viewCol ≥ 0 then
            row1.set viewCol.toNat
              (some ⟨⟨viewCol, viewLine⟩, ⟨colN, lineN⟩, char, char, curStyle, charWidth⟩)
          else row1
        let r := fillCells char curStyle colN lineN viewLine lineLength
          (charWidth - 1).toNat viewCol row2
        drawCells RuneWidth curStyle tabsize left lineLength viewLine lineN
          rest (colN + 1) (r.1 + 1) r.2
      else
        drawCells RuneWidth curStyle tabsize left lineLength viewLine lineN
          rest (colN + 1) (viewCol + 1) row1

/-- One iteration of the outer loop of `Draw` (cellview.go:80-142) for the line `lineStr`:
the row appended to `c.lines`. `make` panics on a negative length. `curStyle` starts as
`defStyle` and is only reassigned from a non-nil `startStyle`. -/
def drawLine (RuneWidth : Char → Int) (StringWidth : List Char → Int → Int)
    (defStyle : Style) (tabsize left width : Int) (lineStr : List Char)
    (viewLine lineN : Int) : Option Row :=
  match visualToCharPos RuneWidth left lineN lineStr tabsize with
  | none => none
  | some (colN0, startOffset, startStyle) =>
    let colN := if colN0 < 0 then (lineStr.length : Int) else colN0
    let viewCol := -startOffset
    let curStyle := match startStyle with
      | some s => s
      | none => defStyle
    let lineLength := min (StringWidth lineStr tabsize) width
    if lineLength < 0 then none
    else
      drawCells RuneWidth curStyle tabsize left lineLength viewLine lineN
        (lineStr.drop colN.toNat) colN viewCol (List.replicate lineLength.toNat none)

/-- The outer loop `for viewLine < height` of `Draw` (cellview.go:75-147); `fuel` is the
number of iterations the loop condition still allows, `height - viewLine`. -/
def drawRows (RuneWidth : Char → Int) (StringWidth : List Char → Int → Int)
    (defStyle : Style) (tabsize : Int) (buf : Buffer) (left width : Int) :
    Nat → Int → Int → Option (List Row)
  | 0, _, _ => some []
  | fuel + 1, viewLine, lineN =>
    if lineN ≥ (buf.lines.length : Int) then some []
    else
      match buf.Line lineN with
      | none => none
      | some lineStr =>
        match drawLine RuneWidth StringWidth defStyle tabsize left width lineStr
            viewLine lineN with
        | none => none
        | some row =>
          match drawRows RuneWidth StringWidth defStyle tabsize buf left width fuel
              (viewLine + 1) (lineN + 1) with
          | none => none
          | some rows => some (row :: rows)

/-- The method `CellView.Draw` (cellview.go:60-154): the value of `c.lines` afterwards.
`tabsize` is the flag `*flagTabSize`, `defStyle` the global default style. -/
def Draw (RuneWidth : Char → Int) (StringWidth : List Char → Int → Int)
    (defStyle : Style) (tabsize : Int) (buf : Buffer) (top height left width : Int) :
    Option (List Row) :=
  drawRows RuneWidth StringWidth defStyle tabsize buf left width height.toNat 0 top

/-! ## Layout vocabulary used by the statements about `Draw` -/

/-- The number of cells `Draw` advances for the rune `c` whose first cell is at view
column `viewCol`: `charWidth` at cellview.go:108 and 126, one cell otherwise (line 138). -/
def charCells (RuneWidth : Char → Int) (tabsize left : Int) (c : Char) (viewCol : Int) : Int :=
  if c = '\t' then tabsize - Int.tmod (viewCol + left) tabsize
  else if RuneWidth c > 1 then RuneWidth c else 1

/-- The value of `viewCol` when the loop of `Draw`, started on `rest` at `viewCol`, reaches
rune `k` of `rest`. -/
def viewColOf (RuneWidth : Char → Int) (tabsize left : Int) : List Char → Int → Nat → Int
  | [], v, _ => v
  | _ :: _, v, 0 => v
  | c :: cs, v, k + 1 =>
    viewColOf RuneWidth tabsize left cs (v + charCells RuneWidth tabsize left c v) k

/-- The cell `Draw` leaves at offset `d` inside the run of the rune `c` (logical column
`colN`) whose first cell is at view column `v`: the glyph cell for `d = 0` (a tab is drawn
as the indent character, a space), a filler cell otherwise. -/
def cellAt (RuneWidth : Char → Int) (curStyle : Style) (tabsize left viewLine lineN : Int)
    (c : Char) (colN v : Int) (d : Nat) : Cell :=
  if d = 0 then
    ⟨⟨v, viewLine⟩, ⟨colN, lineN⟩, c, if c = '\t' then ' ' else c, curStyle,
      charCells RuneWidth tabsize left c v⟩
  else ⟨⟨v + d, viewLine⟩, ⟨colN, lineN⟩, c, ' ', curStyle, 1⟩

/-- The visual column `W_k` of the layout rule, written after the specification: `W_0 = 0`,
a tab advances to the next multiple of the tab size, any other rune advances by its
display width. -/
def W (RuneWidth : Char → Int) (t : Int) (str : List Char) : Nat → Int
  | 0 => 0
  | k + 1 =>
    match str[k]? with
    | none => W RuneWidth t str k
    | some c =>
      if c = '\t' then W RuneWidth t str k + (t - W RuneWidth t str k % t)
      else W RuneWidth t str k + RuneWidth c

/-- The number of cells `Draw` gives a rune other than a tab: its display width when that
is above 1 (the test at cellview.go:124), one cell otherwise (the last branch, line 138). -/
def cellWidth (RuneWidth : Char → Int) (c : Char) : Int :=
  if RuneWidth c > 1 then RuneWidth c else 1


/-! ## Position model, text store and cursor (modelled from the specification)

`loc.go`, `cursor.go`, `lineArray.go`, `eventhandler.go` and `util.go` are not among the
sources at hand; what `search.go` needs from them is written after the specification. -/

/-- Modelled from the spec: `Count` of util.go is missing; the length of a string in
runes. -/
def Count (s : List Char) : Int := s.length

/-- Modelled from the spec: `runePos` of util.go is missing; the byte/rune conversion of the
position model: the rune index of the byte index `p` of `str`, that is the number of runes
of `str` that start before byte `p`. -/
def runePos : Nat → List Char → Int
  | _, [] => 0
  | p, c :: cs => if p = 0 then 0 else 1 + runePos (p - c.utf8Size) cs

/-- Modelled from the spec: `Buffer.String` (lineArray.go) is missing; the flattened
document, the lines joined by the line terminator. -/
def Buffer.String (b : Buffer) : List Char :=
  List.intercalate ['\n'] b.lines

/-- Modelled from the spec: the line array (lineArray.go is missing) of a flattened text:
no line contains a terminator, an empty document is one empty line. -/
def splitLines : List Char → List (List Char)
  | [] => [[]]
  | c :: cs =>
    if c = '\n' then [] :: splitLines cs
    else
      match splitLines cs with
      | [] => [[c]]
      | l :: ls => (c :: l) :: ls

/-- Modelled from the spec: `ToCharPos` of loc.go is missing; `toOffset(pos)`, the absolute
rune count from the document start (a line terminator counts as one rune). -/
def ToCharPos (start : Loc) (buf : Buffer) : Int :=
  ((buf.lines.take start.Y.toNat).map fun l => (l.length : Int) + 1).sum + start.X

/-- Modelled from the spec: the walk of `fromOffset` (`FromCharPos` of loc.go, missing) over
the lines: `y` is the current line, `n` the offset left. -/
def fromCharPosLines : List (List Char) → Int → Int → Loc
  | [], y, n => ⟨n, y⟩
  | [_], y, n => ⟨n, y⟩
  | l :: l2 :: ls, y, n =>
    if n ≤ (l.length : Int) then ⟨n, y⟩
    else fromCharPosLines (l2 :: ls) (y + 1) (n - ((l.length : Int) + 1))

/-- Modelled from the spec: `FromCharPos` of loc.go is missing; `fromOffset(n)`, the
inverse of `ToCharPos` on the offsets of the document. -/
def FromCharPos (loc : Int) (buf : Buffer) : Loc :=
  fromCharPosLines buf.lines 0 loc

/-- Modelled from the spec: `Loc.Move` of loc.go is missing; the position `n` runes
further (back for a negative `n`), through the offset conversions. -/
def Loc.Move (l : Loc) (n : Int) (buf : Buffer) : Loc :=
  FromCharPos (ToCharPos l buf + n) buf

/-- Modelled from the spec: the total order on positions, by line, then by column
(`Loc.GreaterThan` of loc.go is missing). -/
def Loc.GreaterThan (l b : Loc) : Bool :=
  decide (l.Y > b.Y ∨ (l.Y = b.Y ∧ l.X > b.X))

/-- The method `Buffer.Start` (buffer.go:206). -/
def Buffer.Start (_b : Buffer) : Loc := ⟨0, 0⟩

/-- The method `Buffer.End` (buffer.go:211): the end of the last line; indexing
`b.lines[b.NumLines-1]` panics when that index is out of range. -/
def Buffer.End (b : Buffer) : Option Loc :=
  if b.NumLines - 1 < 0 ∨ b.NumLines - 1 ≥ (b.lines.length : Int) then none
  else
    match b.lines[(b.NumLines - 1).toNat]? with
    | none => none
    | some l => some ⟨l.length, b.NumLines - 1⟩

/-- Modelled from the spec: the mutation primitives of the text store (lineArray.go and
eventhandler.go are missing) in one step: the runes from offset `a` up to offset `b` are
replaced by `text` and the result is split into lines again. The mutation marks the buffer
modified and `Buffer.Update` refreshes `NumLines` (buffer.go:161, 188-198). -/
def Buffer.splice (buf : Buffer) (a b : Int) (text : List Char) : Buffer :=
  let s := buf.String
  let ls := splitLines (s.take a.toNat ++ text ++ s.drop b.toNat)
  { buf with lines := ls, IsModified := true, NumLines := ls.length }

/-- Modelled from the spec: `Insert(pos, text)` of the text store (eventhandler.go and
lineArray.go are missing): `text` is put at `pos`, split on its terminators. -/
def Buffer.Insert (buf : Buffer) (pos : Loc) (text : List Char) : Buffer :=
  buf.splice (ToCharPos pos buf) (ToCharPos pos buf) text

/-- Modelled from the spec: `Remove(start, end)` of the text store, half-open. -/
def Buffer.Remove (buf : Buffer) (start stop : Loc) : Buffer :=
  buf.splice (ToCharPos start buf) (ToCharPos stop buf) []

/-- Modelled from the spec: `Replace(start, end, text)` of the text store, which is
`Remove` followed by `Insert` at `start`. -/
def Buffer.Replace (buf : Buffer) (start stop : Loc) (text : List Char) : Buffer :=
  (buf.Remove start stop).Insert start text

/-- Modelled from the spec: `Cursor.HasSelection` (cursor.go is missing); a selection is
active iff its two ends differ. -/
def Cursor.HasSelection (c : Cursor) : Bool :=
  decide (c.CurSelection.1 ≠ c.CurSelection.2)

/-- Modelled from the spec: `Cursor.ResetSelection` clears the selection; both ends are
put at the document start. -/
def Cursor.ResetSelection (c : Cursor) : Cursor :=
  { c with CurSelection := (⟨0, 0⟩, ⟨0, 0⟩) }

/-- Modelled from the spec: `Cursor.SetSelectionStart` sets the first end. -/
def Cursor.SetSelectionStart (c : Cursor) (pos : Zed.Loc) : Cursor :=
  { c with CurSelection := (pos, c.CurSelection.2) }

/-- Modelled from the spec: `Cursor.SetSelectionEnd` sets the second end. -/
def Cursor.SetSelectionEnd (c : Cursor) (pos : Zed.Loc) : Cursor :=
  { c with CurSelection := (c.CurSelection.1, pos) }

/-- Modelled from the spec: `Cursor.DeleteSelection` removes the normalized range through
the text store, clears the selection and places the cursor at the range start; without a
selection nothing happens. -/
def Buffer.DeleteSelection (buf : Buffer) : Buffer :=
  let c := buf.Cursor
  if ¬ c.HasSelection then buf
  else
    let lo := if c.CurSelection.1.GreaterThan c.CurSelection.2 then c.CurSelection.2
      else c.CurSelection.1
    let hi := if c.CurSelection.1.GreaterThan c.CurSelection.2 then c.CurSelection.1
      else c.CurSelection.2
    let buf1 := buf.Remove lo hi
    { buf1 with Cursor := { buf1.Cursor.ResetSelection with Loc := lo } }

/-- Modelled from the spec: `Cursor.Relocate` (cursor.go is missing) clamps the cursor
into the buffer: the line into `[0, NumLines - 1]`, the column into `[0, line length]`. -/
def Buffer.RelocateCursor (buf : Buffer) : Buffer :=
  let y := if buf.Cursor.Loc.Y < 0 then 0
    else if buf.Cursor.Loc.Y ≥ buf.NumLines then buf.NumLines - 1 else buf.Cursor.Loc.Y
  let len : Int := ((buf.lines[y.toNat]?).getD []).length
  let x := if buf.Cursor.Loc.X < 0 then 0
    else if buf.Cursor.Loc.X > len then len else buf.Cursor.Loc.X
  { buf with Cursor := { buf.Cursor with Loc := ⟨x, y⟩ } }

/-! ## search.go -/

/-- The result of `(*regexp.Regexp).FindAllStringIndex(s, -1)`: the successive matches as
pairs of byte indexes into `s`; the empty list is the nil result. -/
abbrev Matcher := List Char → List (Nat × Nat)

/-- What `messenger.Alert` is called with in `Replace` (search.go:154 and 234-240). -/
inductive Alert where
  | compileError : Alert
  | replacedOccurrences (found : Int) (search : String) : Alert
  | replacedOccurrence (found : Int) (search : String) : Alert
  | nothingMatched (search : String) : Alert
deriving DecidableEq

/-- The process state `search.go` works on: the buffer of the main view (its `Cursor` is
`view.Cursor`), the globals `lastSearch` and `searchStart`, and the alerts shown so far.
Scrolling (`view.Relocate`), painting (`RedrawAll`) and the prompt line of the messenger
(`messenger.Reset`) only touch the display and are left out. -/
structure Editor where
  Buf : Buffer
  lastSearch : String
  searchStart : Int
  alerts : List Alert
deriving DecidableEq

/-- The outcome of a routine that prompts the user: finished, stopped by a run-time panic,
or blocked in a prompt with no answer left (the state shown to the user is kept). -/
inductive Outcome where
  | done (s : Editor) : Outcome
  | panicked : Outcome
  | waiting (s : Editor) : Outcome
deriving DecidableEq

/-- The tail of `Search` (search.go:130-143) once `matches` is not nil: pick the first or
last match, give up on a zero-length one, else select it. -/
def selectMatch (searchStr : String) (s : Editor) (down : Bool) (ms : List (Nat × Nat))
    (charPos : Int) (str : List Char) : Option Editor :=
  match (if ¬ down then ms.getLast? else ms.head?) with
  | none => none
  | some m =>
    if m.1 = m.2 then some s
    else
      let c1 := s.Buf.Cursor.SetSelectionStart (FromCharPos (charPos + runePos m.1 str) s.Buf)
      let c2 := c1.SetSelectionEnd (FromCharPos (charPos + runePos m.2 str) s.Buf)
      let c3 := { c2 with Loc := c2.CurSelection.2 }
      some { s with Buf := { s.Buf with Cursor := c3 }, lastSearch := searchStr }

/-- The function `Search` (search.go:94-144). `Compile` is `regexp.Compile`, `none` being a
compile error. Slicing the runes of the text at `searchStart` panics unless
`0 ≤ searchStart ≤ len`. -/
def Search (Compile : String → Option Matcher) (searchStr : String) (s : Editor)
    (down : Bool) : Option Editor :=
  if searchStr = "" then some s
  else
    let text := s.Buf.String
    if s.searchStart < 0 ∨ (text.length : Int) < s.searchStart then none
    else
      let str := if down then text.drop s.searchStart.toNat else text.take s.searchStart.toNat
      let charPos := if down then s.searchStart else 0
      match Compile searchStr with
      | none => some s
      | some r =>
        if r str = [] then
          if r text = [] then
            some { s with Buf := { s.Buf with Cursor := s.Buf.Cursor.ResetSelection } }
          else selectMatch searchStr s down (r text) 0 text
        else selectMatch searchStr s down (r str) charPos str

/-- The loop over `matches[1:]` in `Replace` (search.go:214-224); the arguments after the
matches are `from`, `prevMatchCount`, `adjust`, `found` and the buffer. -/
def replaceRest (replace bufStr : List Char) :
    List (Nat × Nat) → Loc → Int → Int → Int → Buffer → Buffer × Int
  | [], _, _, _, found, buf => (buf, found)
  | m :: ms, fromLoc, prevMatchCount, adjust, found, buf =>
    let found1 := found + 1
    let matchCount := runePos m.1 bufStr
    let searchCount := runePos m.2 bufStr - matchCount
    let from1 := fromLoc.Move (matchCount - prevMatchCount + adjust) buf
    let to1 := from1.Move searchCount buf
    let buf1 := buf.Replace from1 to1 replace
    replaceRest replace bufStr ms from1 matchCount (Count replace - searchCount) found1 buf1

/-- The block `if all` of `Replace` up to the call of `CursorEnd` (search.go:202-226). -/
def replaceAll (regex : Matcher) (replace : List Char) (buf : Buffer) (found : Int) :
    Buffer × Int :=
  let bufStr := buf.String
  match regex bufStr with
  | [] => (buf, found)
  | m0 :: rest =>
    let prevMatchCount := runePos m0.1 bufStr
    let searchCount := runePos m0.2 bufStr - prevMatchCount
    let fromLoc := FromCharPos (m0.1 : Int) buf
    let toLoc := fromLoc.Move searchCount buf
    let adjust := Count replace - searchCount
    let buf1 := buf.Replace fromLoc toLoc replace
    if rest.length + 1 > 1 then
      replaceRest replace bufStr rest fromLoc prevMatchCount adjust (found + 1) buf1
    else (buf1, found)

/-- The method `View.CursorEnd` (actions.go:193-199) with `deselect(0)` (actions.go:12-19). -/
def CursorEnd (buf : Buffer) : Option Buffer :=
  let c := if buf.Cursor.HasSelection then
      { buf.Cursor with Loc := buf.Cursor.CurSelection.1 }.ResetSelection
    else buf.Cursor
  match buf.End with
  | none => none
  | some e => some { buf with Cursor := { c with Loc := e } }

/-- The end of `Replace` (search.go:201-240) after the confirming loop. -/
def replaceFinish (regex : Matcher) (search : String) (replace : List Char) (all : Bool)
    (found : Int) (s : Editor) : Outcome :=
  let r : Option (Buffer × Int) :=
    if all then
      let p := replaceAll regex replace s.Buf found
      match CursorEnd p.1 with
      | none => none
      | some b => some (b, p.2)
    else some (s.Buf.RelocateCursor, found)
  match r with
  | none => Outcome.panicked
  | some (buf, found1) =>
    let a := if found1 > 1 then Alert.replacedOccurrences found1 search
      else if found1 = 1 then Alert.replacedOccurrence found1 search
      else Alert.nothingMatched search
    Outcome.done { s with Buf := buf, alerts := s.alerts ++ [a] }

/-- The confirming loop of `Replace` (search.go:162-199). `answers` are the values the
successive calls of `messenger.YesNoAllPrompt` return (choice, canceled). -/
def replaceLoop (Compile : String → Option Matcher) (regex : Matcher) (search : String)
    (replace : List Char) : List (Char × Bool) → Int → Editor → Outcome
  | answers, found, s =>
    match Search Compile search s true with
    | none => Outcome.panicked
    | some s1 =>
      if ¬ s1.Buf.Cursor.HasSelection then replaceFinish regex search replace false found s1
      else
        match answers with
        | [] => Outcome.waiting s1
        | (choice, canceled) :: rest =>
          if canceled then
            let c := if s1.Buf.Cursor.HasSelection then
                { s1.Buf.Cursor with Loc := s1.Buf.Cursor.CurSelection.1 }.ResetSelection
              else s1.Buf.Cursor
            Outcome.done { s1 with Buf := { s1.Buf with Cursor := c } }
          else if choice = 'y' then
            let b1 := s1.Buf.DeleteSelection
            let b2 := b1.Insert b1.Cursor.Loc replace
            let b3 := { b2 with Cursor := b2.Cursor.ResetSelection }
            replaceLoop Compile regex search replace rest (found + 1) { s1 with Buf := b3 }
          else if choice = 'n' then
            let start := if s1.Buf.Cursor.HasSelection then
                ToCharPos s1.Buf.Cursor.CurSelection.2 s1.Buf
              else ToCharPos s1.Buf.Cursor.Loc s1.Buf
            replaceLoop Compile regex search replace rest found { s1 with searchStart := start }
          else if choice = 'a' then replaceFinish regex search replace true found s1
          else replaceLoop Compile regex search replace rest found s1

/-- The function `Replace` (search.go:147-241) on `args = [search, replace]`. -/
def Replace (Compile : String → Option Matcher) (search : String) (replace : List Char)
    (answers : List (Char × Bool)) (s : Editor) : Outcome :=
  match Compile ("(?m)" ++ search) with
  | none => Outcome.done { s with alerts := s.alerts ++ [Alert.compileError] }
  | some regex => replaceLoop Compile regex search replace answers 0 s


/-! ## actions.go: cursor moves and selecting actions -/

/-- Modelled from the spec: a movement primitive of `cursor.go` (missing). Given the lines
of the buffer, the cursor location and the desired visual column it yields the new location
and the new desired visual column; per the spec a move mutates nothing else. -/
abbrev Motion := List (List Char) → Loc → Int → Loc × Int

/-- Modelled from the spec: the movement primitives of `cursor.go` (missing) that the
actions call: `Up`, `Down`, `Left`, `Right`, `Start` and `End` of line, `UpN` and `DownN`. -/
structure CursorMoves where
  Up : Motion
  Down : Motion
  Left : Motion
  Right : Motion
  Start : Motion
  End : Motion
  UpN : Int → Motion
  DownN : Int → Motion

/-- The cursor of the buffer after a movement primitive. -/
def Buffer.moveCursor (b : Buffer) (m : Motion) : Buffer :=
  { b with Cursor := { b.Cursor with
      Loc := (m b.lines b.Cursor.Loc b.Cursor.LastVisualX).1
      LastVisualX := (m b.lines b.Cursor.Loc b.Cursor.LastVisualX).2 } }

/-- Modelled from the spec: `Cursor.SelectTo` (cursor.go is missing) makes `loc` the active
end of the selection whose anchor is `OrigSelection[0]`; `CurSelection` holds the pair in
order, lower end first. -/
def Cursor.SelectTo (c : Cursor) (loc : Zed.Loc) : Cursor :=
  if loc.GreaterThan c.OrigSelection.1 then
    (c.SetSelectionStart c.OrigSelection.1).SetSelectionEnd loc
  else (c.SetSelectionStart loc).SetSelectionEnd c.OrigSelection.1

/-- The struct `View` of `view.go`; `v.Cursor` points to `v.Buf.Cursor`. The clipboard
fields and the cell view are left out. -/
structure View where
  Topline : Int
  leftCol : Int
  Width : Int
  Height : Int
  x : Int
  y : Int
  lineNumOffset : Int
  Buf : Buffer
deriving DecidableEq

/-- The method `View.deselect` (actions.go:12-19); `index` is 0 or 1. The boolean result is
not used by the callers below. -/
def View.deselect (v : View) (index : Fin 2) : View :=
  if v.Buf.Cursor.HasSelection then
    let c := { v.Buf.Cursor with
      Loc := if index = 0 then v.Buf.Cursor.CurSelection.1 else v.Buf.Cursor.CurSelection.2 }
    { v with Buf := { v.Buf with Cursor := c.ResetSelection } }
  else v

/-- The method `View.CursorUp` (actions.go:35-40). -/
def View.CursorUp (mv : CursorMoves) (v : View) : View :=
  let v1 := v.deselect 0
  { v1 with Buf := v1.Buf.moveCursor mv.Up }

/-- The method `View.CursorDown` (actions.go:43-48). -/
def View.CursorDown (mv : CursorMoves) (v : View) : View :=
  let v1 := v.deselect 1
  { v1 with Buf := v1.Buf.moveCursor mv.Down }

/-- The method `View.CursorLeft` (actions.go:51-60). -/
def View.CursorLeft (mv : CursorMoves) (v : View) : View :=
  if v.Buf.Cursor.HasSelection then
    let c := { v.Buf.Cursor with Loc := v.Buf.Cursor.CurSelection.1 }
    { v with Buf := { v.Buf with Cursor := c.ResetSelection } }
  else { v with Buf := v.Buf.moveCursor mv.Left }

/-- The method `View.CursorRight` (actions.go:63-72). -/
def View.CursorRight (mv : CursorMoves) (v : View) : View :=
  if v.Buf.Cursor.HasSelection then
    let c := { v.Buf.Cursor with Loc := v.Buf.Cursor.CurSelection.2.Move (-1) v.Buf }
    { v with Buf := { v.Buf with Cursor := c.ResetSelection } }
  else { v with Buf := v.Buf.moveCursor mv.Right }

/-- The common shape of `SelectUp`, `SelectDown`, `SelectToStartOfLine` and
`SelectToEndOfLine` (actions.go:89-108 and 161-180): the anchor is captured when no
selection is active, the cursor moves by `m`, and the selection is extended to it. -/
def View.selectWith (m : Motion) (v : View) : View :=
  let c0 := if ¬ v.Buf.Cursor.HasSelection then
      { v.Buf.Cursor with OrigSelection := (v.Buf.Cursor.Loc, v.Buf.Cursor.OrigSelection.2) }
    else v.Buf.Cursor
  let b1 := ({ v.Buf with Cursor := c0 } : Buffer).moveCursor m
  { v with Buf := { b1 with Cursor := b1.Cursor.SelectTo b1.Cursor.Loc } }

/-- The method `View.SelectUp` (actions.go:89-97). -/
def View.SelectUp (mv : CursorMoves) (v : View) : View := v.selectWith mv.Up

/-- The method `View.SelectDown` (actions.go:100-108). -/
def View.SelectDown (mv : CursorMoves) (v : View) : View := v.selectWith mv.Down

/-- The method `View.SelectToStartOfLine` (actions.go:161-169). -/
def View.SelectToStartOfLine (mv : CursorMoves) (v : View) : View := v.selectWith mv.Start

/-- The method `View.SelectToEndOfLine` (actions.go:172-180). -/
def View.SelectToEndOfLine (mv : CursorMoves) (v : View) : View := v.selectWith mv.End

/-- The common shape of `SelectLeft` and `SelectRight` (actions.go:111-140): the anchor is
the cursor location, replaced by `End().Move(-1)` when the cursor lies beyond it. -/
def View.selectSideways (m : Motion) (v : View) : Option View :=
  match v.Buf.End with
  | none => none
  | some e =>
    let count := e.Move (-1) v.Buf
    let loc := if v.Buf.Cursor.Loc.GreaterThan count then count else v.Buf.Cursor.Loc
    let c0 := if ¬ v.Buf.Cursor.HasSelection then
        { v.Buf.Cursor with OrigSelection := (loc, v.Buf.Cursor.OrigSelection.2) }
      else v.Buf.Cursor
    let b1 := ({ v.Buf with Cursor := c0 } : Buffer).moveCursor m
    some { v with Buf := { b1 with Cursor := b1.Cursor.SelectTo b1.Cursor.Loc } }

/-- The method `View.SelectLeft` (actions.go:111-124). -/
def View.SelectLeft (mv : CursorMoves) (v : View) : Option View := v.selectSideways mv.Left

/-- The method `View.SelectRight` (actions.go:127-140). -/
def View.SelectRight (mv : CursorMoves) (v : View) : Option View := v.selectSideways mv.Right

/-- The method `View.CursorStart` (actions.go:183-190). -/
def View.CursorStart (v : View) : View :=
  let v1 := v.deselect 0
  { v1 with Buf := { v1.Buf with Cursor := { v1.Buf.Cursor with Loc := ⟨0, 0⟩ } } }

/-- The method `View.CursorEnd` (actions.go:193-199); `Buf.End()` may panic. -/
def View.CursorEnd (v : View) : Option View :=
  let v1 := v.deselect 0
  match v1.Buf.End with
  | none => none
  | some e => some { v1 with Buf := { v1.Buf with Cursor := { v1.Buf.Cursor with Loc := e } } }

/-- The method `View.SelectToStart` (actions.go:202-210). -/
def View.SelectToStart (v : View) : View :=
  let c0 := if ¬ v.Buf.Cursor.HasSelection then
      { v.Buf.Cursor with OrigSelection := (v.Buf.Cursor.Loc, v.Buf.Cursor.OrigSelection.2) }
    else v.Buf.Cursor
  let v1 := ({ v with Buf := { v.Buf with Cursor := c0 } } : View).CursorStart
  { v1 with Buf := { v1.Buf with Cursor := v1.Buf.Cursor.SelectTo v1.Buf.Start } }

/-- The method `View.SelectToEnd` (actions.go:213-221). -/
def View.SelectToEnd (v : View) : Option View :=
  let c0 := if ¬ v.Buf.Cursor.HasSelection then
      { v.Buf.Cursor with OrigSelection := (v.Buf.Cursor.Loc, v.Buf.Cursor.OrigSelection.2) }
    else v.Buf.Cursor
  match ({ v with Buf := { v.Buf with Cursor := c0 } } : View).CursorEnd with
  | none => none
  | some v1 =>
    match v1.Buf.End with
    | none => none
    | some e => some { v1 with Buf := { v1.Buf with Cursor := v1.Buf.Cursor.SelectTo e } }

/-- The method `View.CursorPageUp` (actions.go:557-567). -/
def View.CursorPageUp (mv : CursorMoves) (v : View) : View :=
  let v1 := v.deselect 0
  let v2 :=
    if v1.Buf.Cursor.HasSelection then
      let c := { v1.Buf.Cursor with Loc := v1.Buf.Cursor.CurSelection.1 }
      { v1 with Buf := { v1.Buf with Cursor := c.ResetSelection } }
    else v1
  { v2 with Buf := v2.Buf.moveCursor (mv.UpN v2.Height) }

/-- The method `View.CursorPageDown` (actions.go:570-580). -/
def View.CursorPageDown (mv : CursorMoves) (v : View) : View :=
  let v1 := v.deselect 0
  let v2 :=
    if v1.Buf.Cursor.HasSelection then
      let c := { v1.Buf.Cursor with Loc := v1.Buf.Cursor.CurSelection.2 }
      { v1 with Buf := { v1.Buf with Cursor := c.ResetSelection } }
    else v1
  { v2 with Buf := v2.Buf.moveCursor (mv.DownN v2.Height) }

/-- The method `View.Replace` (actions.go:378-391). `prompt1` and `prompt2` are what the two
calls of `messenger.Prompt` return (text, canceled); the placeholder taken from the
selection only seeds the first prompt. The state is the process state whose buffer is the
buffer of the main view. -/
def View.Replace (Compile : String → Option Matcher) (prompt1 : String × Bool)
    (prompt2 : List Char × Bool) (answers : List (Char × Bool)) (s : Editor) : Outcome :=
  if ¬ prompt1.2 ∧ prompt1.1.utf8ByteSize > 0 then
    if ¬ prompt2.2 then Zed.Replace Compile prompt1.1 prompt2.1 answers s
    else Outcome.done s
  else Outcome.done s

/-! ## messenger.go and the search session of search.go -/

/-- Modelled from the spec: the key codes of `tcell` (its declarations are missing) that
the prompts tell apart; `other` stands for any further key. -/
inductive Key where
  | KeyRune : Key
  | KeyEnter : Key
  | KeyEscape : Key
  | KeyCtrlC : Key
  | KeyCtrlQ : Key
  | other (code : Nat) : Key
deriving DecidableEq

/-- Modelled from the spec: an input event (`tcell.Event`, declarations missing): a key
event with its key, rune and modifiers, a paste, or any other event. -/
inductive Event where
  | EventKey (key : Key) (rune : Char) (modifiers : Int) : Event
  | EventPaste (text : List Char) : Event
  | other : Event
deriving DecidableEq

/-- The struct `Messenger` (messenger.go:48-69) without the log buffer, the style and the
per-prompt history map. -/
structure Messenger where
  hasPrompt : Bool
  hasMessage : Bool
  message : String
  response : String
  cursorx : Int
  historyNum : Int
deriving DecidableEq

/-- The method `Messenger.PromptText` (messenger.go:84-90). -/
def Messenger.PromptText (m : Messenger) (msg : String) : Messenger :=
  { m with message := msg, hasMessage := true }

/-- The method `Messenger.Reset` (messenger.go:317-323). -/
def Messenger.Reset (m : Messenger) : Messenger :=
  { m with cursorx := 0, message := "", response := "", hasMessage := false,
           hasPrompt := false }

/-- The loop of `Messenger.YesNoAllPrompt` (messenger.go:162-191) reading the events in
arrival order; `none` when the events run out before a choice is made (the prompt keeps
waiting). Returns the choice, whether it was canceled, the messenger and the events left.
`Clear` and `Display` only paint. -/
def yesNoAllLoop (m : Messenger) : List Event → Option ((Char × Bool) × Messenger × List Event)
  | [] => none
  | Event.EventKey key rune _ :: es =>
    if key = Key.KeyRune then
      if rune = 'y' ∨ rune = 'Y' then some (('y', false), { m with hasPrompt := false }, es)
      else if rune = 'n' ∨ rune = 'N' then
        some (('n', false), { m with hasPrompt := false }, es)
      else some (('a', false), { m with hasPrompt := false }, es)
    else if key = Key.KeyCtrlC ∨ key = Key.KeyCtrlQ ∨ key = Key.KeyEscape then
      some ((' ', true), { m.Reset with hasPrompt := false }, es)
    else yesNoAllLoop m es
  | _ :: es => yesNoAllLoop m es

/-- The method `Messenger.YesNoAllPrompt` (messenger.go:157-192). -/
def Messenger.YesNoAllPrompt (m : Messenger) (prompt : String) (events : List Event) :
    Option ((Char × Bool) × Messenger × List Event) :=
  yesNoAllLoop ({ m with hasPrompt := true }.PromptText prompt) events

/-- The globals of `search.go` around an interactive search: the editor state, `searching`,
`searchHistory` and the messenger. -/
structure SearchSession where
  ed : Editor
  searching : Bool
  searchHistory : List String
  messenger : Messenger
deriving DecidableEq

/-- The method `Messenger.Search` (messenger.go:72-82): the message is only set while no
prompt is active. -/
def Messenger.Search (m : Messenger) (msg : String) : Messenger :=
  if m.hasPrompt = false then { m with message := msg, hasMessage := true } else m

/-- The function `BeginSearch` (search.go:24-32). -/
def BeginSearch (searchStr : String) (u : SearchSession) : SearchSession :=
  let hist := u.searchHistory ++ [""]
  let m1 : Messenger :=
    { u.messenger with
      historyNum := (hist.length : Int) - 1
      response := searchStr
      cursorx := Count searchStr.toList }
  { u with searchHistory := hist, searching := true,
           messenger := { m1.Search "find what: " with hasPrompt := true } }

/-- The function `EndSearch` (search.go:35-41); storing into the last history entry panics
on an empty history. -/
def EndSearch (u : SearchSession) : Option SearchSession :=
  if u.searchHistory = [] then none
  else
    some { u with
      searchHistory := u.searchHistory.set (u.searchHistory.length - 1) u.messenger.response
      searching := false
      messenger := ({ u.messenger with hasPrompt := false } : Messenger).Reset }

/-- The function `ExitSearch` (search.go:44-51). -/
def ExitSearch (u : SearchSession) : SearchSession :=
  { u with
    ed := { u.ed with
      lastSearch := ""
      Buf := { u.ed.Buf with Cursor := u.ed.Buf.Cursor.ResetSelection } }
    searching := false
    messenger := ({ u.messenger with hasPrompt := false } : Messenger).Reset }

/-! ## actions.go and view.go: searching again, scrolling and jumping -/

/-- The method `View.FindNext` (actions.go:352-364) on the process state; the boolean result
is always true. -/
def FindNext (Compile : String → Option Matcher) (s : Editor) : Option Editor :=
  let s1 := if s.Buf.Cursor.HasSelection then
      { s with searchStart := ToCharPos s.Buf.Cursor.CurSelection.2 s.Buf }
    else { s with searchStart := ToCharPos s.Buf.Cursor.Loc s.Buf }
  if s1.lastSearch = "" then some s1
  else Search Compile s1.lastSearch s1 true

/-- The method `View.FindPrevious` (actions.go:367-376); the boolean result is always
true. -/
def FindPrevious (Compile : String → Option Matcher) (s : Editor) : Option Editor :=
  let s1 := if s.Buf.Cursor.HasSelection then
      { s with searchStart := ToCharPos s.Buf.Cursor.CurSelection.1 s.Buf }
    else { s with searchStart := ToCharPos s.Buf.Cursor.Loc s.Buf }
  Search Compile s1.lastSearch s1 false

/-- The method `View.Center` (actions.go:22-32); `/` is Go's truncated division. The
boolean result is always true. -/
def View.Center (v : View) : View :=
  let t1 := v.Buf.Cursor.Loc.Y - Int.tdiv v.Height 2
  let t2 := if t1 + v.Height > v.Buf.NumLines then v.Buf.NumLines - v.Height else t1
  let t3 := if t2 < 0 then 0 else t2
  { v with Topline := t3 }

/-- The method `View.ScrollUp` (view.go:88-95). -/
def View.ScrollUp (v : View) (n : Int) : View :=
  if v.Topline - n ≥ 0 then { v with Topline := v.Topline - n }
  else if v.Topline > 0 then { v with Topline := v.Topline - 1 }
  else v

/-- The method `View.ScrollDown` (view.go:98-105). -/
def View.ScrollDown (v : View) (n : Int) : View :=
  if v.Topline + n ≤ v.Buf.NumLines then { v with Topline := v.Topline + n }
  else if v.Topline < v.Buf.NumLines - 1 then { v with Topline := v.Topline + 1 }
  else v

/-- The loop over the runes of one line in `View.Bottomline` (view.go:186-198): the
arguments after the line are `screenX` and `screenY`, `limit` is
`v.Width - v.lineNumOffset`. -/
def bottomlineRunes (limit tabsize : Int) : List Char → Int → Int → Int × Int
  | [], screenX, screenY => (screenX, screenY)
  | ch :: cs, screenX, screenY =>
    let x1 := if screenX ≥ limit then 0 else screenX
    let y1 := if screenX ≥ limit then screenY + 1 else screenY
    let x2 := if ch = '\t' then x1 + (tabsize - 1) else x1
    bottomlineRunes limit tabsize cs (x2 + 1) y1

/-- The loop over the lines in `View.Bottomline` (view.go:182-206); `fuel` is the number of
iterations the loop condition still allows and the result is `numLines`. Every line starts
with `screenX = 0`. -/
def bottomlineLoop (v : View) (tabsize : Int) : Nat → Int → Int → Int → Option Int
  | 0, _, _, numLines => some numLines
  | fuel + 1, lineN, screenY, numLines =>
    match v.Buf.Line lineN with
    | none => none
    | some str =>
      let r := bottomlineRunes (v.Width - v.lineNumOffset) tabsize str 0 screenY
      if r.2 + 1 ≥ v.Height then some (numLines + 1)
      else bottomlineLoop v tabsize fuel (lineN + 1) (r.2 + 1) (numLines + 1)

/-- The method `View.Bottomline` (view.go:179-208); `tabsize` is `*flagTabSize`. -/
def View.Bottomline (v : View) (tabsize : Int) : Option Int :=
  match bottomlineLoop v tabsize v.Height.toNat v.Topline 0 0 with
  | none => none
  | some numLines => some (numLines + v.Topline)

/-- The method `View.Relocate` (view.go:212-243) with `scrollmargin = 0`; `cx` is the value
of `v.Cursor.GetVisualX()` (cursor.go is missing). Returns the view and the boolean
result. -/
def View.Relocate (v : View) (tabsize cx : Int) : Option (View × Bool) :=
  match v.Bottomline tabsize with
  | none => none
  | some bottom =>
    let height := bottom - v.Topline
    let cy := v.Buf.Cursor.Loc.Y
    let a : Int × Bool :=
      if cy < v.Topline + 0 ∧ cy > 0 - 1 then (cy - 0, true)
      else if cy < v.Topline then (cy, true)
      else (v.Topline, false)
    let b : Int × Bool :=
      if cy > a.1 + height - 1 - 0 ∧ cy < v.Buf.NumLines - 0 then (cy - height + 1 + 0, true)
      else if cy ≥ v.Buf.NumLines - 0 ∧ cy > height then (v.Buf.NumLines - height, true)
      else a
    let c : Int × Bool := if cx < v.leftCol then (cx, true) else (v.leftCol, b.2)
    let d : Int × Bool :=
      if cx + v.lineNumOffset + 1 > c.1 + v.Width then
        (cx - v.Width + v.lineNumOffset + 1, true)
      else c
    some ({ v with Topline := b.1, leftCol := d.1 }, d.2)

/-- The method `View.GotoLine` (actions.go:583-604). `prompt` is what `messenger.Prompt`
returns (text, canceled) and `Atoi` is `strconv.Atoi`, `none` being a parse error. Returns
the view and the boolean result; the alerts only show a message. Subtracting 1 can wrap
only for the least integer, and the wrapped value, the greatest integer, fails the range
test just as the unwrapped one does. -/
def View.GotoLine (Atoi : String → Option Int) (prompt : String × Bool) (v : View) :
    View × Bool :=
  if prompt.2 then (v, false)
  else
    match Atoi prompt.1 with
    | none => (v, false)
    | some n =>
      let lineint := n - 1
      if lineint < v.Buf.NumLines ∧ lineint ≥ 0 then
        ({ v with Buf := { v.Buf with Cursor := { v.Buf.Cursor with Loc := ⟨0, lineint⟩ } } },
          true)
      else (v, false)

/-! ## Saving and closing (view.go, actions.go, buffer.go) -/

/-- A view together with the path and the name of its buffer (`Buffer.Path`,
`Buffer.name`). -/
structure FileView where
  view : View
  Path : String
  name : String
deriving DecidableEq

/-- What saving depends on outside the editor: whether writing the file succeeds
(`ioutil.WriteFile`), the expansion of `~` in a file name, the unquoting of a prompt
answer (`SplitCommandArgs`, util.go is missing) and the answer to the `save as` prompt
(text, canceled). -/
structure SaveEnv where
  writeOk : String → Bool
  expand : String → String
  unquote : String → String
  saveAsPrompt : String × Bool

/-- The method `Buffer.SaveAs` (buffer.go:171-186): the file view afterwards and whether
the error is nil. The source expands `~` in the already expanded name for the path. -/
def FileView.BufSaveAs (env : SaveEnv) (fv : FileView) (filename : String) : FileView × Bool :=
  if env.writeOk (env.expand filename) then
    ({ fv with
        Path := env.expand (env.expand filename)
        view := { fv.view with Buf := { fv.view.Buf with IsModified := false } } }, true)
  else (fv, false)

/-- The method `View.saveToFile` (actions.go:314-322); on an error only an alert is
shown. -/
def FileView.saveToFile (env : SaveEnv) (fv : FileView) (filename : String) : FileView :=
  let r := fv.BufSaveAs env filename
  if ¬ r.2 then r.1
  else { r.1 with Path := filename, name := filename }

/-- The method `View.SaveAs` (actions.go:325-334); the boolean result is always false. -/
def FileView.SaveAs (env : SaveEnv) (fv : FileView) : FileView :=
  if ¬ env.saveAsPrompt.2 then fv.saveToFile env (env.unquote env.saveAsPrompt.1)
  else fv

/-- The method `View.Save` (actions.go:301-310); the boolean result is always false. -/
def FileView.Save (env : SaveEnv) (fv : FileView) : FileView :=
  if fv.Path = "" then fv.SaveAs env else fv.saveToFile env fv.Path

/-- The method `View.CanClose` (view.go:110-127); `prompt` is what `messenger.YesNoPrompt`
returns (choice, canceled). -/
def FileView.CanClose (env : SaveEnv) (prompt : Bool × Bool) (fv : FileView) :
    FileView × Bool :=
  if fv.view.Buf.IsModified then
    if ¬ prompt.2 then
      if prompt.1 then (fv.Save env, true)
      else (fv, true)
    else (fv, false)
  else (fv, true)

/-- The method `View.Quit` (actions.go:623-631): the file view and whether the process
exits (`os.Exit(0)`). -/
def FileView.Quit (env : SaveEnv) (prompt : Bool × Bool) (fv : FileView) : FileView × Bool :=
  let r := fv.CanClose env prompt
  if r.2 then (r.1, true) else (r.1, false)

/-! ## The prompt line (messenger.go) and the search events (search.go) -/

/-- Modelled from the spec: the names `FuncName` reports for the actions bound to a key
(`bindings.go` and `FuncName` are missing), as far as `Messenger.HandleEvent` tells them
apart. -/
inductive PromptAction where
  | CursorUp : PromptAction
  | CursorDown : PromptAction
  | CursorLeft : PromptAction
  | CursorRight : PromptAction
  | CursorStart : PromptAction
  | StartOfLine : PromptAction
  | CursorEnd : PromptAction
  | EndOfLine : PromptAction
  | Backspace : PromptAction
  | Paste : PromptAction
  | other : PromptAction
deriving DecidableEq

/-- Modelled from the spec: `Insert` of util.go is missing; `value` put into `str` at the
rune position `pos`. Slicing the runes panics for a position outside the string. -/
def Insert (str : List Char) (pos : Int) (value : List Char) : Option (List Char) :=
  if pos < 0 ∨ pos > (str.length : Int) then none
  else some (str.take pos.toNat ++ value ++ str.drop pos.toNat)

/-- Indexing a slice with an `int`: a panic outside the range. -/
def indexInt (l : List String) (i : Int) : Option String :=
  if i < 0 then none else l[i.toNat]?

/-- One case of the `switch funcName` in `Messenger.HandleEvent` (messenger.go:262-296);
`clip` is what `clipboard.ReadAll` returns. -/
def Messenger.promptAction (clip : List Char) (history : List String) (m : Messenger) :
    PromptAction → Option Messenger
  | PromptAction.CursorUp =>
    if m.historyNum > 0 then
      match indexInt history (m.historyNum - 1) with
      | none => none
      | some r =>
        some { m with historyNum := m.historyNum - 1, response := r, cursorx := Count r.toList }
    else some m
  | PromptAction.CursorDown =>
    if m.historyNum < (history.length : Int) - 1 then
      match indexInt history (m.historyNum + 1) with
      | none => none
      | some r =>
        some { m with historyNum := m.historyNum + 1, response := r, cursorx := Count r.toList }
    else some m
  | PromptAction.CursorLeft =>
    if m.cursorx > 0 then some { m with cursorx := m.cursorx - 1 } else some m
  | PromptAction.CursorRight =>
    if m.cursorx < Count m.response.toList then some { m with cursorx := m.cursorx + 1 }
    else some m
  | PromptAction.CursorStart => some { m with cursorx := 0 }
  | PromptAction.StartOfLine => some { m with cursorx := 0 }
  | PromptAction.CursorEnd => some { m with cursorx := Count m.response.toList }
  | PromptAction.EndOfLine => some { m with cursorx := Count m.response.toList }
  | PromptAction.Backspace =>
    if m.cursorx > 0 then
      if m.cursorx > (m.response.toList.length : Int) then none
      else
        some { m with
          response := String.mk (m.response.toList.take (m.cursorx - 1).toNat ++
            m.response.toList.drop m.cursorx.toNat)
          cursorx := m.cursorx - 1 }
    else some m
  | PromptAction.Paste =>
    match Insert m.response.toList m.cursorx clip with
    | none => none
    | some r => some { m with response := String.mk r, cursorx := m.cursorx + Count clip }
  | PromptAction.other => some m

/-- The loop over the actions bound to the key (messenger.go:260-297). -/
def Messenger.promptActions (clip : List Char) (history : List String) :
    Messenger → List PromptAction → Option Messenger
  | m, [] => some m
  | m, a :: as =>
    match m.promptAction clip history a with
    | none => none
    | some m1 => Messenger.promptActions clip history m1 as

/-- The method `Messenger.HandleEvent` (messenger.go:248-314): the messenger and the history
slice afterwards. `bindings` yields the actions bound to a key event (key, rune,
modifiers). -/
def Messenger.HandleEvent (bindings : Key → Char → Int → List PromptAction) (clip : List Char)
    (m : Messenger) (event : Event) (history : List String) :
    Option (Messenger × List String) :=
  match event with
  | Event.EventKey key rune modifiers =>
    match (if key ≠ Key.KeyRune ∨ modifiers ≠ 0 then
        Messenger.promptActions clip history m (bindings key rune modifiers)
      else some m) with
    | none => none
    | some m1 =>
      match (if key = Key.KeyRune then
          match Insert m1.response.toList m1.cursorx [rune] with
          | none => none
          | some r => some { m1 with response := String.mk r, cursorx := m1.cursorx + 1 }
        else some m1) with
      | none => none
      | some m2 =>
        if m2.historyNum < 0 ∨ m2.historyNum ≥ (history.length : Int) then none
        else some (m2, history.set m2.historyNum.toNat m2.response)
  | Event.EventPaste text =>
    match Insert m.response.toList m.cursorx text with
    | none => none
    | some r => some ({ m with response := String.mk r, cursorx := m.cursorx + Count text },
        history)
  | Event.other => some (m, history)

/-- The way `HandleSearchEvent` returned. -/
inductive SearchExit where
  | exited : SearchExit
  | ended : SearchExit
  | endedCursorBelowZero : SearchExit
  | selectionReset : SearchExit
  | searched : SearchExit
deriving DecidableEq

/-- The function `HandleSearchEvent` (search.go:55-89): the session afterwards and the
return that was taken. `v.Relocate()` only scrolls. -/
def HandleSearchEvent (Compile : String → Option Matcher)
    (bindings : Key → Char → Int → List PromptAction) (clip : List Char) (event : Event)
    (u : SearchSession) : Option (SearchSession × SearchExit) :=
  let isEscape := match event with
    | Event.EventKey key _ _ => decide (key = Key.KeyEscape)
    | _ => false
  let isDone := match event with
    | Event.EventKey key _ _ =>
      decide (key = Key.KeyCtrlQ ∨ key = Key.KeyCtrlC ∨ key = Key.KeyEnter)
    | _ => false
  if isEscape then some (ExitSearch u, SearchExit.exited)
  else if isDone then
    match EndSearch u with
    | none => none
    | some u1 => some (u1, SearchExit.ended)
  else
    match Messenger.HandleEvent bindings clip u.messenger event u.searchHistory with
    | none => none
    | some (m1, h1) =>
      let u1 := { u with messenger := m1, searchHistory := h1 }
      if m1.cursorx < 0 then
        match EndSearch u1 with
        | none => none
        | some u2 => some (u2, SearchExit.endedCursorBelowZero)
      else if m1.response = "" then
        some ({ u1 with ed := { u1.ed with
            Buf := { u1.ed.Buf with Cursor := u1.ed.Buf.Cursor.ResetSelection } } },
          SearchExit.selectionReset)
      else
        match Search Compile m1.response u1.ed true with
        | none => none
        | some e => some ({ u1 with ed := e }, SearchExit.searched)

/-! ## Concrete instances of the parameters, for the worked examples -/

/-- Modelled from the spec: `runewidth.RuneWidth` is not among the sources; the display
width is 2 for a wide glyph (here: the CJK Unified Ideographs) and 1 for any other rune. -/
def specRuneWidth (c : Char) : Int :=
  if 0x4E00 ≤ c.toNat ∧ c.toNat ≤ 0x9FFF then 2 else 1

/-- Modelled from the spec: `StringWidth` of util.go is missing; the display width of a
string, a tab expanding to the next multiple of the tab size and any other rune
contributing its display width. -/
def specStringWidth (str : List Char) (tabsize : Int) : Int :=
  W specRuneWidth tabsize str str.length

/-- A second stand-in for `runewidth.RuneWidth`, which is also defined on runes that take no
cell of their own: width 0 for the combining diacritical marks U+0300 to U+036F, the width
of `specRuneWidth` for any other rune. -/
def markRuneWidth (c : Char) : Int :=
  if 0x0300 ≤ c.toNat ∧ c.toNat ≤ 0x036F then 0 else specRuneWidth c

/-- The display width of a string under `markRuneWidth`. -/
def markStringWidth (str : List Char) (tabsize : Int) : Int :=
  W markRuneWidth tabsize str str.length

/-- The length of a string in bytes (UTF-8). -/
def byteLen (s : List Char) : Nat := (s.map Char.utf8Size).sum

/-- The successive non-overlapping occurrences of the literal `pat` in a text, leftmost
first, as byte-index pairs: what `FindAllStringIndex` yields for a pattern without
metacharacters. `off` is the byte offset reached, `skip` the runes of the last occurrence
still to be passed over. -/
def literalMatches (pat : List Char) : List Char → Nat → Nat → List (Nat × Nat)
  | [], _, _ => []
  | c :: cs, off, skip =>
    if skip > 0 then literalMatches pat cs (off + c.utf8Size) (skip - 1)
    else if pat.isPrefixOf (c :: cs) then
      (off, off + byteLen pat) :: literalMatches pat cs (off + c.utf8Size) (pat.length - 1)
    else literalMatches pat cs (off + c.utf8Size) 0

/-- The matches of the pattern `x*` for the rune `x`: every maximal run of `x`, and the
empty match at every other position that does not abut a preceding match. `run` is the
byte offset at which the current run started, `after` tells that a match just ended. -/
def starMatches (x : Char) : List Char → Nat → Option Nat → Bool → List (Nat × Nat)
  | [], off, some st, _ => [(st, off)]
  | [], off, none, after => if after then [] else [(off, off)]
  | c :: cs, off, some st, _ =>
    if c = x then starMatches x cs (off + c.utf8Size) (some st) false
    else (st, off) :: starMatches x cs (off + c.utf8Size) none false
  | c :: cs, off, none, after =>
    if c = x then starMatches x cs (off + c.utf8Size) (some off) false
    else (if after then [] else [(off, off)]) ++ starMatches x cs (off + c.utf8Size) none false

/-- A stand-in for `regexp.Compile` on the patterns of the worked examples: a leading
`(?m)` only sets a flag, `(` alone is a compile error (missing closing parenthesis), `x*`
is the starred rune, anything else is taken as a literal. -/
def exampleCompile (pat : String) : Option Matcher :=
  let p := if "(?m)".toList.isPrefixOf pat.toList then pat.toList.drop 4 else pat.toList
  if p = ['('] then none
  else if p = ['x', '*'] then some fun s => starMatches 'x' s 0 none false
  else some fun s => literalMatches p s 0 0

/-- A stand-in for `regexp.Compile` on a pattern that starts with `^`: without the flag
`(?m)` the rest of the pattern, taken as a literal, matches only at the very start of the
text it is run on. Any other pattern goes to `exampleCompile`. -/
def anchoredCompile (pat : String) : Option Matcher :=
  match pat.toList with
  | '^' :: p => some fun s => if p.isPrefixOf s then [(0, byteLen p)] else []
  | _ => exampleCompile pat

/-- A buffer holding the given text, cursor at the document start, nothing selected. -/
def bufferOf (text : List Char) : Buffer :=
  { lines := splitLines text
    Cursor := { Loc := ⟨0, 0⟩, CurSelection := (⟨0, 0⟩, ⟨0, 0⟩),
                OrigSelection := (⟨0, 0⟩, ⟨0, 0⟩), LastVisualX := 0 }
    IsModified := false
    NumLines := (splitLines text).length }

/-- An editor on the given text with the search anchor at `searchStart`. -/
def editorOf (text : List Char) (searchStart : Int) : Editor :=
  { Buf := bufferOf text, lastSearch := "", searchStart := searchStart, alerts := [] }


/-- The column a vertical move lands on in line `y`: the desired visual column `lv`, kept
inside the line. The lines of the worked examples hold neither tabs nor wide glyphs, so the
visual column of a rune is its rune column. -/
def landingColumn (ls : List (List Char)) (y lv : Int) : Int :=
  max 0 (min (((ls[y.toNat]?).getD []).length : Int) lv)

/-- A vertical move of the stand-in to line `y`, kept inside the buffer: nothing changes
when the line stays the same, else the cursor lands on the desired visual column, which is
kept. -/
def verticalMove (ls : List (List Char)) (l : Loc) (lv y : Int) : Loc × Int :=
  if max 0 (min ((ls.length : Int) - 1) y) = l.Y then (l, lv)
  else (⟨landingColumn ls (max 0 (min ((ls.length : Int) - 1) y)) lv,
      max 0 (min ((ls.length : Int) - 1) y)⟩, lv)

/-- A stand-in for the movement primitives in the worked examples, after the specification:
one rune left or right inside the line and the start and end of the line, each setting the
desired visual column to the new column; one or `n` lines up or down, landing on the
desired visual column and leaving it as it was. -/
def exampleMoves : CursorMoves :=
  { Up := fun ls l lv => verticalMove ls l lv (l.Y - 1)
    Down := fun ls l lv => verticalMove ls l lv (l.Y + 1)
    Left := fun _ l _ => (⟨max 0 (l.X - 1), l.Y⟩, max 0 (l.X - 1))
    Right := fun ls l _ =>
      (⟨min (((ls[l.Y.toNat]?).getD []).length : Int) (l.X + 1), l.Y⟩,
        min (((ls[l.Y.toNat]?).getD []).length : Int) (l.X + 1))
    Start := fun _ l _ => (⟨0, l.Y⟩, 0)
    End := fun ls l _ =>
      (⟨(((ls[l.Y.toNat]?).getD []).length : Int), l.Y⟩,
        (((ls[l.Y.toNat]?).getD []).length : Int))
    UpN := fun n ls l lv => verticalMove ls l lv (l.Y - n)
    DownN := fun n ls l lv => verticalMove ls l lv (l.Y + n) }

/-- A view of 80 by 24 cells on the given text with the cursor at `loc` and the selection
`sel`. -/
def viewOf (text : List Char) (loc : Loc) (sel : Loc × Loc) : View :=
  { Topline := 0, leftCol := 0, Width := 80, Height := 24, x := 0, y := 0, lineNumOffset := 0
    Buf := { bufferOf text with
      Cursor := { Loc := loc, CurSelection := sel, OrigSelection := (⟨0, 0⟩, ⟨0, 0⟩),
                  LastVisualX := 0 } } }

/-- A messenger showing nothing. -/
def idleMessenger : Messenger :=
  { hasPrompt := false, hasMessage := false, message := "", response := "", cursorx := 0,
    historyNum := 0 }

/-- The placement of the initial cursor in `NewBuffer` (buffer.go:69-102). `startpos` is the
pair LINE, COL parsed from the flag `-startpos` (`none` when the flag is empty or does not
hold two integers). `len(b.Line(y))` is a length in bytes. -/
def newBufferCursor (b : Buffer) (startpos : Option (Int × Int)) : Option Loc :=
  match startpos with
  | none => some ⟨0, 0⟩
  | some (lineNum, colNum) =>
    let y0 := lineNum - 1
    let y := if y0 > b.NumLines then b.NumLines - 1 else if y0 < 0 then 0 else y0
    match b.Line y with
    | none => none
    | some str =>
      let x := if colNum > (byteLen str : Int) then (byteLen str : Int)
        else if colNum < 0 then 0 else colNum
      some ⟨x, y⟩

/-- A file view of 80 by 24 cells on the given text, with the given path and modified
flag. -/
def fileViewOf (text : List Char) (path : String) (modified : Bool) : FileView :=
  { view :=
      { viewOf text ⟨0, 0⟩ (⟨0, 0⟩, ⟨0, 0⟩) with
        Buf := { bufferOf text with IsModified := modified } }
    Path := path
    name := path }

/-- An environment in which every write fails (a read-only location). -/
def failingEnv : SaveEnv :=
  { writeOk := fun _ => false, expand := fun s => s, unquote := fun s => s,
    saveAsPrompt := ("", true) }

/-- The key bindings of the worked examples: the arrow keys, Home, End and Backspace,
numbered 1 to 7, and Ctrl-V (8) for paste. -/
def exampleBindings : Key → Char → Int → List PromptAction :=
  fun key _ _ =>
    if key = Key.other 1 then [PromptAction.CursorUp]
    else if key = Key.other 2 then [PromptAction.CursorDown]
    else if key = Key.other 3 then [PromptAction.CursorLeft]
    else if key = Key.other 4 then [PromptAction.CursorRight]
    else if key = Key.other 5 then [PromptAction.StartOfLine]
    else if key = Key.other 6 then [PromptAction.EndOfLine]
    else if key = Key.other 7 then [PromptAction.Backspace]
    else if key = Key.other 8 then [PromptAction.Paste]
    else []

/-- The digits of a decimal number, most significant first, onto the value so far. -/
def parseDigits : List Char → Nat → Option Nat
  | [], acc => some acc
  | c :: cs, acc =>
    if c.isDigit then parseDigits cs (acc * 10 + (c.toNat - 48)) else none

/-- A stand-in for `strconv.Atoi` in the worked examples: an optional sign and at least one
decimal digit; the range error of the original does not arise on the examples. -/
def exampleAtoi (s : String) : Option Int :=
  match s.toList with
  | [] => none
  | '-' :: cs => if cs = [] then none else (parseDigits cs 0).map fun n => -(n : Int)
  | '+' :: cs => if cs = [] then none else (parseDigits cs 0).map fun n => (n : Int)
  | cs => (parseDigits cs 0).map fun n => (n : Int)

/-- A search session on `"foo bar"` begun with the query `fo`, the history holding one
older entry. -/
def exampleSession : SearchSession :=
  BeginSearch "fo"
    { ed := editorOf ['f', 'o', 'o', ' ', 'b', 'a', 'r'] 0, searching := false,
      searchHistory := ["old"], messenger := idleMessenger }

/-! ## Facts about the layout loop -/

section Layout

variable (RuneWidth : Char → Int) (curStyle : Style)
variable (tabsize left lineLength viewLine lineN : Int)

theorem charCells_pos (ht : 0 < tabsize) (c : Char) (v : Int) :
    1 ≤ charCells RuneWidth tabsize left c v := by
  unfold charCells
  split
  · have h1 := Int.tmod_lt_of_pos (v + left) ht
    omega
  · split <;> omega

theorem fillCells_fst (char : Char) (colN : Int) (n : Nat) (v : Int) (row : Row) :
    (fillCells char curStyle colN lineN viewLine lineLength n v row).1 = v + n := by
  induction n generalizing v row with
  | zero => simp [fillCells]
  | succ n ih =>
    simp only [fillCells]
    rw [ih]
    push_cast
    ring

theorem fillCells_length (char : Char) (colN : Int) (n : Nat) (v : Int) (row : Row) :
    (fillCells char curStyle colN lineN viewLine lineLength n v row).2.length = row.length := by
  induction n generalizing v row with
  | zero => simp [fillCells]
  | succ n ih =>
    simp only [fillCells]
    rw [ih]
    split <;> simp

theorem fillCells_frame (char : Char) (colN : Int) (n : Nat) (v : Int) (row : Row) (i : Nat)
    (h : (i : Int) ≤ v ∨ v + n < i) :
    (fillCells char curStyle colN lineN viewLine lineLength n v row).2[i]? = row[i]? := by
  induction n generalizing v row with
  | zero => simp [fillCells]
  | succ n ih =>
    simp only [fillCells]
    rw [ih]
    · split
      · rename_i hg
        rw [List.getElem?_set_ne]
        intro he
        have : ((v + 1).toNat : Int) = v + 1 := Int.toNat_of_nonneg hg.1
        push_cast at h
        omega
      · rfl
    · push_cast at h
      omega

theorem fillCells_cell (char : Char) (colN : Int) (n : Nat) (v : Int) (row : Row) (d : Nat)
    (hd1 : 1 ≤ d) (hdn : d ≤ n) (h0 : 0 ≤ v + d) (hlt : v + d < lineLength)
    (hlen : (v + d).toNat < row.length) :
    (fillCells char curStyle colN lineN viewLine lineLength n v row).2[(v + d).toNat]? =
      some (some ⟨⟨v + d, viewLine⟩, ⟨colN, lineN⟩, char, ' ', curStyle, 1⟩) := by
  induction n generalizing v row d with
  | zero => omega
  | succ n ih =>
    simp only [fillCells]
    by_cases hd : d = 1
    · subst hd
      rw [fillCells_frame]
      · have hg : v + 1 ≥ 0 ∧ v + 1 < lineLength := by
          constructor <;> push_cast at h0 hlt <;> omega
        rw [if_pos hg]
        push_cast at hlen ⊢
        rw [List.getElem?_set_self hlen]
      · left
        push_cast at h0 ⊢
        rw [Int.toNat_of_nonneg h0]
    · have hd2 : 1 ≤ d - 1 := by omega
      have hcast : ((d - 1 : Nat) : Int) = (d : Int) - 1 := by omega
      have e : v + 1 + ((d - 1 : Nat) : Int) = v + d := by omega
      have := ih (v + 1) (if v + 1 ≥ 0 ∧ v + 1 < lineLength then
          row.set (v + 1).toNat
            (some ⟨⟨v + 1, viewLine⟩, ⟨colN, lineN⟩, char, ' ', curStyle, 1⟩)
        else row) (d - 1) hd2 (by omega) (by omega) (by omega)
        (by rw [e]; split <;> simpa using hlen)
      rw [e] at this
      exact this

theorem drawCells_cons (ht : 0 < tabsize) (c : Char) (rest : List Char) (colN v : Int)
    (row : Row) (hv : v < lineLength) :
    drawCells RuneWidth curStyle tabsize left lineLength viewLine lineN (c :: rest) colN v row =
      drawCells RuneWidth curStyle tabsize left lineLength viewLine lineN rest (colN + 1)
        (v + charCells RuneWidth tabsize left c v)
        (fillCells c curStyle colN lineN viewLine lineLength
          (charCells RuneWidth tabsize left c v - 1).toNat v
          (if v ≥ 0 then
            row.set v.toNat
              (some (cellAt RuneWidth curStyle tabsize left viewLine lineN c colN v 0))
          else row)).2 := by
  have hpos := charCells_pos RuneWidth tabsize left ht c v
  have hfst : ∀ r : Row, (fillCells c curStyle colN lineN viewLine lineLength
      (charCells RuneWidth tabsize left c v - 1).toNat v r).1 + 1 =
      v + charCells RuneWidth tabsize left c v := by
    intro r
    rw [fillCells_fst, Int.toNat_of_nonneg (by omega)]
    ring
  have ht0 : tabsize ≠ 0 := by omega
  rw [drawCells]
  simp only [hv, not_true_eq_false, if_false]
  by_cases hc : c = '\t'
  · subst hc
    simp only [if_true, ht0, if_false]
    have hcc : charCells RuneWidth tabsize left '\t' v =
        tabsize - Int.tmod (v + left) tabsize := by simp [charCells]
    rw [← hcc, hfst]
    congr 2
    by_cases h0 : v ≥ 0
    · simp only [h0, if_true, List.set_set, cellAt, if_true]
    · simp only [h0, if_false]
  · simp only [hc, if_false]
    by_cases hw : RuneWidth c > 1
    · simp only [hw, if_true]
      have hcc : charCells RuneWidth tabsize left c v = RuneWidth c := by
        simp [charCells, hc, hw]
      rw [← hcc, hfst]
      congr 2
      by_cases h0 : v ≥ 0
      · simp only [h0, if_true, List.set_set, cellAt, hc, if_false, if_true]
      · simp only [h0, if_false]
    · simp only [hw, if_false]
      have hcc : charCells RuneWidth tabsize left c v = 1 := by
        simp [charCells, hc, hw]
      rw [hcc]
      simp only [sub_self, Int.toNat_zero, fillCells, cellAt, hc, if_false, if_true, hcc]

theorem viewColOf_ge (ht : 0 < tabsize) (rest : List Char) (v : Int) (k : Nat) :
    v ≤ viewColOf RuneWidth tabsize left rest v k := by
  induction rest generalizing v k with
  | nil => simp [viewColOf]
  | cons c cs ih =>
    cases k with
    | zero => simp [viewColOf]
    | succ k =>
      simp only [viewColOf]
      have h1 := charCells_pos RuneWidth tabsize left ht c v
      have h2 := ih (v + charCells RuneWidth tabsize left c v) k
      omega

theorem drawCells_spec (ht : 0 < tabsize) (rest : List Char) :
    ∀ (colN v : Int) (row : Row), lineLength ≤ row.length →
    ∃ row1, drawCells RuneWidth curStyle tabsize left lineLength viewLine lineN rest colN v row
        = some row1 ∧ row1.length = row.length ∧
      (∀ i : Nat, (i : Int) < v → row1[i]? = row[i]?) ∧
      (∀ (k : Nat) (c : Char), rest[k]? = some c → ∀ d : Nat,
        (d : Int) < charCells RuneWidth tabsize left c
          (viewColOf RuneWidth tabsize left rest v k) →
        viewColOf RuneWidth tabsize left rest v k < lineLength →
        0 ≤ viewColOf RuneWidth tabsize left rest v k + d →
        viewColOf RuneWidth tabsize left rest v k + d < lineLength →
        row1[(viewColOf RuneWidth tabsize left rest v k + d).toNat]? =
          some (some (cellAt RuneWidth curStyle tabsize left viewLine lineN c (colN + k)
            (viewColOf RuneWidth tabsize left rest v k) d))) := by
  induction rest with
  | nil =>
    intro colN v row _
    exact ⟨row, by simp [drawCells], rfl, fun _ _ => rfl, by simp⟩
  | cons c cs ih =>
    intro colN v row hlen
    by_cases hv : v < lineLength
    · rw [drawCells_cons RuneWidth curStyle tabsize left lineLength viewLine lineN ht c cs
        colN v row hv]
      have hpos := charCells_pos RuneWidth tabsize left ht c v
      set row0 : Row := if v ≥ 0 then
            row.set v.toNat
              (some (cellAt RuneWidth curStyle tabsize left viewLine lineN c colN v 0))
          else row with hrow0
      have hlen0 : row0.length = row.length := by
        rw [hrow0]; split <;> simp
      set n := (charCells RuneWidth tabsize left c v - 1).toNat with hn
      have hncast : (n : Int) = charCells RuneWidth tabsize left c v - 1 := by
        rw [hn, Int.toNat_of_nonneg (by omega)]
      set row2 := (fillCells c curStyle colN lineN viewLine lineLength n v row0).2 with hrow2
      have hlen2 : row2.length = row.length := by
        rw [hrow2, fillCells_length, hlen0]
      obtain ⟨row1, hrun, hl1, hframe, hcells⟩ :=
        ih (colN + 1) (v + charCells RuneWidth tabsize left c v) row2 (by omega)
      refine ⟨row1, hrun, by omega, ?_, ?_⟩
      · intro i hi
        rw [hframe i (by omega), hrow2, fillCells_frame _ _ _ _ _ _ _ _ _ _ (Or.inl (by omega)),
          hrow0]
        split
        · rename_i h0
          rw [List.getElem?_set_ne]
          have := Int.toNat_of_nonneg h0
          omega
        · rfl
      · intro k c1 hk d hd hreach h0 hlt
        cases k with
        | zero =>
          simp only [List.getElem?_cons_zero, Option.some.injEq] at hk
          subst hk
          simp only [viewColOf] at hd hreach h0 hlt ⊢
          have hidx : ((v + d).toNat : Int) = v + d := Int.toNat_of_nonneg h0
          rw [hframe _ (by omega), hrow2]
          by_cases hd0 : d = 0
          · subst hd0
            have hv0 : v ≥ 0 := by simpa using h0
            rw [fillCells_frame _ _ _ _ _ _ _ _ _ _ (Or.inl (by omega)), hrow0, if_pos hv0]
            simp only [Nat.cast_zero, add_zero]
            rw [List.getElem?_set_self (by
              have := Int.toNat_of_nonneg hv0
              omega)]
          · rw [fillCells_cell curStyle lineLength viewLine lineN c colN n v row0 d
              (by omega) (by omega) h0 hlt (by omega)]
            simp [cellAt, hd0]
        | succ k =>
          simp only [List.getElem?_cons_succ] at hk
          simp only [viewColOf] at hd hreach h0 hlt ⊢
          have := hcells k c1 hk d hd hreach h0 hlt
          rw [this]
          congr 3
          push_cast
          ring
    · refine ⟨row, by rw [drawCells]; simp [hv], rfl, fun _ _ => rfl, ?_⟩
      intro k c1 _ d _ hreach _ _
      have := viewColOf_ge RuneWidth tabsize left ht (c :: cs) v k
      omega

end Layout


section Widths

variable (RuneWidth : Char → Int) (tabsize : Int)

theorem W_succ_of_get (str : List Char) (k : Nat) (c : Char) (hc : str[k]? = some c) :
    W RuneWidth tabsize str (k + 1) =
      W RuneWidth tabsize str k +
        (if c = '\t' then tabsize - W RuneWidth tabsize str k % tabsize else RuneWidth c) := by
  rw [W]
  simp only [hc]
  split <;> rfl

theorem W_mono_step (ht : 0 < tabsize) (str : List Char)
    (hrw : ∀ c ∈ str, c ≠ '\t' → 1 ≤ RuneWidth c) (k : Nat) (hk : k < str.length) :
    W RuneWidth tabsize str k + 1 ≤ W RuneWidth tabsize str (k + 1) := by
  have hc : str[k]? = some str[k] := List.getElem?_eq_getElem hk
  rw [W_succ_of_get RuneWidth tabsize str k _ hc]
  split
  · have := Int.emod_lt_of_pos (W RuneWidth tabsize str k) ht
    omega
  · rename_i hne
    have := hrw str[k] (List.getElem_mem hk) hne
    omega

theorem W_nonneg (ht : 0 < tabsize) (str : List Char)
    (hrw : ∀ c ∈ str, c ≠ '\t' → 1 ≤ RuneWidth c) (k : Nat) (hk : k ≤ str.length) :
    0 ≤ W RuneWidth tabsize str k := by
  induction k with
  | zero => simp [W]
  | succ k ih =>
    have := W_mono_step RuneWidth tabsize ht str hrw k (by omega)
    have := ih (by omega)
    omega

theorem W_mono (ht : 0 < tabsize) (str : List Char)
    (hrw : ∀ c ∈ str, c ≠ '\t' → 1 ≤ RuneWidth c) (j k : Nat) (hjk : j ≤ k)
    (hk : k ≤ str.length) :
    W RuneWidth tabsize str j ≤ W RuneWidth tabsize str k := by
  induction k with
  | zero =>
    have : j = 0 := by omega
    subst this
    exact le_refl _
  | succ k ih =>
    by_cases h : j = k + 1
    · subst h
      exact le_refl _
    · have := W_mono_step RuneWidth tabsize ht str hrw k (by omega)
      have := ih (by omega) (by omega)
      omega

theorem viewColOf_succ (left : Int) (rest : List Char) (v : Int) (k : Nat) (c : Char)
    (hc : rest[k]? = some c) :
    viewColOf RuneWidth tabsize left rest v (k + 1) =
      viewColOf RuneWidth tabsize left rest v k +
        charCells RuneWidth tabsize left c (viewColOf RuneWidth tabsize left rest v k) := by
  induction rest generalizing v k with
  | nil => simp at hc
  | cons x xs ih =>
    cases k with
    | zero =>
      simp only [List.getElem?_cons_zero, Option.some.injEq] at hc
      subst hc
      cases xs <;> simp [viewColOf]
    | succ k =>
      simp only [List.getElem?_cons_succ] at hc
      simp only [viewColOf]
      exact ih _ k hc

theorem viewColOf_eq_W (ht : 0 < tabsize) (str : List Char)
    (hrw : ∀ c ∈ str, c ≠ '\t' → 1 ≤ RuneWidth c) (k : Nat) (hk : k ≤ str.length) :
    viewColOf RuneWidth tabsize 0 str 0 k = W RuneWidth tabsize str k := by
  induction k with
  | zero => cases str <;> simp [viewColOf, W]
  | succ k ih =>
    have hlt : k < str.length := by omega
    have hc : str[k]? = some str[k] := List.getElem?_eq_getElem hlt
    rw [viewColOf_succ RuneWidth tabsize 0 str 0 k _ hc,
      W_succ_of_get RuneWidth tabsize str k _ hc, ih (by omega)]
    have h0 := W_nonneg RuneWidth tabsize ht str hrw k (by omega)
    unfold charCells
    split
    · rw [add_zero, Int.tmod_eq_emod h0 (by omega)]
    · rename_i hne
      have := hrw str[k] (List.getElem_mem hk) hne
      split <;> omega

theorem charCells_eq_W (ht : 0 < tabsize) (str : List Char)
    (hrw : ∀ c ∈ str, c ≠ '\t' → 1 ≤ RuneWidth c) (k : Nat) (hk : k < str.length) :
    charCells RuneWidth tabsize 0 str[k] (W RuneWidth tabsize str k) =
      W RuneWidth tabsize str (k + 1) - W RuneWidth tabsize str k := by
  have hc : str[k]? = some str[k] := List.getElem?_eq_getElem hk
  rw [W_succ_of_get RuneWidth tabsize str k _ hc]
  have h0 := W_nonneg RuneWidth tabsize ht str hrw k (by omega)
  unfold charCells
  split
  · rw [add_zero, Int.tmod_eq_emod h0 (by omega)]
    omega
  · rename_i hne
    have := hrw str[k] (List.getElem_mem hk) hne
    split <;> omega

end Widths


section DrawRows

variable (RuneWidth : Char → Int) (StringWidth : List Char → Int → Int) (defStyle : Style)
variable (tabsize : Int)

theorem visualToCharPos_zero_cons (lineN : Int) (c : Char) (cs : List Char) :
    visualToCharPos RuneWidth 0 lineN (c :: cs) tabsize = some (0, 0, none) := by
  simp [visualToCharPos, visualToCharPosLoop]

theorem visualToCharPos_nil (v lineN : Int) :
    visualToCharPos RuneWidth v lineN [] tabsize = some (-1, -1, none) := by
  simp [visualToCharPos, visualToCharPosLoop]

/-- With left column 0 the row of a line is the layout loop run from logical column 0 and
view column 0 on an empty row of `min(StringWidth, width)` slots. -/
theorem drawLine_left_zero (width : Int) (str : List Char) (viewLine lineN : Int)
    (hlen : 0 ≤ min (StringWidth str tabsize) width) :
    drawLine RuneWidth StringWidth defStyle tabsize 0 width str viewLine lineN =
      drawCells RuneWidth defStyle tabsize 0 (min (StringWidth str tabsize) width) viewLine lineN
        str 0 0 (List.replicate (min (StringWidth str tabsize) width).toNat none) := by
  have hnot : ¬ min (StringWidth str tabsize) width < 0 := by omega
  cases str with
  | nil =>
    simp only [drawLine, visualToCharPos_nil]
    simp [hnot, drawCells]
  | cons c cs =>
    simp only [drawLine, visualToCharPos_zero_cons]
    simp [hnot]

theorem drawRows_spec (buf : Buffer) (left width : Int)
    (hdl : ∀ (str : List Char) (viewLine lineN : Int), str ∈ buf.lines →
      ∃ row, drawLine RuneWidth StringWidth defStyle tabsize left width str viewLine lineN
        = some row)
    (fuel : Nat) : ∀ (viewLine lineN : Int), 0 ≤ lineN →
    ∃ rows, drawRows RuneWidth StringWidth defStyle tabsize buf left width fuel viewLine lineN
        = some rows ∧
      rows.length = min fuel (buf.lines.length - lineN.toNat) ∧
      ∀ (r : Nat) (row : Row), rows[r]? = some row →
        ∃ str, buf.lines[lineN.toNat + r]? = some str ∧
          drawLine RuneWidth StringWidth defStyle tabsize left width str (viewLine + r)
            (lineN + r) = some row := by
  induction fuel with
  | zero =>
    intro viewLine lineN _
    exact ⟨[], by simp [drawRows], by simp, by simp⟩
  | succ fuel ih =>
    intro viewLine lineN h0
    have hcast : (lineN.toNat : Int) = lineN := Int.toNat_of_nonneg h0
    by_cases hge : lineN ≥ (buf.lines.length : Int)
    · refine ⟨[], by simp [drawRows, hge], ?_, by simp⟩
      have : buf.lines.length - lineN.toNat = 0 := by omega
      simp [this]
    · have hlt : lineN.toNat < buf.lines.length := by omega
      have hline : buf.Line lineN = some buf.lines[lineN.toNat] := by
        unfold Buffer.Line
        rw [if_neg hge, if_neg (by omega)]
        exact List.getElem?_eq_getElem hlt
      obtain ⟨row, hrow⟩ := hdl buf.lines[lineN.toNat] viewLine lineN (List.getElem_mem hlt)
      obtain ⟨rows, hrows, hlen, hget⟩ := ih (viewLine + 1) (lineN + 1) (by omega)
      have hnext : (lineN + 1).toNat = lineN.toNat + 1 := by omega
      refine ⟨row :: rows, ?_, ?_, ?_⟩
      · rw [drawRows, if_neg hge]
        simp only [hline, hrow, hrows]
      · rw [List.length_cons, hlen, hnext]
        omega
      · intro r row1 hr
        cases r with
        | zero =>
          simp only [List.getElem?_cons_zero, Option.some.injEq] at hr
          subst hr
          refine ⟨buf.lines[lineN.toNat], ?_, ?_⟩
          · simp
          · simp only [Nat.cast_zero, add_zero]
            exact hrow
        | succ r =>
          simp only [List.getElem?_cons_succ] at hr
          obtain ⟨str, hstr, hd⟩ := hget r row1 hr
          refine ⟨str, ?_, ?_⟩
          · rw [hnext] at hstr
            rw [← hstr]
            congr 1
            omega
          · rw [← hd]
            congr 1 <;> push_cast <;> ring

end DrawRows

/-- The layout of a row drawn from left column 0, cell by cell. -/
theorem draw_layout_left_zero (RuneWidth : Char → Int) (StringWidth : List Char → Int → Int)
    (defStyle : Style) (t : Int) (buf : Buffer) (top height width : Int)
    (ht : 0 < t) (htop : 0 ≤ top) (hwidth : 0 ≤ width)
    (hsw : ∀ str, 0 ≤ StringWidth str t) :
    ∃ rows, Draw RuneWidth StringWidth defStyle t buf top height 0 width = some rows ∧
      ∀ (r : Nat) (row : Row) (str : List Char),
        rows[r]? = some row → buf.lines[top.toNat + r]? = some str →
        (∀ c ∈ str, c ≠ '\t' → 1 ≤ RuneWidth c) →
        ∀ (k : Nat) (c : Char), str[k]? = some c →
        ∀ d : Nat, W RuneWidth t str k + d < W RuneWidth t str (k + 1) →
          W RuneWidth t str k + d < row.length →
          row[(W RuneWidth t str k + d).toNat]? =
            some (some
              { visualLoc := ⟨W RuneWidth t str k + d, r⟩
                realLoc := ⟨k, top + r⟩
                char := c
                drawChar := if d = 0 ∧ c ≠ '\t' then c else ' '
                style := defStyle
                width := if d = 0 then W RuneWidth t str (k + 1) - W RuneWidth t str k
                  else 1 }) := by
  have hmin : ∀ str, 0 ≤ min (StringWidth str t) width := fun str => le_min (hsw str) hwidth
  have hdl : ∀ (str : List Char) (viewLine lineN : Int), str ∈ buf.lines →
      ∃ row, drawLine RuneWidth StringWidth defStyle t 0 width str viewLine lineN
        = some row := by
    intro str viewLine lineN _
    rw [drawLine_left_zero RuneWidth StringWidth defStyle t width str viewLine lineN (hmin str)]
    obtain ⟨row, h, _⟩ := drawCells_spec RuneWidth defStyle t 0
      (min (StringWidth str t) width) viewLine lineN ht str 0 0
      (List.replicate (min (StringWidth str t) width).toNat none)
      (by simp [Int.toNat_of_nonneg (hmin str)])
    exact ⟨row, h⟩
  obtain ⟨rows, hrows, _, hget⟩ := drawRows_spec RuneWidth StringWidth defStyle t buf 0 width
    hdl height.toNat 0 top htop
  refine ⟨rows, hrows, ?_⟩
  intro r row str hr hstr hrw k c hk d hd hlt
  obtain ⟨str1, hstr1, hrow⟩ := hget r row hr
  rw [hstr] at hstr1
  obtain rfl : str = str1 := by simpa using hstr1
  rw [drawLine_left_zero RuneWidth StringWidth defStyle t width str _ _ (hmin str)] at hrow
  obtain ⟨row1, hrun, hlen1, -, hcells⟩ := drawCells_spec RuneWidth defStyle t 0
    (min (StringWidth str t) width) (0 + r) (top + r) ht str 0 0
    (List.replicate (min (StringWidth str t) width).toNat none)
    (by simp [Int.toNat_of_nonneg (hmin str)])
  rw [hrun] at hrow
  obtain rfl : row1 = row := by simpa using hrow
  have hklt : k < str.length := by
    by_contra hcon
    rw [List.getElem?_eq_none (by omega)] at hk
    exact absurd hk (by simp)
  have hcget : c = str[k] := by
    rw [List.getElem?_eq_getElem hklt] at hk
    exact (Option.some.inj hk).symm
  have hv := viewColOf_eq_W RuneWidth t ht str hrw k (by omega)
  have hcc := charCells_eq_W RuneWidth t ht str hrw k hklt
  rw [← hcget] at hcc
  have hrowlen : (row1.length : Int) = min (StringWidth str t) width := by
    rw [hlen1, List.length_replicate, Int.toNat_of_nonneg (hmin str)]
  have h0 := W_nonneg RuneWidth t ht str hrw k (by omega)
  have := hcells k c hk d (by rw [hv, hcc]; omega) (by rw [hv]; omega) (by rw [hv]; omega)
    (by rw [hv]; omega)
  rw [hv] at this
  rw [this]
  simp only [cellAt, hcc, zero_add]
  by_cases hd0 : d = 0
  · subst hd0
    by_cases hc : c = '\t' <;> simp [hc]
  · simp [hd0]


section Inverse

variable (RuneWidth : Char → Int) (tabsize : Int)

theorem visualToCharPosLoop_hit (ht : 0 < tabsize) (str : List Char)
    (hrw : ∀ c ∈ str, c ≠ '\t' → 1 ≤ RuneWidth c) (v : Int) (k : Nat)
    (hk : k + 1 < str.length) (hlo : W RuneWidth tabsize str k < v)
    (hhi : v ≤ W RuneWidth tabsize str (k + 1)) (m : Nat) :
    ∀ j : Nat, j + m = k + 1 → 1 ≤ j →
      visualToCharPosLoop RuneWidth v tabsize (str.drop j) false ((j - 1 : Nat) : Int)
        (W RuneWidth tabsize str (j - 1)) (W RuneWidth tabsize str (j - 1))
        (W RuneWidth tabsize str j)
        (W RuneWidth tabsize str j - W RuneWidth tabsize str (j - 1)) =
      some ((k : Int), v - W RuneWidth tabsize str k, none) := by
  induction m with
  | zero =>
    intro j hj _
    have hjk : j = k + 1 := by omega
    subst hjk
    rw [List.drop_eq_getElem_cons hk, visualToCharPosLoop]
    simp [hhi]
  | succ m ih =>
    intro j hj h1
    have hjlt : j < str.length := by omega
    have hmono := W_mono RuneWidth tabsize ht str hrw j k (by omega) (by omega)
    have hnot : ¬ W RuneWidth tabsize str j ≥ v := by omega
    have hc : str[j]? = some str[j] := List.getElem?_eq_getElem hjlt
    have hstep := W_succ_of_get RuneWidth tabsize str j _ hc
    have h0 := W_nonneg RuneWidth tabsize ht str hrw j (by omega)
    have hcast : ((j - 1 : Nat) : Int) + 1 = ((j + 1 - 1 : Nat) : Int) := by
      have : j + 1 - 1 = j - 1 + 1 := by omega
      rw [this]
      push_cast
      ring
    have hih := ih (j + 1) (by omega) (by omega)
    simp only [Nat.add_sub_cancel] at hih hcast
    rw [List.drop_eq_getElem_cons hjlt, visualToCharPosLoop]
    simp only [hnot, if_false, Bool.false_eq_true]
    have hli : W RuneWidth tabsize str (j - 1) +
        (W RuneWidth tabsize str j - W RuneWidth tabsize str (j - 1)) =
        W RuneWidth tabsize str j := by ring
    rw [hli, hcast]
    by_cases htab : str[j] = '\t'
    · simp only [htab, if_true] at hstep ⊢
      rw [if_neg (by omega), Int.tmod_eq_emod h0 (by omega)]
      have e1 : W RuneWidth tabsize str j +
          (tabsize - W RuneWidth tabsize str j % tabsize) =
          W RuneWidth tabsize str (j + 1) := by omega
      have e2 : tabsize - W RuneWidth tabsize str j % tabsize =
          W RuneWidth tabsize str (j + 1) - W RuneWidth tabsize str j := by omega
      rw [e1, e2]
      exact hih
    · simp only [htab, if_false] at hstep ⊢
      have e1 : W RuneWidth tabsize str j + RuneWidth str[j] =
          W RuneWidth tabsize str (j + 1) := by omega
      have e2 : RuneWidth str[j] =
          W RuneWidth tabsize str (j + 1) - W RuneWidth tabsize str j := by omega
      rw [e1]
      rw [e2] at *
      exact hih

/-- For a rune `k` that is not the last one of the line, every visual index `v` with
`W_k < v ≤ W_(k+1)` is mapped to column `k` with offset `v - W_k`. -/
theorem visualToCharPos_hit (ht : 0 < tabsize) (str : List Char)
    (hrw : ∀ c ∈ str, c ≠ '\t' → 1 ≤ RuneWidth c) (v lineN : Int) (k : Nat)
    (hk : k + 1 < str.length) (hlo : W RuneWidth tabsize str k < v)
    (hhi : v ≤ W RuneWidth tabsize str (k + 1)) :
    visualToCharPos RuneWidth v lineN str tabsize =
      some ((k : Int), v - W RuneWidth tabsize str k, none) := by
  have h0 := W_nonneg RuneWidth tabsize ht str hrw k (by omega)
  have hloop := visualToCharPosLoop_hit RuneWidth tabsize ht str hrw v k hk hlo hhi k 1
    (by omega) (by omega)
  have hlen : 0 < str.length := by omega
  have hc : str[0]? = some str[0] := List.getElem?_eq_getElem hlen
  have hstep := W_succ_of_get RuneWidth tabsize str 0 _ hc
  have hW0 : W RuneWidth tabsize str 0 = 0 := by simp [W]
  simp only [Nat.sub_self, Nat.cast_zero, hW0, sub_zero] at hloop
  rw [hW0] at hstep
  have hstr : str = str[0] :: str.drop 1 := by
    conv_lhs => rw [← List.drop_zero str, List.drop_eq_getElem_cons hlen]
  unfold visualToCharPos
  conv_lhs => rw [hstr]
  rw [visualToCharPosLoop]
  have hnot : ¬ (0 : Int) ≥ v := by omega
  simp only [hnot, if_false, if_true]
  by_cases htab : str[0] = '\t'
  · simp only [htab, if_true] at hstep ⊢
    rw [if_neg (by omega)]
    have e : tabsize - Int.tmod 0 tabsize = W RuneWidth tabsize str 1 := by
      rw [hstep]
      simp
    rw [e, zero_add]
    exact hloop
  · simp only [htab, if_false] at hstep ⊢
    have e : RuneWidth str[0] = W RuneWidth tabsize str 1 := by
      rw [hstep]
      simp
    rw [e, zero_add]
    exact hloop

end Inverse


/-! ## The parameters of the worked examples -/

theorem specRuneWidth_pos (c : Char) : 1 ≤ specRuneWidth c := by
  unfold specRuneWidth
  split <;> omega

theorem specStringWidth_nonneg (t : Int) (ht : 0 < t) (str : List Char) :
    0 ≤ specStringWidth str t :=
  W_nonneg specRuneWidth t ht str (fun c _ _ => specRuneWidth_pos c) str.length (le_refl _)

/-! ## `Draw` gives every rune at least one cell -/

section CellWidth

variable (RuneWidth : Char → Int) (StringWidth : List Char → Int → Int) (defStyle : Style)
variable (tabsize : Int)

theorem cellWidth_pos (c : Char) : 1 ≤ cellWidth RuneWidth c := by
  unfold cellWidth
  split <;> omega

theorem cellWidth_gt_one (c : Char) : cellWidth RuneWidth c > 1 ↔ RuneWidth c > 1 := by
  unfold cellWidth
  split <;> omega

theorem cellWidth_of_gt_one (c : Char) (h : RuneWidth c > 1) :
    cellWidth RuneWidth c = RuneWidth c := by
  simp only [cellWidth, h, if_true]

/-- On a line whose runes other than tabs have display width at least 1, the widths after
`cellWidth` are the widths of the layout rule. -/
theorem W_cellWidth (str : List Char) (hrw : ∀ c ∈ str, c ≠ '\t' → 1 ≤ RuneWidth c)
    (k : Nat) : W (cellWidth RuneWidth) tabsize str k = W RuneWidth tabsize str k := by
  induction k with
  | zero => simp [W]
  | succ k ih =>
    rw [W, W, ih]
    cases hk : str[k]? with
    | none => rfl
    | some c =>
      simp only []
      split
      · rfl
      · rename_i hne
        have hmem : c ∈ str := by
          obtain ⟨hlt, hget⟩ := List.getElem?_eq_some_iff.mp hk
          rw [← hget]
          exact List.getElem_mem hlt
        have := hrw c hmem hne
        unfold cellWidth
        split <;> omega

/-- The layout loop only asks whether the display width is above 1. -/
theorem drawCells_cellWidth (curStyle : Style) (left lineLength viewLine lineN : Int)
    (rest : List Char) :
    ∀ (colN v : Int) (row : Row),
      drawCells RuneWidth curStyle tabsize left lineLength viewLine lineN rest colN v row =
        drawCells (cellWidth RuneWidth) curStyle tabsize left lineLength viewLine lineN
          rest colN v row := by
  induction rest with
  | nil =>
    intro colN v row
    simp [drawCells]
  | cons c cs ih =>
    intro colN v row
    rw [drawCells, drawCells]
    by_cases hv : v < lineLength
    · simp only [hv, not_true_eq_false, if_false]
      by_cases hc : c = '\t'
      · simp only [hc, if_true]
        split
        · rfl
        · exact ih _ _ _
      · simp only [hc, if_false]
        by_cases hw : RuneWidth c > 1
        · have hw2 : cellWidth RuneWidth c > 1 := (cellWidth_gt_one RuneWidth c).mpr hw
          simp only [hw, hw2, if_true, cellWidth_of_gt_one RuneWidth c hw]
          exact ih _ _ _
        · have hw2 : ¬ cellWidth RuneWidth c > 1 :=
            fun h => hw ((cellWidth_gt_one RuneWidth c).mp h)
          simp only [hw, hw2, if_false]
          exact ih _ _ _
    · simp only [hv, not_false_eq_true, if_true]

theorem drawLine_cellWidth_left_zero (width : Int) (str : List Char)
    (viewLine lineN : Int) :
    drawLine RuneWidth StringWidth defStyle tabsize 0 width str viewLine lineN =
      drawLine (cellWidth RuneWidth) StringWidth defStyle tabsize 0 width str viewLine
        lineN := by
  cases str with
  | nil =>
    simp only [drawLine, visualToCharPos_nil]
    split
    · rfl
    · exact drawCells_cellWidth RuneWidth tabsize _ _ _ _ _ _ _ _ _
  | cons c cs =>
    simp only [drawLine, visualToCharPos_zero_cons]
    split
    · rfl
    · exact drawCells_cellWidth RuneWidth tabsize _ _ _ _ _ _ _ _ _

theorem drawRows_cellWidth_left_zero (buf : Buffer) (width : Int) (fuel : Nat) :
    ∀ viewLine lineN : Int,
      drawRows RuneWidth StringWidth defStyle tabsize buf 0 width fuel viewLine lineN =
        drawRows (cellWidth RuneWidth) StringWidth defStyle tabsize buf 0 width fuel viewLine
          lineN := by
  induction fuel with
  | zero =>
    intro viewLine lineN
    simp [drawRows]
  | succ fuel ih =>
    intro viewLine lineN
    rw [drawRows, drawRows]
    split
    · rfl
    · cases buf.Line lineN with
      | none => rfl
      | some str =>
        simp only [drawLine_cellWidth_left_zero RuneWidth StringWidth defStyle tabsize width
          str viewLine lineN, ih (viewLine + 1) (lineN + 1)]

theorem draw_cellWidth_left_zero (buf : Buffer) (top height width : Int) :
    Draw RuneWidth StringWidth defStyle tabsize buf top height 0 width =
      Draw (cellWidth RuneWidth) StringWidth defStyle tabsize buf top height 0 width :=
  drawRows_cellWidth_left_zero RuneWidth StringWidth defStyle tabsize buf width _ _ _

end CellWidth

/-! ## Claims about the layout (`cellview.go`) -/

/-- Claim C1, refuted as stated: under a rune width that is 0 for the combining acute
accent U+0301, the line `e`, U+0301, `b` has `W_2 = 1`, but `Draw` advances one cell for
the accent: column 1 holds the accent, rune 1, and `b`, rune 2, is at column 2 when the row
has three slots and is not drawn at all when the row has the two slots of the display
width of the line. -/
theorem draw_zero_width_rune_takes_a_cell :
    markRuneWidth '\u0301' = 0 ∧
    W markRuneWidth 4 ['e', '\u0301', 'b'] 2 = 1 ∧
    Draw markRuneWidth specStringWidth 0 4 (bufferOf ['e', '\u0301', 'b']) 0 1 0 80 =
      some [[some ⟨⟨0, 0⟩, ⟨0, 0⟩, 'e', 'e', 0, 1⟩,
             some ⟨⟨1, 0⟩, ⟨1, 0⟩, '\u0301', '\u0301', 0, 1⟩,
             some ⟨⟨2, 0⟩, ⟨2, 0⟩, 'b', 'b', 0, 1⟩]] ∧
    Draw markRuneWidth markStringWidth 0 4 (bufferOf ['e', '\u0301', 'b']) 0 1 0 80 =
      some [[some ⟨⟨0, 0⟩, ⟨0, 0⟩, 'e', 'e', 0, 1⟩,
             some ⟨⟨1, 0⟩, ⟨1, 0⟩, '\u0301', '\u0301', 0, 1⟩]] := by
  decide

/-- Claim C1, amended. For every tab size `t > 0` and a view with left column 0 (top line,
width and the reported string widths not negative), `Draw` returns its rows, and in the row
of every buffer line rune `k` occupies the visual columns `W_k .. W_(k+1) - 1` that lie
below the row length: its first cell, at `W_k`, carries the glyph (the indent character for
a tab), the others are fillers, all with `realLoc = (k, line)`. Here `W_0 = 0`, a tab adds
`t - W_k mod t` and any other rune adds its `RuneWidth` when that is above 1 and one cell
otherwise; on a line whose runes other than tabs have `RuneWidth` at least 1 this is the
recurrence of the layout rule, in which such a rune adds its `RuneWidth`. -/
theorem draw_places_rune_at_cell_W (RuneWidth : Char → Int)
    (StringWidth : List Char → Int → Int)
    (defStyle : Style) (t : Int) (buf : Buffer) (top height width : Int)
    (ht : 0 < t) (htop : 0 ≤ top) (hwidth : 0 ≤ width)
    (hsw : ∀ str, 0 ≤ StringWidth str t) :
    ∃ rows, Draw RuneWidth StringWidth defStyle t buf top height 0 width = some rows ∧
      ∀ (r : Nat) (row : Row) (str : List Char),
        rows[r]? = some row → buf.lines[top.toNat + r]? = some str →
        (∀ (k : Nat) (c : Char), str[k]? = some c →
          ∀ d : Nat, W (cellWidth RuneWidth) t str k + d < W (cellWidth RuneWidth) t str (k + 1) →
            W (cellWidth RuneWidth) t str k + d < row.length →
            row[(W (cellWidth RuneWidth) t str k + d).toNat]? =
              some (some
                { visualLoc := ⟨W (cellWidth RuneWidth) t str k + d, r⟩
                  realLoc := ⟨k, top + r⟩
                  char := c
                  drawChar := if d = 0 ∧ c ≠ '\t' then c else ' '
                  style := defStyle
                  width := if d = 0 then
                      W (cellWidth RuneWidth) t str (k + 1) - W (cellWidth RuneWidth) t str k
                    else 1 })) ∧
        ((∀ c ∈ str, c ≠ '\t' → 1 ≤ RuneWidth c) →
          ∀ k : Nat, W (cellWidth RuneWidth) t str k = W RuneWidth t str k) := by
  obtain ⟨rows, hrows, hcells⟩ := draw_layout_left_zero (cellWidth RuneWidth) StringWidth
    defStyle t buf top height width ht htop hwidth hsw
  rw [← draw_cellWidth_left_zero] at hrows
  refine ⟨rows, hrows, ?_⟩
  intro r row str hr hstr
  refine ⟨?_, fun hrw k => W_cellWidth RuneWidth t str hrw k⟩
  intro k c hk d hd hlt
  exact hcells r row str hr hstr (fun c _ _ => cellWidth_pos RuneWidth c) k c hk d hd hlt

/-- Claim C1, amended, worked example: with tab size 4 the line `"a\tb"` drawn from column
0 gives five cells for three runes, `a` at column 0, the tab at columns 1 to 3 and `b` at
column 4; the general statement is instantiated at this buffer. -/
theorem draw_places_rune_at_cell_W_witness :
    Draw specRuneWidth specStringWidth 0 4 (bufferOf ['a', '\t', 'b']) 0 1 0 80 =
      some [[some ⟨⟨0, 0⟩, ⟨0, 0⟩, 'a', 'a', 0, 1⟩,
             some ⟨⟨1, 0⟩, ⟨1, 0⟩, '\t', ' ', 0, 3⟩,
             some ⟨⟨2, 0⟩, ⟨1, 0⟩, '\t', ' ', 0, 1⟩,
             some ⟨⟨3, 0⟩, ⟨1, 0⟩, '\t', ' ', 0, 1⟩,
             some ⟨⟨4, 0⟩, ⟨2, 0⟩, 'b', 'b', 0, 1⟩]] ∧
    W (cellWidth specRuneWidth) 4 ['a', '\t', 'b'] 2 = 4 ∧
    ((0 : Int) < 4 ∧ (0 : Int) ≤ 0 ∧ (0 : Int) ≤ 80 ∧ (∀ str, 0 ≤ specStringWidth str 4)) ∧
    ∃ rows, Draw specRuneWidth specStringWidth 0 4 (bufferOf ['a', '\t', 'b']) 0 1 0 80
        = some rows ∧
      ∀ (r : Nat) (row : Row) (str : List Char),
        rows[r]? = some row → (bufferOf ['a', '\t', 'b']).lines[(0 : Int).toNat + r]? = some str →
        (∀ (k : Nat) (c : Char), str[k]? = some c →
          ∀ d : Nat, W (cellWidth specRuneWidth) 4 str k + d <
              W (cellWidth specRuneWidth) 4 str (k + 1) →
            W (cellWidth specRuneWidth) 4 str k + d < row.length →
            row[(W (cellWidth specRuneWidth) 4 str k + d).toNat]? =
              some (some
                { visualLoc := ⟨W (cellWidth specRuneWidth) 4 str k + d, r⟩
                  realLoc := ⟨k, 0 + r⟩
                  char := c
                  drawChar := if d = 0 ∧ c ≠ '\t' then c else ' '
                  style := 0
                  width := if d = 0 then
                      W (cellWidth specRuneWidth) 4 str (k + 1) -
                        W (cellWidth specRuneWidth) 4 str k
                    else 1 })) ∧
        ((∀ c ∈ str, c ≠ '\t' → 1 ≤ specRuneWidth c) →
          ∀ k : Nat, W (cellWidth specRuneWidth) 4 str k = W specRuneWidth 4 str k) :=
  ⟨by decide, by decide,
   ⟨by decide, by decide, by decide, specStringWidth_nonneg 4 (by decide)⟩,
   draw_places_rune_at_cell_W specRuneWidth specStringWidth 0 4 (bufferOf ['a', '\t', 'b'])
     0 1 80 (by decide) (by decide) (by decide) (specStringWidth_nonneg 4 (by decide))⟩

/-- Claim C2, refuted as stated: in the line `"ab"` drawn from column 0 the cell at visual
column 1 belongs to logical column 1, but `visualToCharPos` maps visual column 1 to logical
column 0 with offset 1, not to column 1 with offset 0. -/
theorem visualToCharPos_not_left_inverse :
    Draw specRuneWidth specStringWidth 0 4 (bufferOf ['a', 'b']) 0 1 0 80 =
      some [[some ⟨⟨0, 0⟩, ⟨0, 0⟩, 'a', 'a', 0, 1⟩, some ⟨⟨1, 0⟩, ⟨1, 0⟩, 'b', 'b', 0, 1⟩]] ∧
    visualToCharPos specRuneWidth 1 0 ['a', 'b'] 4 = some (0, 1, none) ∧
    visualToCharPos specRuneWidth 1 0 ['a', 'b'] 4 ≠ some (1, 0, none) := by
  decide

/-- Claim C2, amended. For every tab size `t > 0`, a view with left column 0 and every line
whose runes other than tabs have display width at least 1, `visualToCharPos` maps the visual
columns of the cells `Draw` renders as follows. Column 0 of a non-empty line gives logical
column 0 with offset 0. A filler cell (offset `d ≥ 1` inside its rune) of a rune that is not
the last rune of the line gives the cell's logical column with offset `d`. The first cell of
a rune `k + 1` gives the logical column before the cell's, `k`, with the whole width of rune
`k` as offset, not `k + 1` with offset 0. -/
theorem visualToCharPos_on_drawn_cells (RuneWidth : Char → Int)
    (StringWidth : List Char → Int → Int) (defStyle : Style) (t : Int) (buf : Buffer)
    (top height width : Int) (ht : 0 < t) (htop : 0 ≤ top) (hwidth : 0 ≤ width)
    (hsw : ∀ str, 0 ≤ StringWidth str t) :
    ∃ rows, Draw RuneWidth StringWidth defStyle t buf top height 0 width = some rows ∧
      ∀ (r : Nat) (row : Row) (str : List Char),
        rows[r]? = some row → buf.lines[top.toNat + r]? = some str →
        (∀ c ∈ str, c ≠ '\t' → 1 ≤ RuneWidth c) →
        (str ≠ [] → visualToCharPos RuneWidth 0 (top + r) str t = some (0, 0, none)) ∧
        (∀ (k d : Nat), k + 1 < str.length → 1 ≤ d →
          W RuneWidth t str k + d < W RuneWidth t str (k + 1) →
          W RuneWidth t str k + d < row.length →
          ∃ cell : Cell, row[(W RuneWidth t str k + d).toNat]? = some (some cell) ∧
            cell.visualLoc.X = W RuneWidth t str k + d ∧ cell.realLoc.X = k ∧
            visualToCharPos RuneWidth cell.visualLoc.X (top + r) str t =
              some (cell.realLoc.X, (d : Int), none)) ∧
        (∀ k : Nat, k + 1 < str.length → W RuneWidth t str (k + 1) < row.length →
          ∃ cell : Cell, row[(W RuneWidth t str (k + 1)).toNat]? = some (some cell) ∧
            cell.visualLoc.X = W RuneWidth t str (k + 1) ∧ cell.realLoc.X = (k : Int) + 1 ∧
            visualToCharPos RuneWidth cell.visualLoc.X (top + r) str t =
              some (cell.realLoc.X - 1,
                W RuneWidth t str (k + 1) - W RuneWidth t str k, none)) := by
  obtain ⟨rows, hrows, hcells⟩ :=
    draw_layout_left_zero RuneWidth StringWidth defStyle t buf top height width ht htop hwidth hsw
  refine ⟨rows, hrows, ?_⟩
  intro r row str hr hstr hrw
  refine ⟨?_, ?_, ?_⟩
  · intro hne
    cases str with
    | nil => exact absurd rfl hne
    | cons c cs => exact visualToCharPos_zero_cons RuneWidth t (top + r) c cs
  · intro k d hk hd1 hd hlt
    have hklt : k < str.length := by omega
    have hget : str[k]? = some str[k] := List.getElem?_eq_getElem hklt
    refine ⟨_, hcells r row str hr hstr hrw k str[k] hget d hd hlt, rfl, rfl, ?_⟩
    simp only
    have := visualToCharPos_hit RuneWidth t ht str hrw (W RuneWidth t str k + d) (top + r) k
      hk (by omega) (by omega)
    rw [this]
    have e : W RuneWidth t str k + (d : Int) - W RuneWidth t str k = (d : Int) := by omega
    rw [e]
  · intro k hk hlt
    have hget : str[k + 1]? = some str[k + 1] := List.getElem?_eq_getElem hk
    have hstep := W_mono_step RuneWidth t ht str hrw (k + 1) hk
    have hstep0 := W_mono_step RuneWidth t ht str hrw k (by omega)
    have hcell := hcells r row str hr hstr hrw (k + 1) str[k + 1] hget 0
      (by push_cast; omega) (by push_cast; omega)
    simp only [Nat.cast_zero, add_zero] at hcell
    refine ⟨_, hcell, rfl, by push_cast; rfl, ?_⟩
    simp only
    have := visualToCharPos_hit RuneWidth t ht str hrw (W RuneWidth t str (k + 1)) (top + r) k
      hk (by omega) (le_refl _)
    rw [this]
    push_cast
    have e : (k : Int) + 1 - 1 = (k : Int) := by omega
    rw [e]

/-- Claim C2, amended, worked example: the statement at the line `"a\tb"` with tab size 4;
there visual column 1, the first cell of the tab (logical column 1), is mapped to logical
column 0 with offset 1, and visual column 2, a filler of the tab, to column 1, offset 1. -/
theorem visualToCharPos_on_drawn_cells_witness :
    (visualToCharPos specRuneWidth 1 0 ['a', '\t', 'b'] 4 = some (0, 1, none) ∧
      visualToCharPos specRuneWidth 2 0 ['a', '\t', 'b'] 4 = some (1, 1, none)) ∧
    ((0 : Int) < 4 ∧ (0 : Int) ≤ 0 ∧ (0 : Int) ≤ 80 ∧ (∀ str, 0 ≤ specStringWidth str 4)) ∧
    ∃ rows, Draw specRuneWidth specStringWidth 0 4 (bufferOf ['a', '\t', 'b']) 0 1 0 80
        = some rows ∧
      ∀ (r : Nat) (row : Row) (str : List Char),
        rows[r]? = some row → (bufferOf ['a', '\t', 'b']).lines[(0 : Int).toNat + r]? = some str →
        (∀ c ∈ str, c ≠ '\t' → 1 ≤ specRuneWidth c) →
        (str ≠ [] → visualToCharPos specRuneWidth 0 (0 + r) str 4 = some (0, 0, none)) ∧
        (∀ (k d : Nat), k + 1 < str.length → 1 ≤ d →
          W specRuneWidth 4 str k + d < W specRuneWidth 4 str (k + 1) →
          W specRuneWidth 4 str k + d < row.length →
          ∃ cell : Cell, row[(W specRuneWidth 4 str k + d).toNat]? = some (some cell) ∧
            cell.visualLoc.X = W specRuneWidth 4 str k + d ∧ cell.realLoc.X = k ∧
            visualToCharPos specRuneWidth cell.visualLoc.X (0 + r) str 4 =
              some (cell.realLoc.X, (d : Int), none)) ∧
        (∀ k : Nat, k + 1 < str.length → W specRuneWidth 4 str (k + 1) < row.length →
          ∃ cell : Cell, row[(W specRuneWidth 4 str (k + 1)).toNat]? = some (some cell) ∧
            cell.visualLoc.X = W specRuneWidth 4 str (k + 1) ∧ cell.realLoc.X = (k : Int) + 1 ∧
            visualToCharPos specRuneWidth cell.visualLoc.X (0 + r) str 4 =
              some (cell.realLoc.X - 1,
                W specRuneWidth 4 str (k + 1) - W specRuneWidth 4 str k, none)) :=
  ⟨by decide,
   ⟨by decide, by decide, by decide, specStringWidth_nonneg 4 (by decide)⟩,
   visualToCharPos_on_drawn_cells specRuneWidth specStringWidth 0 4
     (bufferOf ['a', '\t', 'b']) 0 1 80 (by decide) (by decide) (by decide)
     (specStringWidth_nonneg 4 (by decide))⟩

/-! ## Claims about search and replace (`search.go`) -/

/-- Claim C3, the code at the failing input: in the document `"éXab"` the match of `X`
starts at byte 2 and at rune 1; bulk mode hands the byte index to `FromCharPos`, so the
rune at offset 2 is replaced and the document becomes `"éXYb"` instead of `"éYab"`. On the
all-ASCII document `"aXaXa"` the result is the expected `"aYYaYYa"`. -/
theorem replace_all_takes_byte_index_for_rune_offset :
    Replace exampleCompile "X" ['Y'] [('a', false)] (editorOf ['é', 'X', 'a', 'b'] 0) =
      Outcome.done
        { Buf := { lines := [['é', 'X', 'Y', 'b']],
                   Cursor := { Loc := ⟨4, 0⟩, CurSelection := (⟨0, 0⟩, ⟨0, 0⟩),
                               OrigSelection := (⟨0, 0⟩, ⟨0, 0⟩), LastVisualX := 0 },
                   IsModified := true, NumLines := 1 },
          lastSearch := "X", searchStart := 0,
          alerts := [Alert.nothingMatched "X"] } ∧
    Replace exampleCompile "X" ['Y', 'Y'] [('a', false)] (editorOf ['a', 'X', 'a', 'X', 'a'] 0) =
      Outcome.done
        { Buf := { lines := [['a', 'Y', 'Y', 'a', 'Y', 'Y', 'a']],
                   Cursor := { Loc := ⟨7, 0⟩, CurSelection := (⟨0, 0⟩, ⟨0, 0⟩),
                               OrigSelection := (⟨0, 0⟩, ⟨0, 0⟩), LastVisualX := 0 },
                   IsModified := true, NumLines := 1 },
          lastSearch := "X", searchStart := 0,
          alerts := [Alert.replacedOccurrences 2 "X"] } := by
  decide

/-- Claim C4, the code at the failing input: with exactly one match in bulk mode the match
is replaced (`"aXa"` becomes `"aYYa"`) but `found` is not incremented and the report is
"nothing matched"; after one `yes` followed by `all` with one match left, two replacements
are made and one is reported. -/
theorem replace_all_single_match_not_counted :
    Replace exampleCompile "X" ['Y', 'Y'] [('a', false)] (editorOf ['a', 'X', 'a'] 0) =
      Outcome.done
        { Buf := { lines := [['a', 'Y', 'Y', 'a']],
                   Cursor := { Loc := ⟨4, 0⟩, CurSelection := (⟨0, 0⟩, ⟨0, 0⟩),
                               OrigSelection := (⟨0, 0⟩, ⟨0, 0⟩), LastVisualX := 0 },
                   IsModified := true, NumLines := 1 },
          lastSearch := "X", searchStart := 0,
          alerts := [Alert.nothingMatched "X"] } ∧
    Replace exampleCompile "X" ['Y', 'Y'] [('y', false), ('a', false)]
        (editorOf ['a', 'X', 'a', 'X', 'a'] 0) =
      Outcome.done
        { Buf := { lines := [['a', 'Y', 'Y', 'a', 'Y', 'Y', 'a']],
                   Cursor := { Loc := ⟨7, 0⟩, CurSelection := (⟨0, 0⟩, ⟨0, 0⟩),
                               OrigSelection := (⟨0, 0⟩, ⟨0, 0⟩), LastVisualX := 0 },
                   IsModified := true, NumLines := 1 },
          lastSearch := "X", searchStart := 0,
          alerts := [Alert.replacedOccurrence 1 "X"] } := by
  decide

/-- Claim C5, the code at the failing input: document `"a"`, `a` replaced by `aa`, answer
`yes`. The document becomes `"aa"` (the inserted text is runes 0 to 2), `searchStart` is
still 0, and the match presented next is runes 0 to 1, inside the text just inserted. -/
theorem replace_yes_offers_inserted_text_again :
    Replace exampleCompile "a" ['a', 'a'] [('y', false)] (editorOf ['a'] 0) =
      Outcome.waiting
        { Buf := { lines := [['a', 'a']],
                   Cursor := { Loc := ⟨1, 0⟩, CurSelection := (⟨0, 0⟩, ⟨1, 0⟩),
                               OrigSelection := (⟨0, 0⟩, ⟨0, 0⟩), LastVisualX := 0 },
                   IsModified := true, NumLines := 1 },
          lastSearch := "a", searchStart := 0, alerts := [] } := by
  decide


/-- Claim C6, refuted as stated: in `"abc"` the pattern `x*` matches in the text from
offset 0 (its first match is the empty match at 0), yet `Search` selects nothing, leaves
the cursor at column 2 and does not set `lastSearch`. -/
theorem search_ignores_empty_first_match :
    (exampleCompile "x*").map (fun r => r ['a', 'b', 'c']) =
      some [(0, 0), (1, 1), (2, 2), (3, 3)] ∧
    Search exampleCompile "x*"
        { editorOf ['a', 'b', 'c'] 0 with
          Buf := { bufferOf ['a', 'b', 'c'] with
            Cursor := { Loc := ⟨2, 0⟩, CurSelection := (⟨0, 0⟩, ⟨0, 0⟩),
                        OrigSelection := (⟨0, 0⟩, ⟨0, 0⟩), LastVisualX := 0 } } } true =
      some
        { editorOf ['a', 'b', 'c'] 0 with
          Buf := { bufferOf ['a', 'b', 'c'] with
            Cursor := { Loc := ⟨2, 0⟩, CurSelection := (⟨0, 0⟩, ⟨0, 0⟩),
                        OrigSelection := (⟨0, 0⟩, ⟨0, 0⟩), LastVisualX := 0 } } } ∧
    (editorOf ['a', 'b', 'c'] 0).lastSearch ≠ "x*" := by
  decide

/-- Claim C6, amended. Let the pattern be non-empty and compile to `r`, and let
`searchStart` be an offset of the document. Write `str` for the text scanned first (from
`searchStart` to the end for a forward search, from the start to `searchStart` for a
backward one) and `m` for a match that is not zero-length. If `m` is the first match in
`str` (forward; the last one, backward), `Search` selects its runes, offset by the start of
`str`; if `r` matches nothing in `str` and `m` is the first (last) match of the whole
document, `Search` selects the runes of `m`. In both cases the cursor is put at the end of
the match, `lastSearch` becomes the pattern and nothing else changes. -/
theorem search_selects_nonempty_match (Compile : String → Option Matcher) (searchStr : String)
    (s : Editor) (down : Bool) (r : Matcher) (m : Nat × Nat)
    (hne : searchStr ≠ "") (hlo : 0 ≤ s.searchStart)
    (hhi : s.searchStart ≤ (s.Buf.String.length : Int))
    (hc : Compile searchStr = some r) (hm : m.1 ≠ m.2) :
    ((if down then (r (s.Buf.String.drop s.searchStart.toNat)).head?
        else (r (s.Buf.String.take s.searchStart.toNat)).getLast?) = some m →
      Search Compile searchStr s down =
        some { s with
          Buf := { s.Buf with
            Cursor := { s.Buf.Cursor with
              CurSelection :=
                (FromCharPos ((if down then s.searchStart else 0) + runePos m.1
                    (if down then s.Buf.String.drop s.searchStart.toNat
                      else s.Buf.String.take s.searchStart.toNat)) s.Buf,
                 FromCharPos ((if down then s.searchStart else 0) + runePos m.2
                    (if down then s.Buf.String.drop s.searchStart.toNat
                      else s.Buf.String.take s.searchStart.toNat)) s.Buf)
              Loc := FromCharPos ((if down then s.searchStart else 0) + runePos m.2
                    (if down then s.Buf.String.drop s.searchStart.toNat
                      else s.Buf.String.take s.searchStart.toNat)) s.Buf } }
          lastSearch := searchStr }) ∧
    (r (if down then s.Buf.String.drop s.searchStart.toNat
          else s.Buf.String.take s.searchStart.toNat) = [] →
      (if down then (r s.Buf.String).head? else (r s.Buf.String).getLast?) = some m →
      Search Compile searchStr s down =
        some { s with
          Buf := { s.Buf with
            Cursor := { s.Buf.Cursor with
              CurSelection :=
                (FromCharPos (0 + runePos m.1 s.Buf.String) s.Buf,
                 FromCharPos (0 + runePos m.2 s.Buf.String) s.Buf)
              Loc := FromCharPos (0 + runePos m.2 s.Buf.String) s.Buf } }
          lastSearch := searchStr }) := by
  have hrange : ¬ (s.searchStart < 0 ∨ (s.Buf.String.length : Int) < s.searchStart) := by omega
  constructor
  · intro hpick
    have hnonempty : r (if down then s.Buf.String.drop s.searchStart.toNat
        else s.Buf.String.take s.searchStart.toNat) ≠ [] := by
      intro h
      cases down <;> simp_all
    cases down
    · simp only [Bool.false_eq_true, if_false] at hpick hnonempty ⊢
      simp only [Search, hne, hrange, hc, hnonempty, selectMatch, hpick, hm, if_false,
        Bool.false_eq_true, not_false_eq_true, if_true, Cursor.SetSelectionStart,
        Cursor.SetSelectionEnd]
    · simp only [if_true] at hpick hnonempty ⊢
      simp only [Search, hne, hrange, hc, hnonempty, selectMatch, hpick, hm, if_false,
        not_true_eq_false, if_true, Cursor.SetSelectionStart, Cursor.SetSelectionEnd]
  · intro hnone hpick
    have hnonempty : r s.Buf.String ≠ [] := by
      intro h
      cases down <;> simp_all
    cases down
    · simp only [Bool.false_eq_true, if_false] at hpick hnone ⊢
      simp only [Search, hne, hrange, hc, hnonempty, hnone, selectMatch, hpick, hm, if_false,
        Bool.false_eq_true, not_false_eq_true, if_true, Cursor.SetSelectionStart,
        Cursor.SetSelectionEnd]
    · simp only [if_true] at hpick hnone ⊢
      simp only [Search, hne, hrange, hc, hnonempty, hnone, selectMatch, hpick, hm, if_false,
        not_true_eq_false, if_true, Cursor.SetSelectionStart, Cursor.SetSelectionEnd]


/-- Claim C6, amended, worked example: in `"foo bar foo"` a forward search for `foo` from
offset 3 selects runes 8 to 11 (the general statement at the match at bytes 5 to 8 of the
scanned remainder), and from offset 11 it wraps and selects runes 0 to 3. -/
theorem search_selects_nonempty_match_witness :
    Search exampleCompile "foo"
        (editorOf ['f', 'o', 'o', ' ', 'b', 'a', 'r', ' ', 'f', 'o', 'o'] 3) true =
      some
        { editorOf ['f', 'o', 'o', ' ', 'b', 'a', 'r', ' ', 'f', 'o', 'o'] 3 with
          Buf := { bufferOf ['f', 'o', 'o', ' ', 'b', 'a', 'r', ' ', 'f', 'o', 'o'] with
            Cursor := { Loc := ⟨11, 0⟩, CurSelection := (⟨8, 0⟩, ⟨11, 0⟩),
                        OrigSelection := (⟨0, 0⟩, ⟨0, 0⟩), LastVisualX := 0 } }
          lastSearch := "foo" } ∧
    Search exampleCompile "foo"
        (editorOf ['f', 'o', 'o', ' ', 'b', 'a', 'r', ' ', 'f', 'o', 'o'] 11) true =
      some
        { editorOf ['f', 'o', 'o', ' ', 'b', 'a', 'r', ' ', 'f', 'o', 'o'] 11 with
          Buf := { bufferOf ['f', 'o', 'o', ' ', 'b', 'a', 'r', ' ', 'f', 'o', 'o'] with
            Cursor := { Loc := ⟨3, 0⟩, CurSelection := (⟨0, 0⟩, ⟨3, 0⟩),
                        OrigSelection := (⟨0, 0⟩, ⟨0, 0⟩), LastVisualX := 0 } }
          lastSearch := "foo" } :=
  ⟨((search_selects_nonempty_match exampleCompile "foo"
        (editorOf ['f', 'o', 'o', ' ', 'b', 'a', 'r', ' ', 'f', 'o', 'o'] 3) true
        (fun s => literalMatches ['f', 'o', 'o'] s 0 0) (5, 8)
        (by decide) (by decide) (by decide) rfl (by decide)).1 (by decide)).trans (by decide),
   ((search_selects_nonempty_match exampleCompile "foo"
        (editorOf ['f', 'o', 'o', ' ', 'b', 'a', 'r', ' ', 'f', 'o', 'o'] 11) true
        (fun s => literalMatches ['f', 'o', 'o'] s 0 0) (0, 3)
        (by decide) (by decide) (by decide) rfl (by decide)).2 (by decide) (by decide)).trans
      (by decide)⟩

/-- Claim C7, the code at the failing input: `"abc"` with runes 0 to 1 selected and the
cursor at column 1. The match picked for `x*` is the empty match at 0, `Search` returns at
once and the old selection is still active, whereas for the pattern `z`, which matches
nothing, the selection is cleared. -/
theorem search_empty_match_keeps_old_selection :
    Search exampleCompile "x*"
        { editorOf ['a', 'b', 'c'] 0 with
          Buf := { bufferOf ['a', 'b', 'c'] with
            Cursor := { Loc := ⟨1, 0⟩, CurSelection := (⟨0, 0⟩, ⟨1, 0⟩),
                        OrigSelection := (⟨0, 0⟩, ⟨0, 0⟩), LastVisualX := 0 } } } true =
      some
        { editorOf ['a', 'b', 'c'] 0 with
          Buf := { bufferOf ['a', 'b', 'c'] with
            Cursor := { Loc := ⟨1, 0⟩, CurSelection := (⟨0, 0⟩, ⟨1, 0⟩),
                        OrigSelection := (⟨0, 0⟩, ⟨0, 0⟩), LastVisualX := 0 } } } ∧
    Cursor.HasSelection { Loc := ⟨1, 0⟩, CurSelection := (⟨0, 0⟩, ⟨1, 0⟩),
                          OrigSelection := (⟨0, 0⟩, ⟨0, 0⟩), LastVisualX := 0 } = true ∧
    Search exampleCompile "z"
        { editorOf ['a', 'b', 'c'] 0 with
          Buf := { bufferOf ['a', 'b', 'c'] with
            Cursor := { Loc := ⟨1, 0⟩, CurSelection := (⟨0, 0⟩, ⟨1, 0⟩),
                        OrigSelection := (⟨0, 0⟩, ⟨0, 0⟩), LastVisualX := 0 } } } true =
      some
        { editorOf ['a', 'b', 'c'] 0 with
          Buf := { bufferOf ['a', 'b', 'c'] with
            Cursor := { Loc := ⟨1, 0⟩, CurSelection := (⟨0, 0⟩, ⟨0, 0⟩),
                        OrigSelection := (⟨0, 0⟩, ⟨0, 0⟩), LastVisualX := 0 } } } := by
  decide

/-- Claim C8, refuted as stated: the pattern `^b` matches nowhere in the document `"ab"`,
but `Search` down from `searchStart = 1` runs it on the slice `"b"`, taken as a text of its
own, where it matches at the start: the runes 1 to 2 are selected, the cursor moves to
`(2, 0)` and `lastSearch` is set. -/
theorem search_matches_slice_not_document :
    (anchoredCompile "^b").map (fun r => r ['a', 'b']) = some [] ∧
    (anchoredCompile "^b").map (fun r => r ['b']) = some [(0, 1)] ∧
    (editorOf ['a', 'b'] 1).Buf.Cursor.HasSelection = false ∧
    (editorOf ['a', 'b'] 1).Buf.Cursor.Loc = ⟨0, 0⟩ ∧
    (Search anchoredCompile "^b" (editorOf ['a', 'b'] 1) true).map
        (fun s => (s.Buf.Cursor.CurSelection, s.Buf.Cursor.Loc, s.lastSearch,
          s.Buf.Cursor.HasSelection)) =
      some ((⟨1, 0⟩, ⟨2, 0⟩), ⟨2, 0⟩, "^b", true) := by
  decide

/-- Claim C8, amended. If the non-empty pattern compiles and matches neither in the part of
the text that `Search` scans first, taken as a text of its own (the text from `searchStart`
on when searching down, the text before `searchStart` when searching up), nor in the whole
document, `Search` (with `searchStart` an offset of the document) clears the selection and
leaves the cursor location, `lastSearch`, `searchStart` and the text of the document
unchanged. -/
theorem search_without_match_clears_selection (Compile : String → Option Matcher)
    (searchStr : String) (s : Editor) (down : Bool) (r : Matcher)
    (hne : searchStr ≠ "") (hlo : 0 ≤ s.searchStart)
    (hhi : s.searchStart ≤ (s.Buf.String.length : Int))
    (hc : Compile searchStr = some r)
    (hstr : r (if down then s.Buf.String.drop s.searchStart.toNat
          else s.Buf.String.take s.searchStart.toNat) = [])
    (htext : r s.Buf.String = []) :
    ∃ s1, Search Compile searchStr s down = some s1 ∧
      s1.Buf.Cursor.HasSelection = false ∧
      s1.Buf.Cursor.Loc = s.Buf.Cursor.Loc ∧
      s1.lastSearch = s.lastSearch ∧
      s1.searchStart = s.searchStart ∧
      s1.Buf.lines = s.Buf.lines ∧
      s1.Buf.String = s.Buf.String := by
  have hrange : ¬ (s.searchStart < 0 ∨ (s.Buf.String.length : Int) < s.searchStart) := by omega
  refine ⟨{ s with Buf := { s.Buf with Cursor := s.Buf.Cursor.ResetSelection } }, ?_, ?_⟩
  · cases down
    · simp only [Bool.false_eq_true, if_false] at hstr
      simp only [Search, hne, hrange, hc, hstr, htext, if_false, if_true, Bool.false_eq_true]
    · simp only [if_true] at hstr
      simp only [Search, hne, hrange, hc, hstr, htext, if_false, if_true]
  · simp [Cursor.HasSelection, Cursor.ResetSelection, Buffer.String]

/-- Claim C8, amended, worked example: `z` matches nowhere in `"abc"`; a selection of runes
0 to 1 is cleared and the cursor stays at column 1. -/
theorem search_without_match_clears_selection_witness :
    ∃ s1, Search exampleCompile "z"
        { editorOf ['a', 'b', 'c'] 0 with
          Buf := { bufferOf ['a', 'b', 'c'] with
            Cursor := { Loc := ⟨1, 0⟩, CurSelection := (⟨0, 0⟩, ⟨1, 0⟩),
                        OrigSelection := (⟨0, 0⟩, ⟨0, 0⟩), LastVisualX := 0 } } } true
          = some s1 ∧
      s1.Buf.Cursor.HasSelection = false ∧
      s1.Buf.Cursor.Loc = ⟨1, 0⟩ ∧
      s1.lastSearch = "" ∧
      s1.searchStart = 0 ∧
      s1.Buf.lines = [['a', 'b', 'c']] ∧
      s1.Buf.String = ['a', 'b', 'c'] :=
  search_without_match_clears_selection exampleCompile "z"
    { editorOf ['a', 'b', 'c'] 0 with
      Buf := { bufferOf ['a', 'b', 'c'] with
        Cursor := { Loc := ⟨1, 0⟩, CurSelection := (⟨0, 0⟩, ⟨1, 0⟩),
                    OrigSelection := (⟨0, 0⟩, ⟨0, 0⟩), LastVisualX := 0 } } } true
    (fun s => literalMatches ['z'] s 0 0)
    (by decide) (by decide) (by decide) rfl (by decide) (by decide)

/-- Claim C9. A pattern that fails to compile changes nothing. `Search` (with `searchStart`
an offset of the document) returns the state it was given: cursor, selection, `lastSearch`
and document are untouched. `Replace`, whose pattern `(?m)` + search fails to compile,
finishes whatever answers are pending (it never prompts) in the state it was given, to which
only the alert reporting the compile error is added. -/
theorem compile_error_changes_nothing (Compile : String → Option Matcher)
    (search : String) (replace : List Char) (answers : List (Char × Bool)) (s : Editor)
    (down : Bool) (hlo : 0 ≤ s.searchStart)
    (hhi : s.searchStart ≤ (s.Buf.String.length : Int)) :
    (Compile search = none → Search Compile search s down = some s) ∧
    (Compile ("(?m)" ++ search) = none →
      Replace Compile search replace answers s =
        Outcome.done { s with alerts := s.alerts ++ [Alert.compileError] }) := by
  have hrange : ¬ (s.searchStart < 0 ∨ (s.Buf.String.length : Int) < s.searchStart) := by omega
  constructor
  · intro hc
    by_cases hne : search = ""
    · simp [Search, hne]
    · simp only [Search, hne, hrange, hc, if_false]
  · intro hc
    simp only [Replace, hc]

/-- Claim C9, worked example: the pattern `(` does not compile; `Search` returns the editor
on `"a(b"` unchanged and `Replace` only adds the alert, also with answers pending. -/
theorem compile_error_changes_nothing_witness :
    ((0 : Int) ≤ (editorOf ['a', '(', 'b'] 0).searchStart ∧
      (editorOf ['a', '(', 'b'] 0).searchStart ≤
        ((editorOf ['a', '(', 'b'] 0).Buf.String.length : Int) ∧
      exampleCompile "(" = none ∧ exampleCompile ("(?m)" ++ "(") = none) ∧
    Search exampleCompile "(" (editorOf ['a', '(', 'b'] 0) true =
      some (editorOf ['a', '(', 'b'] 0) ∧
    Replace exampleCompile "(" ['x'] [('y', false)] (editorOf ['a', '(', 'b'] 0) =
      Outcome.done
        { editorOf ['a', '(', 'b'] 0 with
          alerts := (editorOf ['a', '(', 'b'] 0).alerts ++ [Alert.compileError] } :=
  ⟨⟨by decide, by decide, rfl, rfl⟩,
   (compile_error_changes_nothing exampleCompile "(" ['x'] [('y', false)]
      (editorOf ['a', '(', 'b'] 0) true (by decide) (by decide)).1 rfl,
   (compile_error_changes_nothing exampleCompile "(" ['x'] [('y', false)]
      (editorOf ['a', '(', 'b'] 0) true (by decide) (by decide)).2 rfl⟩

/-- Claim C10, the code at the failing input: the line consists of one tab (cells 0 to 3
with tab size 4) and the left column 1 falls strictly inside it, yet `Draw` emits none of
the three remaining cells: `visualToCharPos` reports `-1` for the last rune of a line, so
the row keeps its four empty slots; likewise for a line made of one wide glyph. A tab that
is not the last rune is emitted. -/
theorem draw_skips_half_scrolled_last_tab :
    visualToCharPos specRuneWidth 1 0 ['\t'] 4 = some (-1, -1, none) ∧
    Draw specRuneWidth specStringWidth 0 4 (bufferOf ['\t']) 0 1 1 80 =
      some [[none, none, none, none]] ∧
    Draw specRuneWidth specStringWidth 0 4 (bufferOf ['界']) 0 1 1 80 = some [[none, none]] ∧
    Draw specRuneWidth specStringWidth 0 4 (bufferOf ['\t', 'b']) 0 1 1 80 =
      some [[some ⟨⟨0, 0⟩, ⟨0, 0⟩, '\t', ' ', 0, 1⟩,
             some ⟨⟨1, 0⟩, ⟨0, 0⟩, '\t', ' ', 0, 1⟩,
             some ⟨⟨2, 0⟩, ⟨0, 0⟩, '\t', ' ', 0, 1⟩,
             some ⟨⟨3, 0⟩, ⟨1, 0⟩, 'b', 'b', 0, 1⟩,
             none]] := by
  decide

/-! ## Facts about `Draw` for any left column -/

section AnyLeft

variable (RuneWidth : Char → Int) (StringWidth : List Char → Int → Int) (defStyle : Style)
variable (curStyle : Style) (tabsize left lineLength viewLine lineN : Int)

theorem visualToCharPosLoop_total (ht : 0 < tabsize) (v : Int) (str : List Char) :
    ∀ (first : Bool) (charPos lineIdx lastWidth width rw : Int),
    ∃ c0 off, visualToCharPosLoop RuneWidth v tabsize str first charPos lineIdx lastWidth
        width rw = some (c0, off, none) ∧ (c0 = -1 ∨ charPos ≤ c0) := by
  induction str with
  | nil =>
    intro first charPos lineIdx lastWidth width rw
    exact ⟨-1, -1, by simp [visualToCharPosLoop], Or.inl rfl⟩
  | cons c cs ih =>
    intro first charPos lineIdx lastWidth width rw
    rw [visualToCharPosLoop]
    by_cases hw : width ≥ v
    · exact ⟨charPos, v - lastWidth, by simp [hw], Or.inr (le_refl _)⟩
    · simp only [hw, if_false]
      have ht0 : tabsize ≠ 0 := by omega
      by_cases hc : c = '\t'
      · simp only [hc, if_true, ht0, if_false]
        obtain ⟨c0, off, h, hb⟩ := ih false (if first then charPos else charPos + 1)
          (if first then lineIdx else lineIdx + rw) width
          (width + (tabsize - Int.tmod (if first then lineIdx else lineIdx + rw) tabsize))
          (tabsize - Int.tmod (if first then lineIdx else lineIdx + rw) tabsize)
        refine ⟨c0, off, h, ?_⟩
        rcases hb with hb | hb
        · exact Or.inl hb
        · right
          split at hb <;> omega
      · simp only [hc, if_false]
        obtain ⟨c0, off, h, hb⟩ := ih false (if first then charPos else charPos + 1)
          (if first then lineIdx else lineIdx + rw) width (width + RuneWidth c) (RuneWidth c)
        refine ⟨c0, off, h, ?_⟩
        rcases hb with hb | hb
        · exact Or.inl hb
        · right
          split at hb <;> omega

theorem visualToCharPos_total (ht : 0 < tabsize) (v : Int) (str : List Char) :
    ∃ c0 off, visualToCharPos RuneWidth v lineN str tabsize = some (c0, off, none) ∧
      (c0 = -1 ∨ 0 ≤ c0) :=
  visualToCharPosLoop_total RuneWidth tabsize ht v str true 0 0 0 0 0

/-- The row of a line, for any left column: the layout loop started at the logical column
and view column that `visualToCharPos` reports. -/
theorem drawLine_eq (width : Int) (str : List Char) (c0 off : Int)
    (hlen : 0 ≤ min (StringWidth str tabsize) width)
    (hv : visualToCharPos RuneWidth left lineN str tabsize = some (c0, off, none)) :
    drawLine RuneWidth StringWidth defStyle tabsize left width str viewLine lineN =
      drawCells RuneWidth defStyle tabsize left (min (StringWidth str tabsize) width)
        viewLine lineN
        (str.drop (if c0 < 0 then (str.length : Int) else c0).toNat)
        (if c0 < 0 then (str.length : Int) else c0) (-off)
        (List.replicate (min (StringWidth str tabsize) width).toNat none) := by
  have hnot : ¬ min (StringWidth str tabsize) width < 0 := by omega
  simp only [drawLine, hv, hnot, if_false]

theorem fillCells_mem (char : Char) (colN : Int) (n : Nat) (v : Int) (row : Row) (i : Nat)
    (cell : Cell)
    (h : (fillCells char curStyle colN lineN viewLine lineLength n v row).2[i]? =
      some (some cell)) :
    row[i]? = some (some cell) ∨
      cell = ⟨⟨i, viewLine⟩, ⟨colN, lineN⟩, char, ' ', curStyle, 1⟩ := by
  induction n generalizing v row with
  | zero => exact Or.inl (by simpa [fillCells] using h)
  | succ n ih =>
    simp only [fillCells] at h
    rcases ih _ _ h with h1 | h1
    · split at h1
      · rename_i hg
        rw [List.getElem?_set] at h1
        split at h1
        · rename_i hi
          split at h1
          · right
            have hcast : ((v + 1).toNat : Int) = v + 1 := Int.toNat_of_nonneg hg.1
            have hcell : cell = ⟨⟨v + 1, viewLine⟩, ⟨colN, lineN⟩, char, ' ', curStyle, 1⟩ := by
              simpa using h1.symm
            rw [hcell, ← hcast, hi]
          · exact absurd h1 (by simp)
        · exact Or.inl h1
      · exact Or.inl h1
    · exact Or.inr h1

/-- Every cell of a drawn row that was not in the row before sits at its own visual
location and belongs to a rune of the part of the line the loop ran on. -/
theorem drawCells_mem (ht : 0 < tabsize) (rest : List Char) :
    ∀ (colN v : Int) (row row1 : Row),
    drawCells RuneWidth curStyle tabsize left lineLength viewLine lineN rest colN v row
      = some row1 →
    ∀ (i : Nat) (cell : Cell), row1[i]? = some (some cell) →
      row[i]? = some (some cell) ∨
        (cell.visualLoc = ⟨i, viewLine⟩ ∧ cell.realLoc.Y = lineN ∧
          ∃ k : Nat, rest[k]? = some cell.char ∧ cell.realLoc.X = colN + k) := by
  induction rest with
  | nil =>
    intro colN v row row1 h i cell hi
    simp only [drawCells, Option.some.injEq] at h
    subst h
    exact Or.inl hi
  | cons c cs ih =>
    intro colN v row row1 h i cell hi
    by_cases hv : v < lineLength
    · rw [drawCells_cons RuneWidth curStyle tabsize left lineLength viewLine lineN ht c cs
        colN v row hv] at h
      rcases ih _ _ _ _ h i cell hi with h1 | ⟨hvis, hy, k, hk, hx⟩
      · rcases fillCells_mem curStyle lineLength viewLine lineN c colN _ _ _ i cell h1 with
          h2 | h2
        · split at h2
          · rename_i h0
            rw [List.getElem?_set] at h2
            split at h2
            · rename_i hidx
              split at h2
              · right
                have hcast : (v.toNat : Int) = v := Int.toNat_of_nonneg h0
                have hcell : cell =
                    cellAt RuneWidth curStyle tabsize left viewLine lineN c colN v 0 := by
                  simpa using h2.symm
                rw [hcell]
                refine ⟨?_, ?_, 0, ?_, ?_⟩
                · simp only [cellAt, if_true]
                  rw [← hcast, hidx]
                · simp [cellAt]
                · simp [cellAt]
                · simp [cellAt]
              · exact absurd h2 (by simp)
            · exact Or.inl h2
          · exact Or.inl h2
        · right
          rw [h2]
          exact ⟨rfl, rfl, 0, by simp, by simp⟩
      · right
        refine ⟨hvis, hy, k + 1, by simpa using hk, ?_⟩
        rw [hx]
        push_cast
        ring
    · rw [drawCells] at h
      simp only [hv, not_false_eq_true, if_true, Option.some.injEq] at h
      subst h
      exact Or.inl hi

/-- For a positive tab size and a row length that is not negative, one line is always
drawn; the row has `min(StringWidth, width)` slots and each of its cells sits at its own
visual location and carries a rune of the line with its logical location. -/
theorem drawLine_spec (ht : 0 < tabsize) (width : Int) (str : List Char)
    (hlen : 0 ≤ min (StringWidth str tabsize) width) :
    ∃ row, drawLine RuneWidth StringWidth defStyle tabsize left width str viewLine lineN
        = some row ∧
      (row.length : Int) = min (StringWidth str tabsize) width ∧
      ∀ (i : Nat) (cell : Cell), row[i]? = some (some cell) →
        cell.visualLoc = ⟨i, viewLine⟩ ∧ cell.realLoc.Y = lineN ∧
          ∃ j : Nat, str[j]? = some cell.char ∧ cell.realLoc.X = j := by
  obtain ⟨c0, off, hv, hc0⟩ := visualToCharPos_total RuneWidth tabsize lineN ht left str
  rw [drawLine_eq RuneWidth StringWidth defStyle tabsize left viewLine lineN width str c0 off
    hlen hv]
  have hcol : 0 ≤ (if c0 < 0 then (str.length : Int) else c0) := by
    split <;> omega
  obtain ⟨row, hrun, hl, -, -⟩ := drawCells_spec RuneWidth defStyle tabsize left
    (min (StringWidth str tabsize) width) viewLine lineN ht
    (str.drop (if c0 < 0 then (str.length : Int) else c0).toNat)
    (if c0 < 0 then (str.length : Int) else c0) (-off)
    (List.replicate (min (StringWidth str tabsize) width).toNat none)
    (by simp [Int.toNat_of_nonneg hlen])
  refine ⟨row, hrun, ?_, ?_⟩
  · rw [hl, List.length_replicate, Int.toNat_of_nonneg hlen]
  · intro i cell hi
    rcases drawCells_mem RuneWidth defStyle tabsize left (min (StringWidth str tabsize) width)
      viewLine lineN ht _ _ _ _ _ hrun i cell hi with h1 | ⟨hvis, hy, k, hk, hx⟩
    · rw [List.getElem?_replicate] at h1
      split at h1 <;> simp at h1
    · refine ⟨hvis, hy, (if c0 < 0 then (str.length : Int) else c0).toNat + k, ?_, ?_⟩
      · rw [← hk, List.getElem?_drop]
      · rw [hx]
        push_cast
        rw [Int.toNat_of_nonneg hcol]

end AnyLeft

/-! ## Claims about the rows of `Draw` -/

/-- Claim C11. For a positive tab size, `top ≥ 0`, `height ≥ 0`, `width ≥ 0` (and string
widths that are not negative) and any left column, `Draw` returns exactly
`min(height, max(0, lineCount - top))` rows. Row `r` describes buffer line `top + r`: it has
`min(StringWidth(line), width)` slots, so never more than `width` and never more than the
display width of the line, and every cell in it sits at visual location `(its index, r)`
and carries a rune of line `top + r` together with that rune's logical location. -/
theorem draw_row_count_and_lengths (RuneWidth : Char → Int)
    (StringWidth : List Char → Int → Int) (defStyle : Style) (t : Int) (buf : Buffer)
    (top height left width : Int) (ht : 0 < t) (htop : 0 ≤ top) (hheight : 0 ≤ height)
    (hwidth : 0 ≤ width) (hsw : ∀ str, 0 ≤ StringWidth str t) :
    ∃ rows, Draw RuneWidth StringWidth defStyle t buf top height left width = some rows ∧
      (rows.length : Int) = min height (max 0 ((buf.lines.length : Int) - top)) ∧
      (rows.length : Int) ≤ height ∧
      ∀ (r : Nat) (row : Row), rows[r]? = some row →
        ∃ str, buf.lines[top.toNat + r]? = some str ∧
          (row.length : Int) = min (StringWidth str t) width ∧
          (row.length : Int) ≤ width ∧ (row.length : Int) ≤ StringWidth str t ∧
          ∀ (i : Nat) (cell : Cell), row[i]? = some (some cell) →
            cell.visualLoc = ⟨i, r⟩ ∧ cell.realLoc.Y = top + r ∧
              ∃ j : Nat, str[j]? = some cell.char ∧ cell.realLoc.X = j := by
  have hmin : ∀ str, 0 ≤ min (StringWidth str t) width := fun str => le_min (hsw str) hwidth
  have hdl : ∀ (str : List Char) (viewLine lineN : Int), str ∈ buf.lines →
      ∃ row, drawLine RuneWidth StringWidth defStyle t left width str viewLine lineN
        = some row := by
    intro str viewLine lineN _
    obtain ⟨row, h, _⟩ := drawLine_spec RuneWidth StringWidth defStyle t left viewLine lineN ht
      width str (hmin str)
    exact ⟨row, h⟩
  obtain ⟨rows, hrows, hlen, hget⟩ := drawRows_spec RuneWidth StringWidth defStyle t buf left
    width hdl height.toNat 0 top htop
  have hh : (height.toNat : Int) = height := Int.toNat_of_nonneg hheight
  have htp : (top.toNat : Int) = top := Int.toNat_of_nonneg htop
  refine ⟨rows, hrows, ?_, ?_, ?_⟩
  · rw [hlen]
    omega
  · rw [hlen]
    omega
  · intro r row hr
    obtain ⟨str, hstr, hrow⟩ := hget r row hr
    obtain ⟨row1, hrun, hl, hcells⟩ := drawLine_spec RuneWidth StringWidth defStyle t left
      (0 + r) (top + r) ht width str (hmin str)
    rw [hrun] at hrow
    obtain rfl : row1 = row := by simpa using hrow
    refine ⟨str, hstr, hl, ?_, ?_, ?_⟩
    · rw [hl]
      exact min_le_right _ _
    · rw [hl]
      exact min_le_left _ _
    · intro i cell hi
      have := hcells i cell hi
      simpa using this

/-- Claim C11, worked example: a buffer of the two lines `"a\tb"` and `"xy"` drawn from top
line 0 with height 5, left column 1 and width 3 gives two rows, of 3 and of 2 slots. -/
theorem draw_row_count_and_lengths_witness :
    Draw specRuneWidth specStringWidth 0 4 (bufferOf ['a', '\t', 'b', '\n', 'x', 'y']) 0 5 1 3 =
      some [[some ⟨⟨0, 0⟩, ⟨1, 0⟩, '\t', ' ', 0, 3⟩,
             some ⟨⟨1, 0⟩, ⟨1, 0⟩, '\t', ' ', 0, 1⟩,
             some ⟨⟨2, 0⟩, ⟨1, 0⟩, '\t', ' ', 0, 1⟩],
            [some ⟨⟨0, 1⟩, ⟨1, 1⟩, 'y', 'y', 0, 1⟩, none]] ∧
    ((0 : Int) < 4 ∧ (0 : Int) ≤ 0 ∧ (0 : Int) ≤ 5 ∧ (0 : Int) ≤ 3 ∧
      (∀ str, 0 ≤ specStringWidth str 4)) ∧
    ∃ rows, Draw specRuneWidth specStringWidth 0 4
        (bufferOf ['a', '\t', 'b', '\n', 'x', 'y']) 0 5 1 3 = some rows ∧
      (rows.length : Int) =
        min 5 (max 0 (((bufferOf ['a', '\t', 'b', '\n', 'x', 'y']).lines.length : Int) - 0)) ∧
      (rows.length : Int) ≤ 5 ∧
      ∀ (r : Nat) (row : Row), rows[r]? = some row →
        ∃ str, (bufferOf ['a', '\t', 'b', '\n', 'x', 'y']).lines[(0 : Int).toNat + r]? = some str ∧
          (row.length : Int) = min (specStringWidth str 4) 3 ∧
          (row.length : Int) ≤ 3 ∧ (row.length : Int) ≤ specStringWidth str 4 ∧
          ∀ (i : Nat) (cell : Cell), row[i]? = some (some cell) →
            cell.visualLoc = ⟨i, r⟩ ∧ cell.realLoc.Y = 0 + r ∧
              ∃ j : Nat, str[j]? = some cell.char ∧ cell.realLoc.X = j :=
  ⟨by decide,
   ⟨by decide, by decide, by decide, by decide, specStringWidth_nonneg 4 (by decide)⟩,
   draw_row_count_and_lengths specRuneWidth specStringWidth 0 4
     (bufferOf ['a', '\t', 'b', '\n', 'x', 'y']) 0 5 1 3 (by decide) (by decide) (by decide)
     (by decide) (specStringWidth_nonneg 4 (by decide))⟩

/-- Claim C12, refuted as stated: the line `"\t界"` (a tab and a wide glyph) with tab size 4.
The first cell of the tab's run carries a space as `drawChar`, not the source rune (the
tab); the first cell of the wide glyph's run does carry the glyph. -/
theorem draw_tab_first_cell_is_space :
    Draw specRuneWidth specStringWidth 0 4 (bufferOf ['\t', '界']) 0 1 0 80 =
      some [[some ⟨⟨0, 0⟩, ⟨0, 0⟩, '\t', ' ', 0, 4⟩,
             some ⟨⟨1, 0⟩, ⟨0, 0⟩, '\t', ' ', 0, 1⟩,
             some ⟨⟨2, 0⟩, ⟨0, 0⟩, '\t', ' ', 0, 1⟩,
             some ⟨⟨3, 0⟩, ⟨0, 0⟩, '\t', ' ', 0, 1⟩,
             some ⟨⟨4, 0⟩, ⟨1, 0⟩, '界', '界', 0, 2⟩,
             some ⟨⟨5, 0⟩, ⟨1, 0⟩, '界', ' ', 0, 1⟩]] ∧
    (' ' : Char) ≠ '\t' := by
  decide

/-- Claim C12, amended. For a positive tab size and any left column, `Draw` returns its
rows, and in the row of a line the loop starts at the logical column `colN` and view column
`-off` that `visualToCharPos` reports (`colN` being the line length when it reports `-1`).
Every rune `j` from `colN` on whose first view column `s` lies below the row length forms a
run of `charCells` cells from `s` on; each cell of the run inside the row carries the same
`realLoc = (j, line)` and the same source rune. The first cell of the run carries the run's
width and, as `drawChar`, the rune itself unless the rune is a tab, for which it carries
the indent character, a space; every later cell carries a space and width 1. -/
theorem draw_runs_share_rune (RuneWidth : Char → Int) (StringWidth : List Char → Int → Int)
    (defStyle : Style) (t : Int) (buf : Buffer) (top height left width : Int)
    (ht : 0 < t) (htop : 0 ≤ top) (hwidth : 0 ≤ width)
    (hsw : ∀ str, 0 ≤ StringWidth str t) :
    ∃ rows, Draw RuneWidth StringWidth defStyle t buf top height left width = some rows ∧
      ∀ (r : Nat) (row : Row) (str : List Char),
        rows[r]? = some row → buf.lines[top.toNat + r]? = some str →
        ∃ (colN : Nat) (off : Int),
          (∃ c0, visualToCharPos RuneWidth left (top + r) str t = some (c0, off, none) ∧
            (colN : Int) = if c0 < 0 then (str.length : Int) else c0) ∧
          ∀ (k : Nat) (c : Char), str[colN + k]? = some c →
          ∀ d : Nat,
            (d : Int) < charCells RuneWidth t left c
              (viewColOf RuneWidth t left (str.drop colN) (-off) k) →
            viewColOf RuneWidth t left (str.drop colN) (-off) k < row.length →
            0 ≤ viewColOf RuneWidth t left (str.drop colN) (-off) k + d →
            viewColOf RuneWidth t left (str.drop colN) (-off) k + d < row.length →
            row[(viewColOf RuneWidth t left (str.drop colN) (-off) k + d).toNat]? =
              some (some
                { visualLoc := ⟨viewColOf RuneWidth t left (str.drop colN) (-off) k + d, r⟩
                  realLoc := ⟨((colN + k : Nat) : Int), top + r⟩
                  char := c
                  drawChar := if d = 0 ∧ c ≠ '\t' then c else ' '
                  style := defStyle
                  width := if d = 0 then charCells RuneWidth t left c
                      (viewColOf RuneWidth t left (str.drop colN) (-off) k)
                    else 1 }) := by
  have hmin : ∀ str, 0 ≤ min (StringWidth str t) width := fun str => le_min (hsw str) hwidth
  have hdl : ∀ (str : List Char) (viewLine lineN : Int), str ∈ buf.lines →
      ∃ row, drawLine RuneWidth StringWidth defStyle t left width str viewLine lineN
        = some row := by
    intro str viewLine lineN _
    obtain ⟨row, h, _⟩ := drawLine_spec RuneWidth StringWidth defStyle t left viewLine lineN ht
      width str (hmin str)
    exact ⟨row, h⟩
  obtain ⟨rows, hrows, -, hget⟩ := drawRows_spec RuneWidth StringWidth defStyle t buf left
    width hdl height.toNat 0 top htop
  refine ⟨rows, hrows, ?_⟩
  intro r row str hr hstr
  obtain ⟨str1, hstr1, hrow⟩ := hget r row hr
  rw [hstr] at hstr1
  obtain rfl : str = str1 := by simpa using hstr1
  obtain ⟨c0, off, hv, hc0⟩ := visualToCharPos_total RuneWidth t (top + r) ht left str
  have hcol : 0 ≤ (if c0 < 0 then (str.length : Int) else c0) := by
    split <;> omega
  rw [drawLine_eq RuneWidth StringWidth defStyle t left (0 + r) (top + r) width str c0 off
    (hmin str) hv] at hrow
  obtain ⟨row1, hrun, hl, -, hcells⟩ := drawCells_spec RuneWidth defStyle t left
    (min (StringWidth str t) width) (0 + r) (top + r) ht
    (str.drop (if c0 < 0 then (str.length : Int) else c0).toNat)
    (if c0 < 0 then (str.length : Int) else c0) (-off)
    (List.replicate (min (StringWidth str t) width).toNat none)
    (by simp [Int.toNat_of_nonneg (hmin str)])
  rw [hrun] at hrow
  obtain rfl : row1 = row := by simpa using hrow
  have hrowlen : (row1.length : Int) = min (StringWidth str t) width := by
    rw [hl, List.length_replicate, Int.toNat_of_nonneg (hmin str)]
  refine ⟨(if c0 < 0 then (str.length : Int) else c0).toNat, off,
    ⟨c0, hv, Int.toNat_of_nonneg hcol⟩, ?_⟩
  intro k c hk d hd hreach h0 hlt
  have hk1 : (str.drop (if c0 < 0 then (str.length : Int) else c0).toNat)[k]? = some c := by
    rw [List.getElem?_drop]
    exact hk
  have := hcells k c hk1 d hd (by omega) h0 (by omega)
  rw [this]
  simp only [cellAt, zero_add]
  have hcast : (if c0 < 0 then (str.length : Int) else c0) + (k : Int) =
      (((if c0 < 0 then (str.length : Int) else c0).toNat + k : Nat) : Int) := by
    push_cast
    rw [Int.toNat_of_nonneg hcol]
  rw [hcast]
  by_cases hd0 : d = 0
  · subst hd0
    by_cases hc : c = '\t' <;> simp [hc]
  · simp [hd0]

/-- Claim C12, amended, worked example: the line `"a\tb"` with tab size 4 drawn from left
column 2, inside the tab: the row starts with the two later cells of the tab's run, both
fillers with `realLoc.X = 1`, followed by `b`. -/
theorem draw_runs_share_rune_witness :
    Draw specRuneWidth specStringWidth 0 4 (bufferOf ['a', '\t', 'b']) 0 1 2 80 =
      some [[some ⟨⟨0, 0⟩, ⟨1, 0⟩, '\t', ' ', 0, 1⟩,
             some ⟨⟨1, 0⟩, ⟨1, 0⟩, '\t', ' ', 0, 1⟩,
             some ⟨⟨2, 0⟩, ⟨2, 0⟩, 'b', 'b', 0, 1⟩,
             none, none]] ∧
    ((0 : Int) < 4 ∧ (0 : Int) ≤ 0 ∧ (0 : Int) ≤ 80 ∧ (∀ str, 0 ≤ specStringWidth str 4)) ∧
    ∃ rows, Draw specRuneWidth specStringWidth 0 4 (bufferOf ['a', '\t', 'b']) 0 1 2 80
        = some rows ∧
      ∀ (r : Nat) (row : Row) (str : List Char),
        rows[r]? = some row → (bufferOf ['a', '\t', 'b']).lines[(0 : Int).toNat + r]? = some str →
        ∃ (colN : Nat) (off : Int),
          (∃ c0, visualToCharPos specRuneWidth 2 (0 + r) str 4 = some (c0, off, none) ∧
            (colN : Int) = if c0 < 0 then (str.length : Int) else c0) ∧
          ∀ (k : Nat) (c : Char), str[colN + k]? = some c →
          ∀ d : Nat,
            (d : Int) < charCells specRuneWidth 4 2 c
              (viewColOf specRuneWidth 4 2 (str.drop colN) (-off) k) →
            viewColOf specRuneWidth 4 2 (str.drop colN) (-off) k < row.length →
            0 ≤ viewColOf specRuneWidth 4 2 (str.drop colN) (-off) k + d →
            viewColOf specRuneWidth 4 2 (str.drop colN) (-off) k + d < row.length →
            row[(viewColOf specRuneWidth 4 2 (str.drop colN) (-off) k + d).toNat]? =
              some (some
                { visualLoc := ⟨viewColOf specRuneWidth 4 2 (str.drop colN) (-off) k + d, r⟩
                  realLoc := ⟨((colN + k : Nat) : Int), 0 + r⟩
                  char := c
                  drawChar := if d = 0 ∧ c ≠ '\t' then c else ' '
                  style := 0
                  width := if d = 0 then charCells specRuneWidth 4 2 c
                      (viewColOf specRuneWidth 4 2 (str.drop colN) (-off) k)
                    else 1 }) :=
  ⟨by decide,
   ⟨by decide, by decide, by decide, specStringWidth_nonneg 4 (by decide)⟩,
   draw_runs_share_rune specRuneWidth specStringWidth 0 4 (bufferOf ['a', '\t', 'b']) 0 1 2 80
     (by decide) (by decide) (by decide) (specStringWidth_nonneg 4 (by decide))⟩

/-! ## Claims about the cursor and selecting actions (`actions.go`) -/

theorem selectTo_orig (c : Cursor) (loc : Loc) :
    (c.SelectTo loc).OrigSelection = c.OrigSelection := by
  unfold Cursor.SelectTo
  split <;> rfl

theorem selectWith_anchor (m : Motion) (v : View) :
    (v.selectWith m).Buf.Cursor.OrigSelection.1 =
      if v.Buf.Cursor.HasSelection then v.Buf.Cursor.OrigSelection.1
      else v.Buf.Cursor.Loc := by
  unfold View.selectWith
  simp only [selectTo_orig, Buffer.moveCursor]
  by_cases h : v.Buf.Cursor.HasSelection = true <;> simp [h]

theorem selectSideways_anchor (m : Motion) (v : View) (e : Loc) (he : v.Buf.End = some e) :
    ∃ v1, v.selectSideways m = some v1 ∧
      v1.Buf.Cursor.OrigSelection.1 =
        if v.Buf.Cursor.HasSelection then v.Buf.Cursor.OrigSelection.1
        else if v.Buf.Cursor.Loc.GreaterThan (e.Move (-1) v.Buf) then e.Move (-1) v.Buf
        else v.Buf.Cursor.Loc := by
  unfold View.selectSideways
  simp only [he]
  refine ⟨_, rfl, ?_⟩
  simp only [selectTo_orig, Buffer.moveCursor]
  by_cases h : v.Buf.Cursor.HasSelection = true <;> simp [h]

theorem end_of_cursor_update (b : Buffer) (c : Cursor) :
    ({ b with Cursor := c } : Buffer).End = b.End := rfl

theorem deselect_end (v : View) (index : Fin 2) : (v.deselect index).Buf.End = v.Buf.End := by
  unfold View.deselect
  split <;> rfl

theorem deselect_orig (v : View) (index : Fin 2) :
    (v.deselect index).Buf.Cursor.OrigSelection = v.Buf.Cursor.OrigSelection := by
  unfold View.deselect
  split <;> rfl

theorem hasSelection_reset (c : Cursor) : c.ResetSelection.HasSelection = false := by
  simp [Cursor.HasSelection, Cursor.ResetSelection]

theorem deselect_hasSelection (v : View) (index : Fin 2) :
    (v.deselect index).Buf.Cursor.HasSelection = false := by
  unfold View.deselect
  split
  · exact hasSelection_reset _
  · rename_i h
    simpa using h

theorem deselect_zero_of_sel (v : View) (hsel : v.Buf.Cursor.HasSelection = true) :
    v.deselect 0 =
      { v with Buf := { v.Buf with Cursor :=
        ({ v.Buf.Cursor with Loc := v.Buf.Cursor.CurSelection.1 } : Cursor).ResetSelection } } := by
  simp only [View.deselect, hsel, if_true]

/-- Claim C13, the code at the failing input: the document `"ab"` with the cursor at the
document end `(2, 0)` and no selection. `SelectLeft` and `SelectRight` first replace the
location by `End().Move(-1)`, here `(1, 0)`, and store that as the anchor, not the cursor
location: `SelectLeft` then moves the cursor to `(1, 0)` and selects nothing, and
`SelectRight` leaves the cursor at `(2, 0)` and selects the rune to its left. At the same
input `SelectUp`, `SelectToStartOfLine` and `SelectToStart` store the cursor location
`(2, 0)`, and `SelectToStartOfLine` selects both runes. -/
theorem selectLeft_anchor_at_document_end :
    (viewOf ['a', 'b'] ⟨2, 0⟩ (⟨0, 0⟩, ⟨0, 0⟩)).Buf.End = some ⟨2, 0⟩ ∧
    (viewOf ['a', 'b'] ⟨2, 0⟩ (⟨0, 0⟩, ⟨0, 0⟩)).Buf.Cursor.HasSelection = false ∧
    (View.SelectLeft exampleMoves (viewOf ['a', 'b'] ⟨2, 0⟩ (⟨0, 0⟩, ⟨0, 0⟩))).map
        (fun v => v.Buf.Cursor.OrigSelection.1) = some ⟨1, 0⟩ ∧
    (View.SelectRight exampleMoves (viewOf ['a', 'b'] ⟨2, 0⟩ (⟨0, 0⟩, ⟨0, 0⟩))).map
        (fun v => v.Buf.Cursor.OrigSelection.1) = some ⟨1, 0⟩ ∧
    (⟨1, 0⟩ : Loc) ≠ ⟨2, 0⟩ ∧
    (View.SelectLeft exampleMoves (viewOf ['a', 'b'] ⟨2, 0⟩ (⟨0, 0⟩, ⟨0, 0⟩))).map
        (fun v => (v.Buf.Cursor.Loc, v.Buf.Cursor.CurSelection, v.Buf.Cursor.HasSelection)) =
      some (⟨1, 0⟩, (⟨1, 0⟩, ⟨1, 0⟩), false) ∧
    (View.SelectRight exampleMoves (viewOf ['a', 'b'] ⟨2, 0⟩ (⟨0, 0⟩, ⟨0, 0⟩))).map
        (fun v => (v.Buf.Cursor.Loc, v.Buf.Cursor.CurSelection, v.Buf.Cursor.HasSelection)) =
      some (⟨2, 0⟩, (⟨1, 0⟩, ⟨2, 0⟩), true) ∧
    (View.SelectUp exampleMoves
      (viewOf ['a', 'b'] ⟨2, 0⟩ (⟨0, 0⟩, ⟨0, 0⟩))).Buf.Cursor.OrigSelection.1 = ⟨2, 0⟩ ∧
    (View.SelectToStart
      (viewOf ['a', 'b'] ⟨2, 0⟩ (⟨0, 0⟩, ⟨0, 0⟩))).Buf.Cursor.OrigSelection.1 = ⟨2, 0⟩ ∧
    (View.SelectToStartOfLine exampleMoves
      (viewOf ['a', 'b'] ⟨2, 0⟩ (⟨0, 0⟩, ⟨0, 0⟩))).Buf.Cursor.OrigSelection.1 = ⟨2, 0⟩ ∧
    (View.SelectToStartOfLine exampleMoves
      (viewOf ['a', 'b'] ⟨2, 0⟩ (⟨0, 0⟩, ⟨0, 0⟩))).Buf.Cursor.CurSelection =
        (⟨0, 0⟩, ⟨2, 0⟩) := by
  decide

/-- The anchor the eight selecting actions leave, for every view. When no selection is
active, `SelectUp`, `SelectDown`, `SelectToStartOfLine`, `SelectToEndOfLine`,
`SelectToStart` and `SelectToEnd` store the cursor location as it was before the move;
`SelectLeft` and `SelectRight` store it only while it does not lie beyond `End().Move(-1)`,
and store `End().Move(-1)` for a cursor at the document end. When a selection is already
active all eight leave the anchor unchanged. -/
theorem selecting_actions_anchor (mv : CursorMoves) (v : View) (e : Loc)
    (he : v.Buf.End = some e) :
    (View.SelectUp mv v).Buf.Cursor.OrigSelection.1 =
      (if v.Buf.Cursor.HasSelection then v.Buf.Cursor.OrigSelection.1
        else v.Buf.Cursor.Loc) ∧
    (View.SelectDown mv v).Buf.Cursor.OrigSelection.1 =
      (if v.Buf.Cursor.HasSelection then v.Buf.Cursor.OrigSelection.1
        else v.Buf.Cursor.Loc) ∧
    (View.SelectToStartOfLine mv v).Buf.Cursor.OrigSelection.1 =
      (if v.Buf.Cursor.HasSelection then v.Buf.Cursor.OrigSelection.1
        else v.Buf.Cursor.Loc) ∧
    (View.SelectToEndOfLine mv v).Buf.Cursor.OrigSelection.1 =
      (if v.Buf.Cursor.HasSelection then v.Buf.Cursor.OrigSelection.1
        else v.Buf.Cursor.Loc) ∧
    (View.SelectToStart v).Buf.Cursor.OrigSelection.1 =
      (if v.Buf.Cursor.HasSelection then v.Buf.Cursor.OrigSelection.1
        else v.Buf.Cursor.Loc) ∧
    (∃ v1, View.SelectToEnd v = some v1 ∧
      v1.Buf.Cursor.OrigSelection.1 =
        if v.Buf.Cursor.HasSelection then v.Buf.Cursor.OrigSelection.1
        else v.Buf.Cursor.Loc) ∧
    (∃ v1, View.SelectLeft mv v = some v1 ∧
      v1.Buf.Cursor.OrigSelection.1 =
        if v.Buf.Cursor.HasSelection then v.Buf.Cursor.OrigSelection.1
        else if v.Buf.Cursor.Loc.GreaterThan (e.Move (-1) v.Buf) then e.Move (-1) v.Buf
        else v.Buf.Cursor.Loc) ∧
    (∃ v1, View.SelectRight mv v = some v1 ∧
      v1.Buf.Cursor.OrigSelection.1 =
        if v.Buf.Cursor.HasSelection then v.Buf.Cursor.OrigSelection.1
        else if v.Buf.Cursor.Loc.GreaterThan (e.Move (-1) v.Buf) then e.Move (-1) v.Buf
        else v.Buf.Cursor.Loc) := by
  refine ⟨selectWith_anchor _ v, selectWith_anchor _ v, selectWith_anchor _ v,
    selectWith_anchor _ v, ?_, ?_, selectSideways_anchor _ v e he,
    selectSideways_anchor _ v e he⟩
  · unfold View.SelectToStart View.CursorStart
    simp only [selectTo_orig, deselect_orig]
    by_cases h : v.Buf.Cursor.HasSelection = true <;> simp [h]
  · unfold View.SelectToEnd View.CursorEnd
    simp only [deselect_end, end_of_cursor_update, he]
    refine ⟨_, rfl, ?_⟩
    simp only [selectTo_orig, deselect_orig]
    by_cases h : v.Buf.Cursor.HasSelection = true <;> simp [h]

/-- The anchors of the selecting actions on the document `"ab"` with the cursor at `(1, 0)`
and no selection; the document end is `(2, 0)`. -/
theorem selecting_actions_anchor_witness :
    (viewOf ['a', 'b'] ⟨1, 0⟩ (⟨0, 0⟩, ⟨0, 0⟩)).Buf.End = some ⟨2, 0⟩ ∧
    (View.SelectUp exampleMoves (viewOf ['a', 'b'] ⟨1, 0⟩ (⟨0, 0⟩, ⟨0, 0⟩))).Buf.Cursor.OrigSelection.1 =
      (if (viewOf ['a', 'b'] ⟨1, 0⟩ (⟨0, 0⟩, ⟨0, 0⟩)).Buf.Cursor.HasSelection then (viewOf ['a', 'b'] ⟨1, 0⟩ (⟨0, 0⟩, ⟨0, 0⟩)).Buf.Cursor.OrigSelection.1
        else (viewOf ['a', 'b'] ⟨1, 0⟩ (⟨0, 0⟩, ⟨0, 0⟩)).Buf.Cursor.Loc) ∧
    (View.SelectDown exampleMoves (viewOf ['a', 'b'] ⟨1, 0⟩ (⟨0, 0⟩, ⟨0, 0⟩))).Buf.Cursor.OrigSelection.1 =
      (if (viewOf ['a', 'b'] ⟨1, 0⟩ (⟨0, 0⟩, ⟨0, 0⟩)).Buf.Cursor.HasSelection then (viewOf ['a', 'b'] ⟨1, 0⟩ (⟨0, 0⟩, ⟨0, 0⟩)).Buf.Cursor.OrigSelection.1
        else (viewOf ['a', 'b'] ⟨1, 0⟩ (⟨0, 0⟩, ⟨0, 0⟩)).Buf.Cursor.Loc) ∧
    (View.SelectToStartOfLine exampleMoves (viewOf ['a', 'b'] ⟨1, 0⟩ (⟨0, 0⟩, ⟨0, 0⟩))).Buf.Cursor.OrigSelection.1 =
      (if (viewOf ['a', 'b'] ⟨1, 0⟩ (⟨0, 0⟩, ⟨0, 0⟩)).Buf.Cursor.HasSelection then (viewOf ['a', 'b'] ⟨1, 0⟩ (⟨0, 0⟩, ⟨0, 0⟩)).Buf.Cursor.OrigSelection.1
        else (viewOf ['a', 'b'] ⟨1, 0⟩ (⟨0, 0⟩, ⟨0, 0⟩)).Buf.Cursor.Loc) ∧
    (View.SelectToEndOfLine exampleMoves (viewOf ['a', 'b'] ⟨1, 0⟩ (⟨0, 0⟩, ⟨0, 0⟩))).Buf.Cursor.OrigSelection.1 =
      (if (viewOf ['a', 'b'] ⟨1, 0⟩ (⟨0, 0⟩, ⟨0, 0⟩)).Buf.Cursor.HasSelection then (viewOf ['a', 'b'] ⟨1, 0⟩ (⟨0, 0⟩, ⟨0, 0⟩)).Buf.Cursor.OrigSelection.1
        else (viewOf ['a', 'b'] ⟨1, 0⟩ (⟨0, 0⟩, ⟨0, 0⟩)).Buf.Cursor.Loc) ∧
    (View.SelectToStart (viewOf ['a', 'b'] ⟨1, 0⟩ (⟨0, 0⟩, ⟨0, 0⟩))).Buf.Cursor.OrigSelection.1 =
      (if (viewOf ['a', 'b'] ⟨1, 0⟩ (⟨0, 0⟩, ⟨0, 0⟩)).Buf.Cursor.HasSelection then (viewOf ['a', 'b'] ⟨1, 0⟩ (⟨0, 0⟩, ⟨0, 0⟩)).Buf.Cursor.OrigSelection.1
        else (viewOf ['a', 'b'] ⟨1, 0⟩ (⟨0, 0⟩, ⟨0, 0⟩)).Buf.Cursor.Loc) ∧
    (∃ v1, View.SelectToEnd (viewOf ['a', 'b'] ⟨1, 0⟩ (⟨0, 0⟩, ⟨0, 0⟩)) = some v1 ∧
      v1.Buf.Cursor.OrigSelection.1 =
        if (viewOf ['a', 'b'] ⟨1, 0⟩ (⟨0, 0⟩, ⟨0, 0⟩)).Buf.Cursor.HasSelection then (viewOf ['a', 'b'] ⟨1, 0⟩ (⟨0, 0⟩, ⟨0, 0⟩)).Buf.Cursor.OrigSelection.1
        else (viewOf ['a', 'b'] ⟨1, 0⟩ (⟨0, 0⟩, ⟨0, 0⟩)).Buf.Cursor.Loc) ∧
    (∃ v1, View.SelectLeft exampleMoves (viewOf ['a', 'b'] ⟨1, 0⟩ (⟨0, 0⟩, ⟨0, 0⟩)) = some v1 ∧
      v1.Buf.Cursor.OrigSelection.1 =
        if (viewOf ['a', 'b'] ⟨1, 0⟩ (⟨0, 0⟩, ⟨0, 0⟩)).Buf.Cursor.HasSelection then (viewOf ['a', 'b'] ⟨1, 0⟩ (⟨0, 0⟩, ⟨0, 0⟩)).Buf.Cursor.OrigSelection.1
        else if (viewOf ['a', 'b'] ⟨1, 0⟩ (⟨0, 0⟩, ⟨0, 0⟩)).Buf.Cursor.Loc.GreaterThan ((⟨2, 0⟩ : Loc).Move (-1) (viewOf ['a', 'b'] ⟨1, 0⟩ (⟨0, 0⟩, ⟨0, 0⟩)).Buf) then (⟨2, 0⟩ : Loc).Move (-1) (viewOf ['a', 'b'] ⟨1, 0⟩ (⟨0, 0⟩, ⟨0, 0⟩)).Buf
        else (viewOf ['a', 'b'] ⟨1, 0⟩ (⟨0, 0⟩, ⟨0, 0⟩)).Buf.Cursor.Loc) ∧
    (∃ v1, View.SelectRight exampleMoves (viewOf ['a', 'b'] ⟨1, 0⟩ (⟨0, 0⟩, ⟨0, 0⟩)) = some v1 ∧
      v1.Buf.Cursor.OrigSelection.1 =
        if (viewOf ['a', 'b'] ⟨1, 0⟩ (⟨0, 0⟩, ⟨0, 0⟩)).Buf.Cursor.HasSelection then (viewOf ['a', 'b'] ⟨1, 0⟩ (⟨0, 0⟩, ⟨0, 0⟩)).Buf.Cursor.OrigSelection.1
        else if (viewOf ['a', 'b'] ⟨1, 0⟩ (⟨0, 0⟩, ⟨0, 0⟩)).Buf.Cursor.Loc.GreaterThan ((⟨2, 0⟩ : Loc).Move (-1) (viewOf ['a', 'b'] ⟨1, 0⟩ (⟨0, 0⟩, ⟨0, 0⟩)).Buf) then (⟨2, 0⟩ : Loc).Move (-1) (viewOf ['a', 'b'] ⟨1, 0⟩ (⟨0, 0⟩, ⟨0, 0⟩)).Buf
        else (viewOf ['a', 'b'] ⟨1, 0⟩ (⟨0, 0⟩, ⟨0, 0⟩)).Buf.Cursor.Loc) :=
  ⟨by decide, selecting_actions_anchor exampleMoves (viewOf ['a', 'b'] ⟨1, 0⟩ (⟨0, 0⟩, ⟨0, 0⟩)) ⟨2, 0⟩ (by decide)⟩

/-- Claim C14. With an active selection, `CursorLeft` puts the cursor exactly at
`CurSelection[0]` and moves no further; `CursorUp` and `CursorPageUp` put it there and then
apply the move up (`Up`, respectively `UpN(Height)`) from that location; in all three cases
no selection is active afterwards and the text is unchanged. -/
theorem cursor_left_up_collapse_at_lower_end (mv : CursorMoves) (v : View)
    (hsel : v.Buf.Cursor.HasSelection = true) :
    ((View.CursorLeft mv v).Buf.Cursor.Loc = v.Buf.Cursor.CurSelection.1 ∧
      (View.CursorLeft mv v).Buf.Cursor.HasSelection = false ∧
      (View.CursorLeft mv v).Buf.lines = v.Buf.lines) ∧
    ((View.CursorUp mv v).Buf.Cursor.Loc =
        (mv.Up v.Buf.lines v.Buf.Cursor.CurSelection.1 v.Buf.Cursor.LastVisualX).1 ∧
      (View.CursorUp mv v).Buf.Cursor.HasSelection = false ∧
      (View.CursorUp mv v).Buf.lines = v.Buf.lines) ∧
    ((View.CursorPageUp mv v).Buf.Cursor.Loc =
        (mv.UpN v.Height v.Buf.lines v.Buf.Cursor.CurSelection.1 v.Buf.Cursor.LastVisualX).1 ∧
      (View.CursorPageUp mv v).Buf.Cursor.HasSelection = false ∧
      (View.CursorPageUp mv v).Buf.lines = v.Buf.lines) := by
  have hd := deselect_zero_of_sel v hsel
  have hd2 : (v.deselect 0).Buf.Cursor.HasSelection = false := deselect_hasSelection v 0
  have hL : View.CursorLeft mv v = v.deselect 0 := by
    rw [hd]
    simp only [View.CursorLeft, hsel, if_true]
  have hP : View.CursorPageUp mv v =
      { v.deselect 0 with
        Buf := (v.deselect 0).Buf.moveCursor (mv.UpN (v.deselect 0).Height) } := by
    unfold View.CursorPageUp
    simp [hd2]
  rw [hL, hP]
  unfold View.CursorUp
  rw [hd]
  exact ⟨⟨rfl, rfl, rfl⟩, ⟨rfl, rfl, rfl⟩, ⟨rfl, rfl, rfl⟩⟩

/-- Claim C14, worked example: three lines, the selection from `(1, 1)` to `(1, 2)`, the
desired visual column 0: `CursorLeft` ends at `(1, 1)`, `CursorUp` goes up from there to
line 0 and lands on the desired visual column, at `(0, 0)`. -/
theorem cursor_left_up_collapse_at_lower_end_witness :
    (viewOf ['a', 'b', '\n', 'c', 'd', '\n', 'e', 'f'] ⟨1, 2⟩ (⟨1, 1⟩, ⟨1, 2⟩)).Buf.Cursor.HasSelection = true ∧
    (View.CursorLeft exampleMoves (viewOf ['a', 'b', '\n', 'c', 'd', '\n', 'e', 'f'] ⟨1, 2⟩ (⟨1, 1⟩, ⟨1, 2⟩))).Buf.Cursor.Loc = ⟨1, 1⟩ ∧
    (View.CursorUp exampleMoves (viewOf ['a', 'b', '\n', 'c', 'd', '\n', 'e', 'f'] ⟨1, 2⟩ (⟨1, 1⟩, ⟨1, 2⟩))).Buf.Cursor.Loc = ⟨0, 0⟩ ∧
    (View.CursorPageUp exampleMoves (viewOf ['a', 'b', '\n', 'c', 'd', '\n', 'e', 'f'] ⟨1, 2⟩ (⟨1, 1⟩, ⟨1, 2⟩))).Buf.Cursor.HasSelection = false :=
  ⟨by decide,
   (cursor_left_up_collapse_at_lower_end exampleMoves (viewOf ['a', 'b', '\n', 'c', 'd', '\n', 'e', 'f'] ⟨1, 2⟩ (⟨1, 1⟩, ⟨1, 2⟩)) (by decide)).1.1.trans (by decide),
   (cursor_left_up_collapse_at_lower_end exampleMoves (viewOf ['a', 'b', '\n', 'c', 'd', '\n', 'e', 'f'] ⟨1, 2⟩ (⟨1, 1⟩, ⟨1, 2⟩)) (by decide)).2.1.1.trans (by decide),
   (cursor_left_up_collapse_at_lower_end exampleMoves (viewOf ['a', 'b', '\n', 'c', 'd', '\n', 'e', 'f'] ⟨1, 2⟩ (⟨1, 1⟩, ⟨1, 2⟩)) (by decide)).2.2.2.1⟩

/-- Claim C15, the code at the failing input: in `"abc"` with the runes 0 to 2 selected and
the cursor at the upper end `(2, 0)`, `CursorRight` steps back by `Move(-1)` and puts the
cursor at `(1, 0)`, to the left of where it was, not at the upper end `CurSelection[1]`.
At the same input `deselect(1)`, the first step of `CursorDown`, puts it at `(2, 0)`, and
`CursorLeft` puts it exactly at the lower end `(0, 0)`. -/
theorem cursorRight_stops_before_upper_end :
    (viewOf ['a', 'b', 'c'] ⟨2, 0⟩ (⟨0, 0⟩, ⟨2, 0⟩)).Buf.Cursor.HasSelection = true ∧
    (View.CursorRight exampleMoves
      (viewOf ['a', 'b', 'c'] ⟨2, 0⟩ (⟨0, 0⟩, ⟨2, 0⟩))).Buf.Cursor.Loc = ⟨1, 0⟩ ∧
    (viewOf ['a', 'b', 'c'] ⟨2, 0⟩ (⟨0, 0⟩, ⟨2, 0⟩)).Buf.Cursor.CurSelection.2 = ⟨2, 0⟩ ∧
    (⟨1, 0⟩ : Loc) ≠ ⟨2, 0⟩ ∧
    (View.CursorRight exampleMoves
      (viewOf ['a', 'b', 'c'] ⟨2, 0⟩ (⟨0, 0⟩, ⟨2, 0⟩))).Buf.Cursor.HasSelection = false ∧
    (View.deselect (viewOf ['a', 'b', 'c'] ⟨2, 0⟩ (⟨0, 0⟩, ⟨2, 0⟩)) 1).Buf.Cursor.Loc =
      ⟨2, 0⟩ ∧
    (View.CursorLeft exampleMoves
      (viewOf ['a', 'b', 'c'] ⟨2, 0⟩ (⟨0, 0⟩, ⟨2, 0⟩))).Buf.Cursor.Loc = ⟨0, 0⟩ := by
  decide

/-- What `CursorRight` computes with an active selection, for every view: the cursor goes
to `CurSelection[1].Move(-1)`, one rune before the upper end of the selection, the
selection is cleared and the text is unchanged. -/
theorem cursorRight_collapses_before_upper_end (mv : CursorMoves) (v : View)
    (hsel : v.Buf.Cursor.HasSelection = true) :
    (View.CursorRight mv v).Buf.Cursor.Loc = v.Buf.Cursor.CurSelection.2.Move (-1) v.Buf ∧
    (View.CursorRight mv v).Buf.Cursor.HasSelection = false ∧
    (View.CursorRight mv v).Buf.lines = v.Buf.lines := by
  have hR : View.CursorRight mv v =
      { v with Buf := { v.Buf with Cursor :=
        ({ v.Buf.Cursor with Loc := v.Buf.Cursor.CurSelection.2.Move (-1) v.Buf } :
          Cursor).ResetSelection } } := by
    simp only [View.CursorRight, hsel, if_true]
  rw [hR]
  exact ⟨rfl, rfl, rfl⟩

/-- The step of `CursorRight` on `"abc"` with runes 0 to 2 selected. -/
theorem cursorRight_collapses_before_upper_end_witness :
    (viewOf ['a', 'b', 'c'] ⟨2, 0⟩ (⟨0, 0⟩, ⟨2, 0⟩)).Buf.Cursor.HasSelection = true ∧
    (View.CursorRight exampleMoves
      (viewOf ['a', 'b', 'c'] ⟨2, 0⟩ (⟨0, 0⟩, ⟨2, 0⟩))).Buf.Cursor.Loc =
      (viewOf ['a', 'b', 'c'] ⟨2, 0⟩ (⟨0, 0⟩, ⟨2, 0⟩)).Buf.Cursor.CurSelection.2.Move (-1)
        (viewOf ['a', 'b', 'c'] ⟨2, 0⟩ (⟨0, 0⟩, ⟨2, 0⟩)).Buf ∧
    (View.CursorRight exampleMoves
      (viewOf ['a', 'b', 'c'] ⟨2, 0⟩ (⟨0, 0⟩, ⟨2, 0⟩))).Buf.Cursor.HasSelection = false ∧
    (View.CursorRight exampleMoves
      (viewOf ['a', 'b', 'c'] ⟨2, 0⟩ (⟨0, 0⟩, ⟨2, 0⟩))).Buf.lines =
      (viewOf ['a', 'b', 'c'] ⟨2, 0⟩ (⟨0, 0⟩, ⟨2, 0⟩)).Buf.lines :=
  ⟨by decide,
   cursorRight_collapses_before_upper_end exampleMoves
     (viewOf ['a', 'b', 'c'] ⟨2, 0⟩ (⟨0, 0⟩, ⟨2, 0⟩)) (by decide)⟩

/-- Claim C16, the code at the failing input: five lines, the selection from `(0, 0)` to
`(0, 2)`, a page of one line. `CursorPageDown` calls `deselect(0)` first, so the block that
would collapse to `CurSelection[1]` never runs (for every view the action equals
`deselect(0)` followed by `DownN(Height)`): the cursor ends at `(0, 1)`, one page below
the lower end, whereas `CursorDown` ends at `(0, 3)`, one line below the upper end. -/
theorem cursorPageDown_collapses_at_lower_end :
    (∀ (mv : CursorMoves) (v : View),
      View.CursorPageDown mv v =
        { v.deselect 0 with
          Buf := (v.deselect 0).Buf.moveCursor (mv.DownN (v.deselect 0).Height) }) ∧
    (View.CursorPageDown exampleMoves ({ viewOf ['a', '\n', 'b', '\n', 'c', '\n', 'd', '\n', 'e'] ⟨0, 2⟩ (⟨0, 0⟩, ⟨0, 2⟩) with Height := 1 } : View)).Buf.Cursor.Loc = ⟨0, 1⟩ ∧
    (View.CursorDown exampleMoves ({ viewOf ['a', '\n', 'b', '\n', 'c', '\n', 'd', '\n', 'e'] ⟨0, 2⟩ (⟨0, 0⟩, ⟨0, 2⟩) with Height := 1 } : View)).Buf.Cursor.Loc = ⟨0, 3⟩ := by
  refine ⟨?_, by decide, by decide⟩
  intro mv v
  unfold View.CursorPageDown
  simp [deselect_hasSelection]

/-! ## Claims about the replace session (`search.go`, `messenger.go`) -/

/-- Claim C17, the code at the failing input. In `"ab ab"` with the cursor at `(3, 0)`,
nothing selected and `searchStart` still 0, `View.Replace` for `ab` first presents runes 0
to 2, a match before the cursor, although the match at runes 3 to 5 follows it: neither
`View.Replace` nor `Replace` sets `searchStart`. With `searchStart` left at 5 by an earlier
search and the document since cut down to `"ab"`, the first search slices beyond the text
and panics. -/
theorem replace_starts_from_stale_searchStart :
    View.Replace exampleCompile ("ab", false) (['x'], false) []
        { editorOf ['a', 'b', ' ', 'a', 'b'] 0 with
          Buf := { bufferOf ['a', 'b', ' ', 'a', 'b'] with
            Cursor := { Loc := ⟨3, 0⟩, CurSelection := (⟨0, 0⟩, ⟨0, 0⟩),
                        OrigSelection := (⟨0, 0⟩, ⟨0, 0⟩), LastVisualX := 0 } } } =
      Outcome.waiting
        { editorOf ['a', 'b', ' ', 'a', 'b'] 0 with
          Buf := { bufferOf ['a', 'b', ' ', 'a', 'b'] with
            Cursor := { Loc := ⟨2, 0⟩, CurSelection := (⟨0, 0⟩, ⟨2, 0⟩),
                        OrigSelection := (⟨0, 0⟩, ⟨0, 0⟩), LastVisualX := 0 } }
          lastSearch := "ab" } ∧
    View.Replace exampleCompile ("ab", false) (['x'], false) [] (editorOf ['a', 'b'] 5) =
      Outcome.panicked := by
  decide

/-- Claim C18, the code at the failing input: the document `"aXa"` holds one match of `X`.
However many times the user answers `no`, the session does not end: after the first `no`
`searchStart` is 2, the next search finds nothing from there, wraps and presents the match
at runes 1 to 2 again, and the state shown at the prompt is the same each time. -/
theorem replace_no_answers_never_end (n : Nat) :
    Replace exampleCompile "X" ['Y'] (List.replicate (n + 1) ('n', false))
        (editorOf ['a', 'X', 'a'] 0) =
      Outcome.waiting
        { editorOf ['a', 'X', 'a'] 2 with
          Buf := { bufferOf ['a', 'X', 'a'] with
            Cursor := { Loc := ⟨2, 0⟩, CurSelection := (⟨1, 0⟩, ⟨2, 0⟩),
                        OrigSelection := (⟨0, 0⟩, ⟨0, 0⟩), LastVisualX := 0 } }
          lastSearch := "X" } := by
  have hC : exampleCompile ("(?m)" ++ "X") =
      some (fun s => literalMatches ['X'] s 0 0) := rfl
  have h0 : Search exampleCompile "X" (editorOf ['a', 'X', 'a'] 0) true =
      some { editorOf ['a', 'X', 'a'] 0 with
          Buf := { bufferOf ['a', 'X', 'a'] with
            Cursor := { Loc := ⟨2, 0⟩, CurSelection := (⟨1, 0⟩, ⟨2, 0⟩),
                        OrigSelection := (⟨0, 0⟩, ⟨0, 0⟩), LastVisualX := 0 } }
          lastSearch := "X" } := by decide
  have h1 : Search exampleCompile "X"
      { editorOf ['a', 'X', 'a'] 2 with
          Buf := { bufferOf ['a', 'X', 'a'] with
            Cursor := { Loc := ⟨2, 0⟩, CurSelection := (⟨1, 0⟩, ⟨2, 0⟩),
                        OrigSelection := (⟨0, 0⟩, ⟨0, 0⟩), LastVisualX := 0 } }
          lastSearch := "X" } true =
      some { editorOf ['a', 'X', 'a'] 2 with
          Buf := { bufferOf ['a', 'X', 'a'] with
            Cursor := { Loc := ⟨2, 0⟩, CurSelection := (⟨1, 0⟩, ⟨2, 0⟩),
                        OrigSelection := (⟨0, 0⟩, ⟨0, 0⟩), LastVisualX := 0 } }
          lastSearch := "X" } := by decide
  have hloop : ∀ m : Nat,
      replaceLoop exampleCompile (fun s => literalMatches ['X'] s 0 0) "X" ['Y']
        (List.replicate m ('n', false)) 0
        { editorOf ['a', 'X', 'a'] 2 with
          Buf := { bufferOf ['a', 'X', 'a'] with
            Cursor := { Loc := ⟨2, 0⟩, CurSelection := (⟨1, 0⟩, ⟨2, 0⟩),
                        OrigSelection := (⟨0, 0⟩, ⟨0, 0⟩), LastVisualX := 0 } }
          lastSearch := "X" } =
      Outcome.waiting
        { editorOf ['a', 'X', 'a'] 2 with
          Buf := { bufferOf ['a', 'X', 'a'] with
            Cursor := { Loc := ⟨2, 0⟩, CurSelection := (⟨1, 0⟩, ⟨2, 0⟩),
                        OrigSelection := (⟨0, 0⟩, ⟨0, 0⟩), LastVisualX := 0 } }
          lastSearch := "X" } := by
    intro m
    induction m with
    | zero =>
      rw [List.replicate_zero]
      unfold replaceLoop
      rw [h1]
      rfl
    | succ m ih =>
      rw [List.replicate_succ]
      unfold replaceLoop
      rw [h1]
      exact ih
  unfold Replace
  rw [hC]
  rw [List.replicate_succ]
  unfold replaceLoop
  rw [h0]
  exact hloop n

/-- Claim C19, the code at the failing input: at the prompt the key `x` (any rune other
than `y`, `Y`, `n`, `N`) is not ignored but answered as `'a'`, replace all; so is the digit
`1`. The keys `y`, `N` and Escape answer as claimed, and Enter is ignored. -/
theorem yesNoAllPrompt_any_rune_is_all :
    (Messenger.YesNoAllPrompt idleMessenger "perform replacement? (y, n, a, esc) "
        [Event.EventKey Key.KeyRune 'x' 0]).map (fun r => r.1) = some ('a', false) ∧
    (Messenger.YesNoAllPrompt idleMessenger "perform replacement? (y, n, a, esc) "
        [Event.EventKey Key.KeyRune '1' 0]).map (fun r => r.1) = some ('a', false) ∧
    (Messenger.YesNoAllPrompt idleMessenger "perform replacement? (y, n, a, esc) "
        [Event.EventKey Key.KeyRune 'y' 0]).map (fun r => r.1) = some ('y', false) ∧
    (Messenger.YesNoAllPrompt idleMessenger "perform replacement? (y, n, a, esc) "
        [Event.EventKey Key.KeyRune 'N' 0]).map (fun r => r.1) = some ('n', false) ∧
    (Messenger.YesNoAllPrompt idleMessenger "perform replacement? (y, n, a, esc) "
        [Event.EventKey Key.KeyEscape ' ' 0]).map (fun r => r.1) = some (' ', true) ∧
    (Messenger.YesNoAllPrompt idleMessenger "perform replacement? (y, n, a, esc) "
        [Event.EventKey Key.KeyEnter ' ' 0, Event.EventKey Key.KeyRune 'a' 0]).map
          (fun r => r.1) = some ('a', false) := by
  decide

theorem getLast?_set_last (l : List String) (x : String) (h : l ≠ []) :
    (l.set (l.length - 1) x).getLast? = some x := by
  have hlen : 0 < l.length := List.length_pos.mpr h
  rw [List.getLast?_eq_getElem?, List.length_set, List.getElem?_set_self (by omega)]

/-- Claim C20. Both ways of ending an interactive search return to Idle, `searching` false
and no prompt. `EndSearch` (the history holding at least the entry `BeginSearch` appended)
stores the current query as the last entry of the search history, keeps the other entries
and leaves `lastSearch`, the selection, the cursor and the document as they were.
`ExitSearch` sets `lastSearch` to the empty string and clears the selection, leaving the
cursor location, the document and the search history as they were. -/
theorem search_session_ends_idle (u : SearchSession) (hhist : u.searchHistory ≠ []) :
    (∃ u1, EndSearch u = some u1 ∧
      u1.searching = false ∧ u1.messenger.hasPrompt = false ∧
      u1.searchHistory.getLast? = some u.messenger.response ∧
      u1.searchHistory.length = u.searchHistory.length ∧
      (∀ i : Nat, i + 1 < u.searchHistory.length →
        u1.searchHistory[i]? = u.searchHistory[i]?) ∧
      u1.ed = u.ed) ∧
    ((ExitSearch u).searching = false ∧ (ExitSearch u).messenger.hasPrompt = false ∧
      (ExitSearch u).ed.lastSearch = "" ∧
      (ExitSearch u).ed.Buf.Cursor.HasSelection = false ∧
      (ExitSearch u).ed.Buf.Cursor.Loc = u.ed.Buf.Cursor.Loc ∧
      (ExitSearch u).ed.Buf.lines = u.ed.Buf.lines ∧
      (ExitSearch u).searchHistory = u.searchHistory) := by
  constructor
  · refine ⟨{ u with
        searchHistory := u.searchHistory.set (u.searchHistory.length - 1) u.messenger.response
        searching := false
        messenger := ({ u.messenger with hasPrompt := false } : Messenger).Reset },
      by simp only [EndSearch, hhist, if_false], rfl, rfl, ?_, ?_, ?_, rfl⟩
    · exact getLast?_set_last _ _ hhist
    · exact List.length_set _ _ _
    · intro i hi
      exact List.getElem?_set_ne (by omega)
  · exact ⟨rfl, rfl, rfl, hasSelection_reset _, rfl, rfl, rfl⟩

/-- Claim C20, worked example: a search begun with the query `foo` on `"foo bar"` with
runes 0 to 3 selected and `lastSearch` equal to `foo`. -/
theorem search_session_ends_idle_witness :
    (BeginSearch "foo"
      { ed := { editorOf ['f', 'o', 'o', ' ', 'b', 'a', 'r'] 0 with
                Buf := { bufferOf ['f', 'o', 'o', ' ', 'b', 'a', 'r'] with
                  Cursor := { Loc := ⟨3, 0⟩, CurSelection := (⟨0, 0⟩, ⟨3, 0⟩),
                              OrigSelection := (⟨0, 0⟩, ⟨0, 0⟩), LastVisualX := 0 } }
                lastSearch := "foo" }
        searching := false, searchHistory := ["old"], messenger := idleMessenger
      }).searchHistory ≠ [] ∧
    (EndSearch (BeginSearch "foo"
      { ed := { editorOf ['f', 'o', 'o', ' ', 'b', 'a', 'r'] 0 with
                Buf := { bufferOf ['f', 'o', 'o', ' ', 'b', 'a', 'r'] with
                  Cursor := { Loc := ⟨3, 0⟩, CurSelection := (⟨0, 0⟩, ⟨3, 0⟩),
                              OrigSelection := (⟨0, 0⟩, ⟨0, 0⟩), LastVisualX := 0 } }
                lastSearch := "foo" }
        searching := false, searchHistory := ["old"], messenger := idleMessenger
      })).map (fun u => (u.searching, u.searchHistory, u.ed.lastSearch,
        u.ed.Buf.Cursor.CurSelection)) =
      some (false, ["old", "foo"], "foo", (⟨0, 0⟩, ⟨3, 0⟩)) ∧
    (ExitSearch (BeginSearch "foo"
      { ed := { editorOf ['f', 'o', 'o', ' ', 'b', 'a', 'r'] 0 with
                Buf := { bufferOf ['f', 'o', 'o', ' ', 'b', 'a', 'r'] with
                  Cursor := { Loc := ⟨3, 0⟩, CurSelection := (⟨0, 0⟩, ⟨3, 0⟩),
                              OrigSelection := (⟨0, 0⟩, ⟨0, 0⟩), LastVisualX := 0 } }
                lastSearch := "foo" }
        searching := false, searchHistory := ["old"], messenger := idleMessenger
      })).ed.lastSearch = "" :=
  ⟨by decide, by decide,
   (search_session_ends_idle (BeginSearch "foo"
      { ed := { editorOf ['f', 'o', 'o', ' ', 'b', 'a', 'r'] 0 with
                Buf := { bufferOf ['f', 'o', 'o', ' ', 'b', 'a', 'r'] with
                  Cursor := { Loc := ⟨3, 0⟩, CurSelection := (⟨0, 0⟩, ⟨3, 0⟩),
                              OrigSelection := (⟨0, 0⟩, ⟨0, 0⟩), LastVisualX := 0 } }
                lastSearch := "foo" }
        searching := false, searchHistory := ["old"], messenger := idleMessenger
      }) (by decide)).2.2.2.1⟩


/-! ## Claims about searching again, lines, saving, scrolling and jumping -/

/-- Claim C21: when `lastSearch` is the empty string, `FindNext` and `FindPrevious` both
return normally and change nothing but the search anchor `searchStart`: the buffer, with
the document, the cursor location and the selection, and `lastSearch` stay as they were. -/
theorem find_without_prior_search_is_noop (Compile : String → Option Matcher) (s : Editor)
    (h : s.lastSearch = "") :
    (∃ s1, FindNext Compile s = some s1 ∧ s1.Buf = s.Buf ∧ s1.lastSearch = "" ∧
      s1.Buf.lines = s.Buf.lines ∧ s1.Buf.Cursor.Loc = s.Buf.Cursor.Loc ∧
      s1.Buf.Cursor.CurSelection = s.Buf.Cursor.CurSelection) ∧
    (∃ s1, FindPrevious Compile s = some s1 ∧ s1.Buf = s.Buf ∧ s1.lastSearch = "" ∧
      s1.Buf.lines = s.Buf.lines ∧ s1.Buf.Cursor.Loc = s.Buf.Cursor.Loc ∧
      s1.Buf.Cursor.CurSelection = s.Buf.Cursor.CurSelection) := by
  obtain ⟨buf, ls, ss, al⟩ := s
  simp only at h
  subst h
  constructor
  · by_cases hs : buf.Cursor.HasSelection = true
    · exact ⟨⟨buf, "", ToCharPos buf.Cursor.CurSelection.2 buf, al⟩,
        by simp [FindNext, hs], rfl, rfl, rfl, rfl, rfl⟩
    · exact ⟨⟨buf, "", ToCharPos buf.Cursor.Loc buf, al⟩,
        by simp [FindNext, hs], rfl, rfl, rfl, rfl, rfl⟩
  · by_cases hs : buf.Cursor.HasSelection = true
    · exact ⟨⟨buf, "", ToCharPos buf.Cursor.CurSelection.1 buf, al⟩,
        by simp [FindPrevious, hs, Search], rfl, rfl, rfl, rfl, rfl⟩
    · exact ⟨⟨buf, "", ToCharPos buf.Cursor.Loc buf, al⟩,
        by simp [FindPrevious, hs, Search], rfl, rfl, rfl, rfl, rfl⟩

/-- Claim C21, worked example: on `"ab ab"` with the runes 0 to 2 selected and no prior
search, `FindNext` and `FindPrevious` keep the selection and the cursor. -/
theorem find_without_prior_search_is_noop_witness :
    ({ editorOf ['a', 'b', ' ', 'a', 'b'] 0 with
        Buf := { bufferOf ['a', 'b', ' ', 'a', 'b'] with
          Cursor := { Loc := ⟨2, 0⟩, CurSelection := (⟨0, 0⟩, ⟨2, 0⟩),
                      OrigSelection := (⟨0, 0⟩, ⟨0, 0⟩), LastVisualX := 0 } } } :
      Editor).lastSearch = "" ∧
    (FindNext exampleCompile
      { editorOf ['a', 'b', ' ', 'a', 'b'] 0 with
        Buf := { bufferOf ['a', 'b', ' ', 'a', 'b'] with
          Cursor := { Loc := ⟨2, 0⟩, CurSelection := (⟨0, 0⟩, ⟨2, 0⟩),
                      OrigSelection := (⟨0, 0⟩, ⟨0, 0⟩), LastVisualX := 0 } } }).map
      (fun s => (s.Buf.Cursor.Loc, s.Buf.Cursor.CurSelection, s.searchStart)) =
      some (⟨2, 0⟩, (⟨0, 0⟩, ⟨2, 0⟩), 2) ∧
    ∃ s1, FindPrevious exampleCompile
      { editorOf ['a', 'b', ' ', 'a', 'b'] 0 with
        Buf := { bufferOf ['a', 'b', ' ', 'a', 'b'] with
          Cursor := { Loc := ⟨2, 0⟩, CurSelection := (⟨0, 0⟩, ⟨2, 0⟩),
                      OrigSelection := (⟨0, 0⟩, ⟨0, 0⟩), LastVisualX := 0 } } } = some s1 ∧
      s1.Buf = { bufferOf ['a', 'b', ' ', 'a', 'b'] with
          Cursor := { Loc := ⟨2, 0⟩, CurSelection := (⟨0, 0⟩, ⟨2, 0⟩),
                      OrigSelection := (⟨0, 0⟩, ⟨0, 0⟩), LastVisualX := 0 } } :=
  ⟨rfl, by decide,
    let ⟨s1, h1, h2, _⟩ := (find_without_prior_search_is_noop exampleCompile
      { editorOf ['a', 'b', ' ', 'a', 'b'] 0 with
        Buf := { bufferOf ['a', 'b', ' ', 'a', 'b'] with
          Cursor := { Loc := ⟨2, 0⟩, CurSelection := (⟨0, 0⟩, ⟨2, 0⟩),
                      OrigSelection := (⟨0, 0⟩, ⟨0, 0⟩), LastVisualX := 0 } } } rfl).2
    ⟨s1, h1, h2⟩⟩

/-- Claim C22: `Buffer.Line` fails on every negative index, here `-(k + 1)`: the source
guards only the indices at or beyond the line count, for which it returns the empty string,
and indexes `b.lines` with anything smaller. For an index inside the range it returns the
text of that line. -/
theorem line_panics_on_negative_index (b : Buffer) (k : Nat) :
    Buffer.Line b (-((k : Int) + 1)) = none ∧
    Buffer.Line b ((b.lines.length : Int) + k) = some [] ∧
    (∀ i : Fin b.lines.length, Buffer.Line b (i.val : Int) = some (b.lines.get i)) ∧
    Buffer.Line (bufferOf ['a', '\n', 'b']) (-1) = none := by
  refine ⟨?_, ?_, ?_, by decide⟩
  · have h1 : ¬ (-((k : Int) + 1) ≥ (b.lines.length : Int)) := by omega
    have h2 : -((k : Int) + 1) < 0 := by omega
    simp only [Buffer.Line, h1, h2, if_false, if_true]
  · have h1 : (b.lines.length : Int) + k ≥ (b.lines.length : Int) := by omega
    simp only [Buffer.Line, h1, if_true]
  · intro i
    have h1 : ¬ ((i.val : Int) ≥ (b.lines.length : Int)) := by
      have := i.isLt
      omega
    have h2 : ¬ ((i.val : Int) < 0) := by omega
    simp only [Buffer.Line, h1, h2, if_false, Int.toNat_ofNat]
    exact List.getElem?_eq_getElem i.isLt

/-- Claim C23: `CanClose` reports that the view can be closed whenever the prompt is not
canceled, whatever the choice and whatever became of the save, so `Quit` exits. With a
modified buffer, the answer yes and a save that fails, the process exits with the buffer
still modified and nothing written. -/
theorem canClose_ignores_failed_save :
    (∀ (env : SaveEnv) (choice : Bool) (fv : FileView),
      (fv.CanClose env (choice, false)).2 = true ∧ (fv.Quit env (choice, false)).2 = true) ∧
    (fileViewOf ['a', 'b', 'c'] "/etc/passwd" true).view.Buf.IsModified = true ∧
    (fileViewOf ['a', 'b', 'c'] "/etc/passwd" true).CanClose failingEnv (true, false) =
      (fileViewOf ['a', 'b', 'c'] "/etc/passwd" true, true) ∧
    (fileViewOf ['a', 'b', 'c'] "/etc/passwd" true).Quit failingEnv (true, false) =
      (fileViewOf ['a', 'b', 'c'] "/etc/passwd" true, true) ∧
    (fileViewOf ['a', 'b', 'c'] "" true).Quit failingEnv (true, false) =
      (fileViewOf ['a', 'b', 'c'] "" true, true) := by
  refine ⟨?_, by decide, by decide, by decide, by decide⟩
  intro env choice fv
  have h : (fv.CanClose env (choice, false)).2 = true := by
    unfold FileView.CanClose
    by_cases hm : fv.view.Buf.IsModified = true
    · cases choice <;> simp [hm]
    · simp [hm]
  exact ⟨h, by simp only [FileView.Quit, h, if_true]⟩

/-- Claim C24: for a height of at least 1 and a cursor line `Y` inside the buffer, which
then has at least one line, `Center` leaves a top line with `0 ≤ Topline ≤ Y < Topline + Height`, and with
`Topline + Height ≤ NumLines` when the buffer has at least `Height` lines; nothing but the
top line changes. -/
theorem center_keeps_cursor_line_visible (v : View) (hH : 1 ≤ v.Height)
    (hY0 : 0 ≤ v.Buf.Cursor.Loc.Y)
    (hY1 : v.Buf.Cursor.Loc.Y < v.Buf.NumLines) :
    0 ≤ v.Center.Topline ∧ v.Center.Topline ≤ v.Buf.Cursor.Loc.Y ∧
    v.Buf.Cursor.Loc.Y < v.Center.Topline + v.Height ∧
    (v.Height ≤ v.Buf.NumLines → v.Center.Topline + v.Height ≤ v.Buf.NumLines) ∧
    v.Center = { v with Topline := v.Center.Topline } := by
  have hd : Int.tdiv v.Height 2 = v.Height / 2 := by
    rw [Int.tdiv_eq_ediv] <;> omega
  refine ⟨?_, ?_, ?_, ?_, rfl⟩
  · simp only [View.Center, hd]
    split_ifs <;> omega
  · simp only [View.Center, hd]
    split_ifs <;> omega
  · simp only [View.Center, hd]
    split_ifs <;> omega
  · intro h
    simp only [View.Center, hd]
    split_ifs <;> omega

/-- Claim C24, worked example: 80 by 24 cells on a text of 3 lines with the cursor on the
last line; the top line stays 0. -/
theorem center_keeps_cursor_line_visible_witness :
    (viewOf ['a', '\n', 'b', '\n', 'c'] ⟨0, 2⟩ (⟨0, 0⟩, ⟨0, 0⟩)).Center.Topline = 0 ∧
    0 ≤ (viewOf ['a', '\n', 'b', '\n', 'c'] ⟨0, 2⟩ (⟨0, 0⟩, ⟨0, 0⟩)).Center.Topline :=
  ⟨by decide,
    (center_keeps_cursor_line_visible (viewOf ['a', '\n', 'b', '\n', 'c'] ⟨0, 2⟩
      (⟨0, 0⟩, ⟨0, 0⟩)) (by decide) (by decide) (by decide)).1⟩

/-- Claim C26: `ScrollDown` moves the top line past the last line. From the last line
`NumLines - 1` and `n = 1` the first test `Topline + n ≤ NumLines` holds and the top line
becomes `NumLines`, although no further line exists; the second branch tests
`Topline < NumLines - 1`. `ScrollUp` from a top line `t ≥ 0` by `n ≥ 0` lines ends between
0 and `t`. -/
theorem scrollDown_passes_last_line :
    (∀ v : View, (View.ScrollDown { v with Topline := v.Buf.NumLines - 1 } 1).Topline =
      v.Buf.NumLines) ∧
    (viewOf ['a', '\n', 'b', '\n', 'c'] ⟨0, 0⟩ (⟨0, 0⟩, ⟨0, 0⟩)).Buf.NumLines = 3 ∧
    (View.ScrollDown { viewOf ['a', '\n', 'b', '\n', 'c'] ⟨0, 0⟩ (⟨0, 0⟩, ⟨0, 0⟩) with
      Topline := 1 } 2).Topline = 3 ∧
    (View.ScrollDown { viewOf ['a', '\n', 'b', '\n', 'c'] ⟨0, 0⟩ (⟨0, 0⟩, ⟨0, 0⟩) with
      Topline := 1 } 3).Topline = 2 ∧
    (∀ (v : View) (t n : Nat),
      0 ≤ (View.ScrollUp { v with Topline := (t : Int) } (n : Int)).Topline ∧
      (View.ScrollUp { v with Topline := (t : Int) } (n : Int)).Topline ≤ (t : Int)) := by
  refine ⟨?_, by decide, by decide, by decide, ?_⟩
  · intro v
    simp [View.ScrollDown]
  · intro v t n
    simp only [View.ScrollUp]
    split_ifs <;> simp <;> omega

/-- Claim C27: when the prompt is not canceled and the text parses as an integer `n` with
`1 ≤ n ≤ NumLines`, `GotoLine` puts the cursor at column 0 of line `n - 1`, changes nothing
else and returns true; when the prompt is canceled, the text does not parse, or `n` is
outside that range, the view is unchanged and the result is false. -/
theorem gotoLine_jumps_to_entered_line (Atoi : String → Option Int) (text : String)
    (canceled : Bool) (v : View) :
    (∀ n : Int, canceled = false → Atoi text = some n → 1 ≤ n → n ≤ v.Buf.NumLines →
      View.GotoLine Atoi (text, canceled) v =
        ({ v with Buf := { v.Buf with Cursor := { v.Buf.Cursor with Loc := ⟨0, n - 1⟩ } } },
          true)) ∧
    (canceled = true → View.GotoLine Atoi (text, canceled) v = (v, false)) ∧
    (Atoi text = none → View.GotoLine Atoi (text, canceled) v = (v, false)) ∧
    (∀ n : Int, Atoi text = some n → (n < 1 ∨ v.Buf.NumLines < n) →
      View.GotoLine Atoi (text, canceled) v = (v, false)) := by
  refine ⟨?_, ?_, ?_, ?_⟩
  · intro n hc hn h1 h2
    have hr : n - 1 < v.Buf.NumLines ∧ n - 1 ≥ 0 := by omega
    simp only [View.GotoLine, hc, hn, hr]
    simp
  · intro hc
    simp only [View.GotoLine, hc, if_true]
  · intro hn
    simp only [View.GotoLine, hn]
    split <;> rfl
  · intro n hn hr
    have hr : ¬ (n - 1 < v.Buf.NumLines ∧ n - 1 ≥ 0) := by omega
    simp only [View.GotoLine, hn, hr, if_false]
    split <;> rfl

/-- Claim C27, worked example: on a text of 3 lines the entry `2` moves the cursor to line
1, column 0; the entries `7` and `x` leave the view alone. -/
theorem gotoLine_jumps_to_entered_line_witness :
    View.GotoLine exampleAtoi ("2", false)
        (viewOf ['a', '\n', 'b', '\n', 'c'] ⟨1, 0⟩ (⟨0, 0⟩, ⟨0, 0⟩)) =
      (viewOf ['a', '\n', 'b', '\n', 'c'] ⟨0, 1⟩ (⟨0, 0⟩, ⟨0, 0⟩), true) ∧
    View.GotoLine exampleAtoi ("7", false)
        (viewOf ['a', '\n', 'b', '\n', 'c'] ⟨1, 0⟩ (⟨0, 0⟩, ⟨0, 0⟩)) =
      (viewOf ['a', '\n', 'b', '\n', 'c'] ⟨1, 0⟩ (⟨0, 0⟩, ⟨0, 0⟩), false) ∧
    View.GotoLine exampleAtoi ("x", false)
        (viewOf ['a', '\n', 'b', '\n', 'c'] ⟨1, 0⟩ (⟨0, 0⟩, ⟨0, 0⟩)) =
      (viewOf ['a', '\n', 'b', '\n', 'c'] ⟨1, 0⟩ (⟨0, 0⟩, ⟨0, 0⟩), false) :=
  ⟨(gotoLine_jumps_to_entered_line exampleAtoi "2" false
      (viewOf ['a', '\n', 'b', '\n', 'c'] ⟨1, 0⟩ (⟨0, 0⟩, ⟨0, 0⟩))).1 2 rfl (by decide)
      (by decide) (by decide),
    by decide, by decide⟩

/-- Claim C28: the line test of `NewBuffer` is `cursorStartY > NumLines`, so the start line
`NumLines + 1` puts the cursor on line `NumLines`, one past the last line; and the column is
clamped to the length of the line in bytes, so on the line `é` (one rune, two bytes) the
start column 2 is kept. -/
theorem newBuffer_cursor_outside_buffer :
    (bufferOf ['a']).NumLines = 1 ∧
    newBufferCursor (bufferOf ['a']) (some (2, 0)) = some ⟨0, 1⟩ ∧
    (bufferOf ['é']).Line 0 = some ['é'] ∧
    newBufferCursor (bufferOf ['é']) (some (1, 2)) = some ⟨2, 0⟩ ∧
    newBufferCursor (bufferOf ['a', '\n', 'b']) (some (9, 9)) = some ⟨1, 1⟩ ∧
    newBufferCursor (bufferOf ['a', '\n', 'b']) (some (-4, -4)) = some ⟨0, 0⟩ := by
  decide


/-! ## Claims about `Relocate` (`view.go`) -/

theorem bufferLine_of_nonneg (b : Buffer) (n : Int) (hn : 0 ≤ n) :
    ∃ str, b.Line n = some str := by
  unfold Buffer.Line
  by_cases h1 : n ≥ (b.lines.length : Int)
  · exact ⟨[], by simp only [h1, if_true]⟩
  · have h2 : ¬ n < 0 := by omega
    have h3 : n.toNat < b.lines.length := by omega
    exact ⟨b.lines[n.toNat], by
      simp only [h1, h2, if_false]
      exact List.getElem?_eq_getElem h3⟩

theorem bottomlineLoop_bounds (v : View) (tabsize : Int) (fuel : Nat) :
    ∀ lineN screenY numLines : Int, 0 ≤ lineN →
    ∃ r, bottomlineLoop v tabsize fuel lineN screenY numLines = some r ∧
      numLines ≤ r ∧ r ≤ numLines + fuel ∧ (0 < fuel → numLines + 1 ≤ r) := by
  induction fuel with
  | zero =>
    intro lineN screenY numLines _
    exact ⟨numLines, rfl, le_refl _, by simp, by simp⟩
  | succ fuel ih =>
    intro lineN screenY numLines hl
    obtain ⟨str, hstr⟩ := bufferLine_of_nonneg v.Buf lineN hl
    simp only [bottomlineLoop, hstr]
    split_ifs with hb
    · exact ⟨numLines + 1, rfl, by omega, by push_cast; omega, fun _ => le_refl _⟩
    · obtain ⟨r, hr, h1, h2, _⟩ := ih (lineN + 1)
        ((bottomlineRunes (v.Width - v.lineNumOffset) tabsize str 0 screenY).2 + 1)
        (numLines + 1) (by omega)
      exact ⟨r, hr, by omega, by push_cast; omega, fun _ => by omega⟩

theorem bottomline_bounds (v : View) (tabsize : Int) (hH : 1 ≤ v.Height)
    (hT : 0 ≤ v.Topline) :
    ∃ bottom, v.Bottomline tabsize = some bottom ∧
      1 ≤ bottom - v.Topline ∧ bottom - v.Topline ≤ v.Height := by
  obtain ⟨r, hr, _, h2, h3⟩ := bottomlineLoop_bounds v tabsize v.Height.toNat v.Topline 0 0 hT
  have hpos : 0 < v.Height.toNat := by omega
  have h3 := h3 hpos
  have hcast : ((v.Height.toNat : Nat) : Int) = v.Height := Int.toNat_of_nonneg (by omega)
  exact ⟨r + v.Topline, by simp only [View.Bottomline, hr], by omega, by omega⟩

/-- Claim C25: for a view with `Height ≥ 1`, `Width ≥ lineNumOffset + 1`, `Topline ≥ 0` and
a cursor line `Y < NumLines` (in particular with `0 ≤ Y`), `Relocate` returns, and afterwards
`Topline ≤ Y ≤ Topline + Height - 1` and `leftCol ≤ cx < leftCol + Width - lineNumOffset`
for the visual column `cx` of the cursor; the result is true exactly when the top line or
the left column changed, and nothing else changes. -/
theorem relocate_brings_cursor_into_view (v : View) (tabsize cx : Int) (hH : 1 ≤ v.Height)
    (hW : v.lineNumOffset + 1 ≤ v.Width) (hT : 0 ≤ v.Topline)
    (hY1 : v.Buf.Cursor.Loc.Y < v.Buf.NumLines) :
    ∃ v1 ret, v.Relocate tabsize cx = some (v1, ret) ∧
      v1.Topline ≤ v.Buf.Cursor.Loc.Y ∧ v.Buf.Cursor.Loc.Y ≤ v1.Topline + v.Height - 1 ∧
      v1.leftCol ≤ cx ∧ cx < v1.leftCol + v.Width - v.lineNumOffset ∧
      (ret = true ↔ (v1.Topline ≠ v.Topline ∨ v1.leftCol ≠ v.leftCol)) ∧
      v1 = { v with Topline := v1.Topline, leftCol := v1.leftCol } := by
  obtain ⟨bottom, hb, h1, h2⟩ := bottomline_bounds v tabsize hH hT
  simp only [View.Relocate, hb]
  refine ⟨_, _, rfl, ?_, ?_, ?_, ?_, ?_, rfl⟩
  · simp only []
    split_ifs <;> simp only [] <;> omega
  · simp only []
    split_ifs <;> simp only [] <;> omega
  · simp only []
    split_ifs <;> simp only [] <;> omega
  · simp only []
    split_ifs <;> simp only [] <;> omega
  · simp only []
    split_ifs <;> simp <;> omega

/-- Claim C25, worked example: a window of 2 lines at the top of a text of 3 lines with the
cursor on the last line is moved down by one line, and the result is true. -/
theorem relocate_brings_cursor_into_view_witness :
    View.Relocate { viewOf ['a', '\n', 'b', '\n', 'c'] ⟨0, 2⟩ (⟨0, 0⟩, ⟨0, 0⟩) with
        Height := 2 } 4 0 =
      some ({ viewOf ['a', '\n', 'b', '\n', 'c'] ⟨0, 2⟩ (⟨0, 0⟩, ⟨0, 0⟩) with
        Height := 2, Topline := 1 }, true) ∧
    ∃ v1 ret, View.Relocate { viewOf ['a', '\n', 'b', '\n', 'c'] ⟨0, 2⟩ (⟨0, 0⟩, ⟨0, 0⟩) with
        Height := 2 } 4 0 = some (v1, ret) ∧ v1.Topline ≤ 2 :=
  ⟨by decide,
    let ⟨v1, ret, h, h1, _⟩ := relocate_brings_cursor_into_view
      { viewOf ['a', '\n', 'b', '\n', 'c'] ⟨0, 2⟩ (⟨0, 0⟩, ⟨0, 0⟩) with Height := 2 } 4 0
      (by decide) (by decide) (by decide) (by decide)
    ⟨v1, ret, h, h1⟩⟩

/-! ## The result of `visualToCharPos` on every visual index -/

section Characterise

variable (RuneWidth : Char → Int) (tabsize : Int)

theorem W_le_succ (ht : 0 < tabsize) (str : List Char)
    (hrw : ∀ c ∈ str, c ≠ '\t' → 0 ≤ RuneWidth c) (k : Nat) (hk : k < str.length) :
    W RuneWidth tabsize str k ≤ W RuneWidth tabsize str (k + 1) := by
  have hc : str[k]? = some str[k] := List.getElem?_eq_getElem hk
  rw [W_succ_of_get RuneWidth tabsize str k _ hc]
  split
  · have := Int.emod_lt_of_pos (W RuneWidth tabsize str k) ht
    omega
  · rename_i hne
    have := hrw str[k] (List.getElem_mem hk) hne
    omega

theorem W_le_of_le (ht : 0 < tabsize) (str : List Char)
    (hrw : ∀ c ∈ str, c ≠ '\t' → 0 ≤ RuneWidth c) (j k : Nat) (hjk : j ≤ k)
    (hk : k ≤ str.length) :
    W RuneWidth tabsize str j ≤ W RuneWidth tabsize str k := by
  induction k with
  | zero =>
    have : j = 0 := by omega
    subst this
    exact le_refl _
  | succ k ih =>
    by_cases h : j = k + 1
    · subst h
      exact le_refl _
    · have := W_le_succ RuneWidth tabsize ht str hrw k (by omega)
      have := ih (by omega) (by omega)
      omega

theorem W_zero (str : List Char) : W RuneWidth tabsize str 0 = 0 := by
  simp [W]

/-- One iteration of the loop that does not return: from the state before rune `i + 1` to
the state before rune `i + 2`. -/
theorem visualToCharPosLoop_step (ht : 0 < tabsize) (str : List Char)
    (hrw : ∀ c ∈ str, c ≠ '\t' → 0 ≤ RuneWidth c) (v : Int) (i : Nat)
    (hi : i + 1 < str.length) (hlt : W RuneWidth tabsize str (i + 1) < v) :
    visualToCharPosLoop RuneWidth v tabsize (str.drop (i + 1)) false (i : Int)
        (W RuneWidth tabsize str i) (W RuneWidth tabsize str i)
        (W RuneWidth tabsize str (i + 1))
        (W RuneWidth tabsize str (i + 1) - W RuneWidth tabsize str i) =
      visualToCharPosLoop RuneWidth v tabsize (str.drop (i + 2)) false ((i + 1 : Nat) : Int)
        (W RuneWidth tabsize str (i + 1)) (W RuneWidth tabsize str (i + 1))
        (W RuneWidth tabsize str (i + 2))
        (W RuneWidth tabsize str (i + 2) - W RuneWidth tabsize str (i + 1)) := by
  have hnot : ¬ W RuneWidth tabsize str (i + 1) ≥ v := by omega
  have hc : str[i + 1]? = some str[i + 1] := List.getElem?_eq_getElem hi
  have hstep : W RuneWidth tabsize str (i + 2) = _ :=
    W_succ_of_get RuneWidth tabsize str (i + 1) _ hc
  have h0 : 0 ≤ W RuneWidth tabsize str (i + 1) := by
    have := W_le_of_le RuneWidth tabsize ht str hrw 0 (i + 1) (by omega) (by omega)
    rw [W_zero] at this
    exact this
  rw [List.drop_eq_getElem_cons hi, visualToCharPosLoop]
  simp only [hnot, if_false, Bool.false_eq_true]
  have hli : W RuneWidth tabsize str i +
      (W RuneWidth tabsize str (i + 1) - W RuneWidth tabsize str i) =
      W RuneWidth tabsize str (i + 1) := by ring
  have hcast : (i : Int) + 1 = ((i + 1 : Nat) : Int) := by push_cast; rfl
  rw [hli, hcast]
  by_cases htab : str[i + 1] = '\t'
  · simp only [htab, if_true] at hstep ⊢
    rw [if_neg (by omega), Int.tmod_eq_emod h0 (by omega)]
    have e1 : W RuneWidth tabsize str (i + 1) +
        (tabsize - W RuneWidth tabsize str (i + 1) % tabsize) =
        W RuneWidth tabsize str (i + 2) := by omega
    have e2 : tabsize - W RuneWidth tabsize str (i + 1) % tabsize =
        W RuneWidth tabsize str (i + 2) - W RuneWidth tabsize str (i + 1) := by omega
    rw [e1, e2]
  · simp only [htab, if_false] at hstep ⊢
    have e1 : W RuneWidth tabsize str (i + 1) + RuneWidth str[i + 1] =
        W RuneWidth tabsize str (i + 2) := by omega
    have e2 : RuneWidth str[i + 1] =
        W RuneWidth tabsize str (i + 2) - W RuneWidth tabsize str (i + 1) := by omega
    rw [e1, e2]

/-- The iterations up to rune `i + m + 1`, none of which returns. -/
theorem visualToCharPosLoop_run (ht : 0 < tabsize) (str : List Char)
    (hrw : ∀ c ∈ str, c ≠ '\t' → 0 ≤ RuneWidth c) (v : Int) (m : Nat) :
    ∀ i : Nat, i + m + 1 ≤ str.length →
      (∀ j : Nat, i < j → j ≤ i + m → W RuneWidth tabsize str j < v) →
      visualToCharPosLoop RuneWidth v tabsize (str.drop (i + 1)) false (i : Int)
          (W RuneWidth tabsize str i) (W RuneWidth tabsize str i)
          (W RuneWidth tabsize str (i + 1))
          (W RuneWidth tabsize str (i + 1) - W RuneWidth tabsize str i) =
        visualToCharPosLoop RuneWidth v tabsize (str.drop (i + m + 1)) false
          ((i + m : Nat) : Int)
          (W RuneWidth tabsize str (i + m)) (W RuneWidth tabsize str (i + m))
          (W RuneWidth tabsize str (i + m + 1))
          (W RuneWidth tabsize str (i + m + 1) - W RuneWidth tabsize str (i + m)) := by
  induction m with
  | zero =>
    intro i _ _
    rfl
  | succ m ih =>
    intro i hlen hlt
    rw [visualToCharPosLoop_step RuneWidth tabsize ht str hrw v i (by omega)
      (hlt (i + 1) (by omega) (by omega))]
    have h := ih (i + 1) (by omega) (fun j h1 h2 => hlt j (by omega) (by omega))
    have e : i + 1 + m = i + (m + 1) := by omega
    rw [e] at h
    exact h

/-- The first iteration on a visual index above 0: the state before rune 1. -/
theorem visualToCharPos_start (ht : 0 < tabsize) (c : Char) (cs : List Char) (v lineN : Int)
    (hv : 0 < v) :
    visualToCharPos RuneWidth v lineN (c :: cs) tabsize =
      visualToCharPosLoop RuneWidth v tabsize ((c :: cs).drop 1) false ((0 : Nat) : Int)
        (W RuneWidth tabsize (c :: cs) 0) (W RuneWidth tabsize (c :: cs) 0)
        (W RuneWidth tabsize (c :: cs) 1)
        (W RuneWidth tabsize (c :: cs) 1 - W RuneWidth tabsize (c :: cs) 0) := by
  have hc : (c :: cs)[0]? = some c := by simp
  have hstep := W_succ_of_get RuneWidth tabsize (c :: cs) 0 _ hc
  rw [W_zero] at hstep ⊢
  have hnot : ¬ (0 : Int) ≥ v := by omega
  unfold visualToCharPos
  rw [visualToCharPosLoop]
  simp only [hnot, if_false, if_true, List.drop_succ_cons, List.drop_zero, Nat.cast_zero,
    sub_zero]
  by_cases htab : c = '\t'
  · simp only [htab, if_true] at hstep ⊢
    rw [if_neg (by omega)]
    have e : tabsize - Int.tmod 0 tabsize = W RuneWidth tabsize ('\t' :: cs) 1 := by
      rw [hstep]
      simp
    rw [e, zero_add]
  · simp only [htab, if_false] at hstep ⊢
    have e : RuneWidth c = W RuneWidth tabsize (c :: cs) 1 := by
      rw [hstep]
      simp
    rw [e, zero_add]

/-- A visual index above 0 lies in exactly one step of the widths up to its first
bound. -/
theorem W_bracket (str : List Char) (v : Int) (hv : 0 < v) (m : Nat)
    (hm : v ≤ W RuneWidth tabsize str m) :
    ∃ p : Nat, p < m ∧ W RuneWidth tabsize str p < v ∧ v ≤ W RuneWidth tabsize str (p + 1) := by
  induction m with
  | zero =>
    rw [W_zero] at hm
    omega
  | succ m ih =>
    by_cases h : v ≤ W RuneWidth tabsize str m
    · obtain ⟨p, hp, h1, h2⟩ := ih h
      exact ⟨p, by omega, h1, h2⟩
    · exact ⟨m, by omega, by omega, hm⟩

/-- A visual index in the step of rune `p`, not the last rune, gives column `p`. -/
theorem visualToCharPos_inside (ht : 0 < tabsize) (str : List Char)
    (hrw : ∀ c ∈ str, c ≠ '\t' → 0 ≤ RuneWidth c) (v lineN : Int) (p : Nat)
    (hp : p + 1 < str.length) (hlo : W RuneWidth tabsize str p < v)
    (hhi : v ≤ W RuneWidth tabsize str (p + 1)) :
    visualToCharPos RuneWidth v lineN str tabsize =
      some ((p : Int), v - W RuneWidth tabsize str p, none) := by
  have hv : 0 < v := by
    have := W_le_of_le RuneWidth tabsize ht str hrw 0 p (by omega) (by omega)
    rw [W_zero] at this
    omega
  cases str with
  | nil => simp at hp
  | cons c cs =>
    rw [visualToCharPos_start RuneWidth tabsize ht c cs v lineN hv]
    have hrun := visualToCharPosLoop_run RuneWidth tabsize ht (c :: cs) hrw v p 0 (by omega)
      (fun j _ h2 => by
        have := W_le_of_le RuneWidth tabsize ht (c :: cs) hrw j p (by omega) (by omega)
        omega)
    simp only [Nat.zero_add] at hrun
    rw [hrun, List.drop_eq_getElem_cons hp, visualToCharPosLoop]
    simp [hhi]

/-- A visual index above the width of the line without its last rune gives -1. -/
theorem visualToCharPos_beyond (ht : 0 < tabsize) (str : List Char)
    (hrw : ∀ c ∈ str, c ≠ '\t' → 0 ≤ RuneWidth c) (v lineN : Int) (hv : 0 < v)
    (hlast : str = [] ∨ W RuneWidth tabsize str (str.length - 1) < v) :
    visualToCharPos RuneWidth v lineN str tabsize = some (-1, -1, none) := by
  cases str with
  | nil => rfl
  | cons c cs =>
    have hlast : W RuneWidth tabsize (c :: cs) cs.length < v := by
      rcases hlast with h | h
      · simp at h
      · simpa using h
    rw [visualToCharPos_start RuneWidth tabsize ht c cs v lineN hv]
    have hrun := visualToCharPosLoop_run RuneWidth tabsize ht (c :: cs) hrw v cs.length 0
      (by simp)
      (fun j _ h2 => by
        have := W_le_of_le RuneWidth tabsize ht (c :: cs) hrw j cs.length (by omega)
          (by simp)
        omega)
    simp only [Nat.zero_add] at hrun
    rw [hrun]
    have hd : (c :: cs).drop (cs.length + 1) = [] := by simp
    rw [hd, visualToCharPosLoop]

end Characterise

/-- Claim C29: for a tab size above 0 and runes of non-negative display width, with `W_p`
the width of the first `p` runes: on a non-empty line a visual index `v ≤ 0` gives column 0
with offset `v`; for `v > 0` the result is `(-1, -1)` exactly when the line is empty or `v`
exceeds `W_(n-1)`, the width of the line without its last rune; any other `v` gives a
column `p` and an offset `d` with `W_p + d = v` and `1 ≤ d ≤ W_(p+1) - W_p`, the width of
rune `p`. The call always returns and the style is always nil. -/
theorem visualToCharPos_characterised (RuneWidth : Char → Int) (tabsize : Int)
    (ht : 0 < tabsize) (str : List Char)
    (hrw : ∀ c ∈ str, c ≠ '\t' → 0 ≤ RuneWidth c) (v lineN : Int) :
    (str ≠ [] → v ≤ 0 → visualToCharPos RuneWidth v lineN str tabsize = some (0, v, none)) ∧
    (0 < v → (visualToCharPos RuneWidth v lineN str tabsize = some (-1, -1, none) ↔
      (str = [] ∨ W RuneWidth tabsize str (str.length - 1) < v))) ∧
    (0 < v → str ≠ [] → v ≤ W RuneWidth tabsize str (str.length - 1) →
      ∃ (p : Nat) (d : Int), p + 1 < str.length ∧
        visualToCharPos RuneWidth v lineN str tabsize = some ((p : Int), d, none) ∧
        W RuneWidth tabsize str p + d = v ∧ 1 ≤ d ∧
        d ≤ W RuneWidth tabsize str (p + 1) - W RuneWidth tabsize str p) ∧
    (∃ c d, visualToCharPos RuneWidth v lineN str tabsize = some (c, d, none)) := by
  have hin : 0 < v → str ≠ [] → v ≤ W RuneWidth tabsize str (str.length - 1) →
      ∃ (p : Nat) (d : Int), p + 1 < str.length ∧
        visualToCharPos RuneWidth v lineN str tabsize = some ((p : Int), d, none) ∧
        W RuneWidth tabsize str p + d = v ∧ 1 ≤ d ∧
        d ≤ W RuneWidth tabsize str (p + 1) - W RuneWidth tabsize str p := by
    intro hv hne hle
    obtain ⟨p, hp, hlo, hhi⟩ := W_bracket RuneWidth tabsize str v hv _ hle
    have hlen : 0 < str.length := List.length_pos.mpr hne
    exact ⟨p, v - W RuneWidth tabsize str p, by omega,
      visualToCharPos_inside RuneWidth tabsize ht str hrw v lineN p (by omega) hlo hhi,
      by omega, by omega, by omega⟩
  refine ⟨?_, ?_, hin, ?_⟩
  · intro hne hv
    cases str with
    | nil => exact absurd rfl hne
    | cons c cs =>
      unfold visualToCharPos
      rw [visualToCharPosLoop]
      simp [hv]
  · intro hv
    constructor
    · intro h
      by_contra hcon
      have hne : str ≠ [] := fun e => hcon (Or.inl e)
      have hle : v ≤ W RuneWidth tabsize str (str.length - 1) := by
        by_contra h2
        exact hcon (Or.inr (by omega))
      obtain ⟨p, d, _, hp, _⟩ := hin hv hne hle
      rw [hp] at h
      simp only [Option.some.injEq, Prod.mk.injEq] at h
      omega
    · exact visualToCharPos_beyond RuneWidth tabsize ht str hrw v lineN hv
  · obtain ⟨c, d, h, _⟩ := visualToCharPos_total RuneWidth tabsize lineN ht v str
    exact ⟨c, d, h⟩

/-- Claim C29, worked example: the line `a`, tab, `b` with tab size 4 has the widths 0, 1,
4; the visual index 3 lies in the tab and gives column 1 with offset 2. -/
theorem visualToCharPos_characterised_witness :
    visualToCharPos specRuneWidth 3 0 ['a', '\t', 'b'] 4 = some (1, 2, none) ∧
    visualToCharPos specRuneWidth 5 0 ['a', '\t', 'b'] 4 = some (-1, -1, none) ∧
    visualToCharPos specRuneWidth (-2) 0 ['a', '\t', 'b'] 4 = some (0, -2, none) ∧
    ∃ c d, visualToCharPos specRuneWidth 3 0 ['a', '\t', 'b'] 4 = some (c, d, none) :=
  ⟨by decide, by decide, by decide,
    (visualToCharPos_characterised specRuneWidth 4 (by decide) ['a', '\t', 'b']
      (fun c _ _ => le_trans (by decide) (specRuneWidth_pos c)) 3 0).2.2.2⟩

/-! ## Claims about the prompt line (`messenger.go`, `search.go`) -/

theorem indexInt_of_range (l : List String) (i : Int) (h0 : 0 ≤ i)
    (h1 : i < (l.length : Int)) : ∃ r, indexInt l i = some r := by
  have h2 : ¬ i < 0 := by omega
  have h3 : i.toNat < l.length := by omega
  exact ⟨l[i.toNat], by
    simp only [indexInt, h2, if_false]
    exact List.getElem?_eq_getElem h3⟩

theorem insert_of_range (str : List Char) (pos : Int) (value : List Char) (h0 : 0 ≤ pos)
    (h1 : pos ≤ Count str) :
    ∃ r, Insert str pos value = some r ∧ Count r = Count str + Count value := by
  unfold Count at h1
  have h2 : ¬ (pos < 0 ∨ pos > (str.length : Int)) := by omega
  refine ⟨str.take pos.toNat ++ value ++ str.drop pos.toNat,
    by simp only [Insert, h2, if_false], ?_⟩
  simp only [Count, List.length_append, List.length_take, List.length_drop]
  omega

/-- Each action of the prompt keeps the cursor inside the response and the history number
inside the history. -/
theorem promptAction_keeps (clip : List Char) (history : List String) (m : Messenger)
    (a : PromptAction) (hx0 : 0 ≤ m.cursorx) (hx1 : m.cursorx ≤ Count m.response.toList)
    (hh0 : 0 ≤ m.historyNum) (hh1 : m.historyNum < (history.length : Int)) :
    ∃ m1, m.promptAction clip history a = some m1 ∧
      0 ≤ m1.cursorx ∧ m1.cursorx ≤ Count m1.response.toList ∧
      0 ≤ m1.historyNum ∧ m1.historyNum < (history.length : Int) := by
  have hcount : ∀ l : List Char, 0 ≤ Count l := fun l => by simp [Count]
  cases a with
  | CursorUp =>
    by_cases h : m.historyNum > 0
    · obtain ⟨r, hr⟩ := indexInt_of_range history (m.historyNum - 1) (by omega) (by omega)
      exact ⟨{ m with historyNum := m.historyNum - 1, response := r,
                      cursorx := Count r.toList },
        by simp only [Messenger.promptAction, h, if_true, hr], hcount _, le_refl _,
        by show 0 ≤ m.historyNum - 1; omega,
        by show m.historyNum - 1 < (history.length : Int); omega⟩
    · exact ⟨m, by simp only [Messenger.promptAction, h, if_false], hx0, hx1, hh0, hh1⟩
  | CursorDown =>
    by_cases h : m.historyNum < (history.length : Int) - 1
    · obtain ⟨r, hr⟩ := indexInt_of_range history (m.historyNum + 1) (by omega) (by omega)
      exact ⟨{ m with historyNum := m.historyNum + 1, response := r,
                      cursorx := Count r.toList },
        by simp only [Messenger.promptAction, h, if_true, hr], hcount _, le_refl _,
        by show 0 ≤ m.historyNum + 1; omega,
        by show m.historyNum + 1 < (history.length : Int); omega⟩
    · exact ⟨m, by simp only [Messenger.promptAction, h, if_false], hx0, hx1, hh0, hh1⟩
  | CursorLeft =>
    by_cases h : m.cursorx > 0
    · exact ⟨{ m with cursorx := m.cursorx - 1 },
        by simp only [Messenger.promptAction, h, if_true],
        by show 0 ≤ m.cursorx - 1; omega,
        by show m.cursorx - 1 ≤ Count m.response.toList; omega, hh0, hh1⟩
    · exact ⟨m, by simp only [Messenger.promptAction, h, if_false], hx0, hx1, hh0, hh1⟩
  | CursorRight =>
    by_cases h : m.cursorx < Count m.response.toList
    · exact ⟨{ m with cursorx := m.cursorx + 1 },
        by simp only [Messenger.promptAction, h, if_true],
        by show 0 ≤ m.cursorx + 1; omega,
        by show m.cursorx + 1 ≤ Count m.response.toList; omega, hh0, hh1⟩
    · exact ⟨m, by simp only [Messenger.promptAction, h, if_false], hx0, hx1, hh0, hh1⟩
  | CursorStart => exact ⟨{ m with cursorx := 0 }, rfl, le_refl _, hcount _, hh0, hh1⟩
  | StartOfLine => exact ⟨{ m with cursorx := 0 }, rfl, le_refl _, hcount _, hh0, hh1⟩
  | CursorEnd =>
    exact ⟨{ m with cursorx := Count m.response.toList }, rfl, hcount _, le_refl _, hh0, hh1⟩
  | EndOfLine =>
    exact ⟨{ m with cursorx := Count m.response.toList }, rfl, hcount _, le_refl _, hh0, hh1⟩
  | Backspace =>
    by_cases h : m.cursorx > 0
    · have h2 : ¬ m.cursorx > (m.response.toList.length : Int) := by
        unfold Count at hx1
        omega
      refine ⟨{ m with
          response := String.mk (m.response.toList.take (m.cursorx - 1).toNat ++
            m.response.toList.drop m.cursorx.toNat)
          cursorx := m.cursorx - 1 },
        by simp only [Messenger.promptAction, h, if_true, h2, if_false],
        by show 0 ≤ m.cursorx - 1; omega, ?_, hh0, hh1⟩
      show m.cursorx - 1 ≤ Count (m.response.toList.take (m.cursorx - 1).toNat ++
            m.response.toList.drop m.cursorx.toNat)
      unfold Count at hx1
      simp only [Count, List.length_append, List.length_take, List.length_drop]
      omega
    · exact ⟨m, by simp only [Messenger.promptAction, h, if_false], hx0, hx1, hh0, hh1⟩
  | Paste =>
    obtain ⟨r, hr, hc⟩ := insert_of_range m.response.toList m.cursorx clip hx0 hx1
    have := hcount clip
    exact ⟨{ m with response := String.mk r, cursorx := m.cursorx + Count clip },
      by simp only [Messenger.promptAction, hr],
      by show 0 ≤ m.cursorx + Count clip; omega,
      by show m.cursorx + Count clip ≤ Count r; omega, hh0, hh1⟩
  | other => exact ⟨m, rfl, hx0, hx1, hh0, hh1⟩

theorem promptActions_keeps (clip : List Char) (history : List String)
    (as : List PromptAction) :
    ∀ m : Messenger, 0 ≤ m.cursorx → m.cursorx ≤ Count m.response.toList →
      0 ≤ m.historyNum → m.historyNum < (history.length : Int) →
      ∃ m1, Messenger.promptActions clip history m as = some m1 ∧
        0 ≤ m1.cursorx ∧ m1.cursorx ≤ Count m1.response.toList ∧
        0 ≤ m1.historyNum ∧ m1.historyNum < (history.length : Int) := by
  induction as with
  | nil =>
    intro m hx0 hx1 hh0 hh1
    exact ⟨m, rfl, hx0, hx1, hh0, hh1⟩
  | cons a as ih =>
    intro m hx0 hx1 hh0 hh1
    obtain ⟨m1, h1, a0, a1, b0, b1⟩ := promptAction_keeps clip history m a hx0 hx1 hh0 hh1
    obtain ⟨m2, h2, r⟩ := ih m1 a0 a1 b0 b1
    exact ⟨m2, by simp only [Messenger.promptActions, h1, h2], r⟩

/-- From a prompt cursor inside the response and a history number inside the history,
`Messenger.HandleEvent` returns on every event and both hold again. -/
theorem handleEvent_keeps (bindings : Key → Char → Int → List PromptAction)
    (clip : List Char) (m : Messenger) (event : Event) (history : List String)
    (hx0 : 0 ≤ m.cursorx) (hx1 : m.cursorx ≤ Count m.response.toList)
    (hh0 : 0 ≤ m.historyNum) (hh1 : m.historyNum < (history.length : Int)) :
    ∃ m1 h1, Messenger.HandleEvent bindings clip m event history = some (m1, h1) ∧
      0 ≤ m1.cursorx ∧ m1.cursorx ≤ Count m1.response.toList ∧
      0 ≤ m1.historyNum ∧ m1.historyNum < (h1.length : Int) ∧
      h1.length = history.length := by
  cases event with
  | EventKey key rune modifiers =>
    have hA : ∃ m1, (if key ≠ Key.KeyRune ∨ modifiers ≠ 0 then
          Messenger.promptActions clip history m (bindings key rune modifiers)
        else some m) = some m1 ∧
        0 ≤ m1.cursorx ∧ m1.cursorx ≤ Count m1.response.toList ∧
        0 ≤ m1.historyNum ∧ m1.historyNum < (history.length : Int) := by
      split_ifs
      · exact promptActions_keeps clip history _ m hx0 hx1 hh0 hh1
      · exact ⟨m, rfl, hx0, hx1, hh0, hh1⟩
    obtain ⟨m1, e1, a0, a1, b0, b1⟩ := hA
    have hB : ∃ m2, (if key = Key.KeyRune then
          match Insert m1.response.toList m1.cursorx [rune] with
          | none => none
          | some r => some { m1 with response := String.mk r, cursorx := m1.cursorx + 1 }
        else some m1) = some m2 ∧
        0 ≤ m2.cursorx ∧ m2.cursorx ≤ Count m2.response.toList ∧
        0 ≤ m2.historyNum ∧ m2.historyNum < (history.length : Int) := by
      split_ifs
      · obtain ⟨r, hr, hc⟩ := insert_of_range m1.response.toList m1.cursorx [rune] a0 a1
        have h1 : Count [rune] = 1 := rfl
        exact ⟨{ m1 with response := String.mk r, cursorx := m1.cursorx + 1 },
          by simp only [hr],
          by show 0 ≤ m1.cursorx + 1; omega,
          by show m1.cursorx + 1 ≤ Count r; omega, b0, b1⟩
      · exact ⟨m1, rfl, a0, a1, b0, b1⟩
    obtain ⟨m2, e2, c0, c1, d0, d1⟩ := hB
    have hr : ¬ (m2.historyNum < 0 ∨ m2.historyNum ≥ (history.length : Int)) := by omega
    refine ⟨m2, history.set m2.historyNum.toNat m2.response, ?_, c0, c1, d0, ?_, ?_⟩
    · simp only [Messenger.HandleEvent, e1, e2, hr, if_false]
    · rw [List.length_set]
      exact d1
    · exact List.length_set _ _ _
  | EventPaste text =>
    obtain ⟨r, hr, hc⟩ := insert_of_range m.response.toList m.cursorx text hx0 hx1
    have : 0 ≤ Count text := by simp [Count]
    exact ⟨{ m with response := String.mk r, cursorx := m.cursorx + Count text }, history,
      by simp only [Messenger.HandleEvent, hr],
      by show 0 ≤ m.cursorx + Count text; omega,
      by show m.cursorx + Count text ≤ Count r; omega, hh0, hh1, rfl⟩
  | other => exact ⟨m, history, rfl, hx0, hx1, hh0, hh1, rfl⟩

/-- Claim C30: when `0 ≤ cursorx ≤ Count(response)` and `0 ≤ historyNum < len(history)`
hold before `Messenger.HandleEvent`, the call returns for every key, paste or other event,
with the history of the same length, and both hold after it; `BeginSearch` establishes
both; and from such a state `HandleSearchEvent` never returns through the branch that ends
the search on `cursorx < 0`. -/
theorem prompt_cursor_stays_inside_response (Compile : String → Option Matcher)
    (bindings : Key → Char → Int → List PromptAction) (clip : List Char) (event : Event)
    (u : SearchSession)
    (hx0 : 0 ≤ u.messenger.cursorx)
    (hx1 : u.messenger.cursorx ≤ Count u.messenger.response.toList)
    (hh0 : 0 ≤ u.messenger.historyNum)
    (hh1 : u.messenger.historyNum < (u.searchHistory.length : Int)) :
    (∃ m1 h1, Messenger.HandleEvent bindings clip u.messenger event u.searchHistory =
        some (m1, h1) ∧
      0 ≤ m1.cursorx ∧ m1.cursorx ≤ Count m1.response.toList ∧
      0 ≤ m1.historyNum ∧ m1.historyNum < (h1.length : Int) ∧
      h1.length = u.searchHistory.length) ∧
    (∀ r, HandleSearchEvent Compile bindings clip event u = some r →
      r.2 ≠ SearchExit.endedCursorBelowZero) ∧
    (∀ (searchStr : String) (u0 : SearchSession),
      0 ≤ (BeginSearch searchStr u0).messenger.cursorx ∧
      (BeginSearch searchStr u0).messenger.cursorx ≤
        Count (BeginSearch searchStr u0).messenger.response.toList ∧
      0 ≤ (BeginSearch searchStr u0).messenger.historyNum ∧
      (BeginSearch searchStr u0).messenger.historyNum <
        ((BeginSearch searchStr u0).searchHistory.length : Int)) := by
  obtain ⟨m1, h1, e, a0, a1, b0, b1, hl⟩ :=
    handleEvent_keeps bindings clip u.messenger event u.searchHistory hx0 hx1 hh0 hh1
  refine ⟨⟨m1, h1, e, a0, a1, b0, b1, hl⟩, ?_, ?_⟩
  · intro r hr
    have hneg : ¬ m1.cursorx < 0 := by omega
    simp only [HandleSearchEvent, e, hneg, if_false] at hr
    split_ifs at hr
    · simp only [Option.some.injEq] at hr
      rw [← hr]
      simp
    · split at hr
      · simp at hr
      · simp only [Option.some.injEq] at hr
        rw [← hr]
        simp
    · simp only [Option.some.injEq] at hr
      rw [← hr]
      simp
    · split at hr
      · simp at hr
      · simp only [Option.some.injEq] at hr
        rw [← hr]
        simp
  · intro searchStr u0
    simp only [BeginSearch, Messenger.Search]
    split_ifs <;> simp [Count]

/-- Claim C30, worked example: in a search begun with the query `fo` on `"foo bar"`, typing
`o` gives the response `foo` with the cursor at 3 and selects the match; Backspace gives `f`
with the cursor at 1, Left twice stops at 0. -/
theorem prompt_cursor_stays_inside_response_witness :
    (HandleSearchEvent exampleCompile exampleBindings [] (Event.EventKey Key.KeyRune 'o' 0)
      exampleSession).map (fun r => (r.1.messenger.response, r.1.messenger.cursorx,
        r.1.searchHistory, r.2, r.1.ed.Buf.Cursor.CurSelection)) =
      some ("foo", 3, ["old", "foo"], SearchExit.searched, (⟨0, 0⟩, ⟨3, 0⟩)) ∧
    (HandleSearchEvent exampleCompile exampleBindings [] (Event.EventKey (Key.other 7) ' ' 0)
      exampleSession).map (fun r => (r.1.messenger.response, r.1.messenger.cursorx,
        r.1.searchHistory, r.2)) =
      some ("f", 1, ["old", "f"], SearchExit.searched) ∧
    ((Messenger.HandleEvent exampleBindings [] exampleSession.messenger
        (Event.EventKey (Key.other 5) ' ' 0) exampleSession.searchHistory).bind
      (fun r => Messenger.HandleEvent exampleBindings [] r.1
        (Event.EventKey (Key.other 3) ' ' 0) r.2)).map (fun r => r.1.cursorx) = some 0 ∧
    ∃ m1 h1, Messenger.HandleEvent exampleBindings [] exampleSession.messenger
        (Event.EventKey (Key.other 7) ' ' 0) exampleSession.searchHistory = some (m1, h1) ∧
      0 ≤ m1.cursorx :=
  ⟨by decide, by decide, by decide,
    let ⟨m1, h1, e, a0, _⟩ := (prompt_cursor_stays_inside_response exampleCompile
      exampleBindings [] (Event.EventKey (Key.other 7) ' ' 0) exampleSession
      (by decide) (by decide) (by decide) (by decide)).1
    ⟨m1, h1, e, a0⟩⟩

end Zed
